import Mathlib

/-!
# SimpleTimer: a shallow embedding of `SimpleTimer.h`

The class `SimpleTimer<T>` keeps `MAX_TIMERS` timer slots in parallel member
arrays.  The embedding keeps the parallel arrays (as functions on indices; only
indices below `MAX_TIMERS` are ever read or written), threads the object state
explicitly, and passes every reading of `millis()` as an argument.

* `int` and `long` values are integers; no arithmetic on them can overflow in
  the code (`numTimers++` is guarded by `numTimers < MAX_TIMERS`, `numRuns[i]++`
  by `numRuns[i] < maxNumRuns[i]`).
* `unsigned long` values are naturals; the one subtraction and the one
  comparison on them (in `run`) are taken modulo `2 ^ w`, where `w` is the width
  of `unsigned long` on the target.
* a member-function pointer is a natural number, `0` being the null pointer.
* an access outside an array (a negative index) and a call through a null
  member pointer have no defined result: the operation returns `none`.
* what a callback does to the timer object is a finite list of calls of the
  public interface (`run` excluded: it is not re-entrant).
-/

namespace SimpleTimer

/-! ## Constants -/

/-- Deferred call constant: do not call the callback function. -/
def DEFCALL_DONTRUN : Int := 0
/-- Deferred call constant: call the callback function, keep the timer. -/
def DEFCALL_RUNONLY : Int := 1
/-- Deferred call constant: call the callback function and delete the timer. -/
def DEFCALL_RUNANDDEL : Int := 2

/-- Maximum number of timers. -/
def MAX_TIMERS : Nat := 10

/-- Value of `n` in `setTimer` for a timer that runs forever. -/
def RUN_FOREVER : Int := 0
/-- Value of `n` in `setTimer` for a timer that runs once. -/
def RUN_ONCE : Int := 1

end SimpleTimer

/-- The data members of a `SimpleTimer<T>` object. -/
structure SimpleTimer where
  /-- Member `unsigned long prev_millis[MAX_TIMERS]`. -/
  prev_millis : Nat → Nat
  /-- Member `methodPtr_t callbacks[MAX_TIMERS]`; `0` is the null pointer. -/
  callbacks : Nat → Nat
  /-- Member `long delays[MAX_TIMERS]`. -/
  delays : Nat → Int
  /-- Member `int maxNumRuns[MAX_TIMERS]`. -/
  maxNumRuns : Nat → Int
  /-- Member `int numRuns[MAX_TIMERS]`. -/
  numRuns : Nat → Int
  /-- Member `boolean enabled[MAX_TIMERS]`. -/
  enabled : Nat → Bool
  /-- Member `int toBeCalled[MAX_TIMERS]`. -/
  toBeCalled : Nat → Int
  /-- Member `int numTimers`. -/
  numTimers : Int

namespace SimpleTimer

/-! ## Machine arithmetic -/

/-- Subtraction `a - b` of two `unsigned long` values of width `w`. -/
def usub (w a b : Nat) : Nat := (a + (2 ^ w - b % 2 ^ w)) % 2 ^ w

/-- Conversion of a `long` to `unsigned long` of width `w`. -/
def toULong (w : Nat) (d : Int) : Nat := (d % (2 : Int) ^ w).toNat

/-! ## Constructor -/

/-- Body of the constructor's loop for index `i`. -/
def ctorStep (current_millis : Nat) (s : SimpleTimer) (i : Nat) : SimpleTimer :=
  { s with
    enabled := Function.update s.enabled i false
    callbacks := Function.update s.callbacks i 0
    prev_millis := Function.update s.prev_millis i current_millis
    numRuns := Function.update s.numRuns i 0 }

/-- The constructor `SimpleTimer()`.  `mem` is the content of the object's
storage before construction (the constructor leaves `delays`, `maxNumRuns` and
`toBeCalled` as they are) and `current_millis` the reading of `millis()`. -/
def new (mem : SimpleTimer) (current_millis : Nat) : SimpleTimer :=
  { (List.range MAX_TIMERS).foldl (ctorStep current_millis) mem with numTimers := 0 }

/-! ## Registration -/

/-- Method `findFirstFreeSlot`. -/
def findFirstFreeSlot (s : SimpleTimer) : Int :=
  if s.numTimers ≥ (MAX_TIMERS : Int) then -1
  else
    match (List.range MAX_TIMERS).find? (fun i => s.callbacks i == 0) with
    | some i => (i : Int)
    | none => -1

/-- Method `setTimer(d, instancePtr, methodPtr, n)`; `millis` is the reading of
`millis()`.  Returns the new state and the returned `int`. -/
def setTimer (s : SimpleTimer) (d : Int) (methodPtr : Nat) (n : Int) (millis : Nat) :
    SimpleTimer × Int :=
  let freeTimer := s.findFirstFreeSlot
  if freeTimer < 0 then (s, -1)
  else
    ({ s with
        delays := Function.update s.delays freeTimer.toNat d
        callbacks := Function.update s.callbacks freeTimer.toNat methodPtr
        maxNumRuns := Function.update s.maxNumRuns freeTimer.toNat n
        enabled := Function.update s.enabled freeTimer.toNat true
        prev_millis := Function.update s.prev_millis freeTimer.toNat millis
        numTimers := s.numTimers + 1 },
      freeTimer)

/-- Method `setTimeout(d, instancePtr, methodPtr)`. -/
def setTimeout (s : SimpleTimer) (d : Int) (methodPtr : Nat) (millis : Nat) :
    SimpleTimer × Int :=
  s.setTimer d methodPtr RUN_ONCE millis

/-- Method `setInterval(d, instancePtr, methodPtr)`. -/
def setInterval (s : SimpleTimer) (d : Int) (methodPtr : Nat) (millis : Nat) :
    SimpleTimer × Int :=
  s.setTimer d methodPtr RUN_FOREVER millis

/-! ## Management -/

/-- Method `deleteTimer(numTimer)`. -/
def deleteTimer (s : SimpleTimer) (numTimer : Int) : Option SimpleTimer :=
  if numTimer ≥ (MAX_TIMERS : Int) then some s
  else if s.numTimers = 0 then some s
  else if numTimer < 0 then none
  else
    some { s with
      callbacks := Function.update s.callbacks numTimer.toNat 0
      enabled := Function.update s.enabled numTimer.toNat false
      delays := Function.update s.delays numTimer.toNat 0
      numRuns := Function.update s.numRuns numTimer.toNat 0
      numTimers := s.numTimers - 1 }

/-- Method `restartTimer(numTimer)`; `millis` is the reading of `millis()`. -/
def restartTimer (s : SimpleTimer) (numTimer : Int) (millis : Nat) : Option SimpleTimer :=
  if numTimer ≥ (MAX_TIMERS : Int) then some s
  else if numTimer < 0 then none
  else some { s with prev_millis := Function.update s.prev_millis numTimer.toNat millis }

/-- Method `isEnabled(numTimer)`. -/
def isEnabled (s : SimpleTimer) (numTimer : Int) : Option Bool :=
  if numTimer ≥ (MAX_TIMERS : Int) then some false
  else if numTimer < 0 then none
  else some (s.enabled numTimer.toNat)

/-- Method `enable(numTimer)`. -/
def enable (s : SimpleTimer) (numTimer : Int) : Option SimpleTimer :=
  if numTimer ≥ (MAX_TIMERS : Int) then some s
  else if numTimer < 0 then none
  else some { s with enabled := Function.update s.enabled numTimer.toNat true }

/-- Method `disable(numTimer)`. -/
def disable (s : SimpleTimer) (numTimer : Int) : Option SimpleTimer :=
  if numTimer ≥ (MAX_TIMERS : Int) then some s
  else if numTimer < 0 then none
  else some { s with enabled := Function.update s.enabled numTimer.toNat false }

/-- Method `toggle(numTimer)`. -/
def toggle (s : SimpleTimer) (numTimer : Int) : Option SimpleTimer :=
  if numTimer ≥ (MAX_TIMERS : Int) then some s
  else if numTimer < 0 then none
  else
    some { s with
      enabled := Function.update s.enabled numTimer.toNat (!s.enabled numTimer.toNat) }

/-- Method `getNumTimers`. -/
def getNumTimers (s : SimpleTimer) : Int := s.numTimers

/-- Method `getNumAvailableTimers`. -/
def getNumAvailableTimers (s : SimpleTimer) : Int := (MAX_TIMERS : Int) - s.numTimers

/-! ## Calls of the public interface -/

/-- A call of the public interface other than `run`, with its arguments and,
where the method reads the clock, the reading of `millis()`. -/
inductive Call where
  | setTimeout (d : Int) (methodPtr : Nat) (millis : Nat)
  | setInterval (d : Int) (methodPtr : Nat) (millis : Nat)
  | setTimer (d : Int) (methodPtr : Nat) (n : Int) (millis : Nat)
  | deleteTimer (numTimer : Int)
  | restartTimer (numTimer : Int) (millis : Nat)
  | isEnabled (numTimer : Int)
  | enable (numTimer : Int)
  | disable (numTimer : Int)
  | toggle (numTimer : Int)
  deriving DecidableEq, Repr

/-- Effect of one call on the object. -/
def Call.exec (c : Call) (s : SimpleTimer) : Option SimpleTimer :=
  match c with
  | .setTimeout d m t => some (s.setTimeout d m t).1
  | .setInterval d m t => some (s.setInterval d m t).1
  | .setTimer d m n t => some (s.setTimer d m n t).1
  | .deleteTimer k => s.deleteTimer k
  | .restartTimer k t => s.restartTimer k t
  | .isEnabled k => (s.isEnabled k).map (fun _ => s)
  | .enable k => s.enable k
  | .disable k => s.disable k
  | .toggle k => s.toggle k

/-- Effect of a sequence of calls, in order. -/
def execCalls (cs : List Call) (s : SimpleTimer) : Option SimpleTimer :=
  cs.foldlM (fun st c => c.exec st) s

/-! ## The polling method `run` -/

/-- Body of the first loop of `run` for index `i`. -/
def evalSlot (w : Nat) (current_millis : Nat) (s : SimpleTimer) (i : Nat) : SimpleTimer :=
  let s := { s with toBeCalled := Function.update s.toBeCalled i DEFCALL_DONTRUN }
  if s.callbacks i ≠ 0 then
    if usub w current_millis (s.prev_millis i) ≥ toULong w (s.delays i) then
      let s := { s with prev_millis := Function.update s.prev_millis i current_millis }
      if s.enabled i = true then
        if s.maxNumRuns i = RUN_FOREVER then
          { s with toBeCalled := Function.update s.toBeCalled i DEFCALL_RUNONLY }
        else if s.numRuns i < s.maxNumRuns i then
          let s := { s with
            toBeCalled := Function.update s.toBeCalled i DEFCALL_RUNONLY
            numRuns := Function.update s.numRuns i (s.numRuns i + 1) }
          if s.numRuns i ≥ s.maxNumRuns i then
            { s with toBeCalled := Function.update s.toBeCalled i DEFCALL_RUNANDDEL }
          else s
        else s
      else s
    else s
  else s

/-- The first loop of `run`: every index from `0` to `MAX_TIMERS - 1`. -/
def evalPass (w : Nat) (current_millis : Nat) (s : SimpleTimer) : SimpleTimer :=
  (List.range MAX_TIMERS).foldl (evalSlot w current_millis) s

/-- The behaviour of the callbacks during one `run`: `cbs i m` is the list of
calls that method `m`, called for slot `i`, makes on the timer object. -/
abbrev Callbacks := Nat → Nat → List Call

/-- Callbacks that make no call on the timer object. -/
def quiet : Callbacks := fun _ _ => []

/-- One callback invocation: the slot it was made for and the method called. -/
abbrev Invocation := Nat × Nat

/-- The call `(instancePtr->*callbacks[i])()`. -/
def invoke (cbs : Callbacks) (i : Nat) (st : SimpleTimer × List Invocation) :
    Option (SimpleTimer × List Invocation) :=
  if st.1.callbacks i = 0 then none
  else (execCalls (cbs i (st.1.callbacks i)) st.1).map
    (fun s' => (s', st.2 ++ [(i, st.1.callbacks i)]))

/-- Body of the second loop of `run` for index `i`; the second component is the
list of invocations made so far. -/
def dispatchSlot (cbs : Callbacks) (st : SimpleTimer × List Invocation) (i : Nat) :
    Option (SimpleTimer × List Invocation) :=
  if st.1.toBeCalled i = DEFCALL_DONTRUN then some st
  else if st.1.toBeCalled i = DEFCALL_RUNONLY then invoke cbs i st
  else if st.1.toBeCalled i = DEFCALL_RUNANDDEL then
    (invoke cbs i st).bind (fun st' => (st'.1.deleteTimer (i : Int)).map (fun s' => (s', st'.2)))
  else some st

/-- The second loop of `run`. -/
def dispatchPass (cbs : Callbacks) (s : SimpleTimer) : Option (SimpleTimer × List Invocation) :=
  (List.range MAX_TIMERS).foldlM (dispatchSlot cbs) (s, [])

/-- Method `run(instancePtr)`; `current_millis` is the reading of `millis()`.
Returns the new state and the invocations made, in order. -/
def run (w : Nat) (cbs : Callbacks) (current_millis : Nat) (s : SimpleTimer) :
    Option (SimpleTimer × List Invocation) :=
  dispatchPass cbs (evalPass w current_millis s)

/-- Successive calls of `run` at the clock readings `ts`; returns the final
state and, for each call, its invocations. -/
def runs (w : Nat) (cbs : Callbacks) :
    List Nat → SimpleTimer → Option (SimpleTimer × List (List Invocation))
  | [], s => some (s, [])
  | t :: ts, s =>
    (run w cbs t s).bind (fun r => (runs w cbs ts r.1).map (fun q => (q.1, r.2 :: q.2)))

/-! ## Definitions used to state and prove the properties -/

/-- Number of slots whose callback is set. -/
def occupiedCount (s : SimpleTimer) : Nat :=
  (List.range MAX_TIMERS).countP (fun i => s.callbacks i != 0)

/-- The slot index of a call, if it has one, lies in `[0, MAX_TIMERS)`. -/
def Call.InRange : Call → Prop
  | .deleteTimer k => 0 ≤ k ∧ k < (MAX_TIMERS : Int)
  | .restartTimer k _ => 0 ≤ k ∧ k < (MAX_TIMERS : Int)
  | .isEnabled k => 0 ≤ k ∧ k < (MAX_TIMERS : Int)
  | .enable k => 0 ≤ k ∧ k < (MAX_TIMERS : Int)
  | .disable k => 0 ≤ k ∧ k < (MAX_TIMERS : Int)
  | .toggle k => 0 ≤ k ∧ k < (MAX_TIMERS : Int)
  | _ => True

/-- The method pointer of a call, if it has one, is not null. -/
def Call.NonNull : Call → Prop
  | .setTimeout _ m _ => m ≠ 0
  | .setInterval _ m _ => m ≠ 0
  | .setTimer _ m _ _ => m ≠ 0
  | _ => True

/-- Every call made by the callbacks satisfies `ok`. -/
def AllCalls (ok : Call → Prop) (cbs : Callbacks) : Prop :=
  ∀ i m, ∀ c ∈ cbs i m, ok c

/-- States reachable from the constructor by calls of the public interface
that satisfy `ok`, the calls made by callbacks during `run` included. -/
inductive Reachable (w : Nat) (ok : Call → Prop) : SimpleTimer → Prop
  | init (mem : SimpleTimer) (current_millis : Nat) : Reachable w ok (new mem current_millis)
  | call {s s' : SimpleTimer} (c : Call) :
      Reachable w ok s → ok c → c.exec s = some s' → Reachable w ok s'
  | run {s s' : SimpleTimer} {log : List Invocation} (cbs : Callbacks) (current_millis : Nat) :
      Reachable w ok s → AllCalls ok cbs → run w cbs current_millis s = some (s', log) →
      Reachable w ok s'

/-- The test of the first loop of run for index i: the slot holds a
callback and its delay has elapsed at clock reading t. -/
def isDue (w t : Nat) (s : SimpleTimer) (i : Nat) : Bool :=
  s.callbacks i != 0 && decide (toULong w (s.delays i) ≤ usub w t (s.prev_millis i))

/-- Value of prev_millis[i] after the body of the first loop of run. -/
def prevAfter (w t : Nat) (s : SimpleTimer) (i : Nat) : Nat :=
  if isDue w t s i then t else s.prev_millis i

/-- Value of numRuns[i] after the body of the first loop of run. -/
def runsAfter (w t : Nat) (s : SimpleTimer) (i : Nat) : Int :=
  if isDue w t s i && s.enabled i && decide (s.maxNumRuns i ≠ RUN_FOREVER)
      && decide (s.numRuns i < s.maxNumRuns i) then s.numRuns i + 1
  else s.numRuns i

/-- Value of toBeCalled[i] after the body of the first loop of run. -/
def markAfter (w t : Nat) (s : SimpleTimer) (i : Nat) : Int :=
  if isDue w t s i && s.enabled i then
    if s.maxNumRuns i = RUN_FOREVER then DEFCALL_RUNONLY
    else if s.numRuns i < s.maxNumRuns i then
      if s.numRuns i + 1 ≥ s.maxNumRuns i then DEFCALL_RUNANDDEL else DEFCALL_RUNONLY
    else DEFCALL_DONTRUN
  else DEFCALL_DONTRUN

/-- The invocation the second loop of run makes for index j when no callback
changes the object: none unless toBeCalled[j] asks for a call. -/
def invAt (s : SimpleTimer) (j : Nat) : Option Invocation :=
  if s.toBeCalled j = DEFCALL_RUNONLY ∨ s.toBeCalled j = DEFCALL_RUNANDDEL then
    some (j, s.callbacks j)
  else none

/-- What the second loop of run, over the indices in l and with callbacks that
make no call on the object, leaves unchanged between s and s'. -/
def QuietFrame (l : List Nat) (s s' : SimpleTimer) : Prop :=
  s'.prev_millis = s.prev_millis ∧ s'.maxNumRuns = s.maxNumRuns ∧
  s'.toBeCalled = s.toBeCalled ∧
  (∀ j, ¬ (j ∈ l ∧ s.toBeCalled j = DEFCALL_RUNANDDEL) →
    s'.callbacks j = s.callbacks j ∧ s'.enabled j = s.enabled j ∧
    s'.delays j = s.delays j ∧ s'.numRuns j = s.numRuns j) ∧
  ((∀ j, j ∈ l → s.toBeCalled j ≠ DEFCALL_RUNANDDEL) → s'.numTimers = s.numTimers) ∧
  (((l.countP (fun j => decide (s.toBeCalled j = DEFCALL_RUNANDDEL)) : Nat) : Int) ≤ s.numTimers →
    s'.numTimers =
        s.numTimers - ((l.countP (fun j => decide (s.toBeCalled j = DEFCALL_RUNANDDEL)) : Nat) : Int) ∧
      ∀ j, j ∈ l → s.toBeCalled j = DEFCALL_RUNANDDEL →
        s'.callbacks j = 0 ∧ s'.enabled j = false ∧ s'.delays j = 0 ∧ s'.numRuns j = 0)

/-- Invariant: numTimers lies between 0 and MAX_TIMERS. -/
def NumOk (s : SimpleTimer) : Prop := 0 ≤ s.numTimers ∧ s.numTimers ≤ (MAX_TIMERS : Int)

/-- Invariant: a free slot has run count 0. -/
def FreeClean (s : SimpleTimer) : Prop :=
  ∀ i, i < MAX_TIMERS → s.callbacks i = 0 → s.numRuns i = 0

/-- Invariant: numTimers does not exceed the number of occupied slots. -/
def CountOk (s : SimpleTimer) : Prop := s.numTimers ≤ (occupiedCount s : Int)

/-- The arguments of one call of setTimer, with the reading of millis(). -/
structure Registration where
  /-- Argument d. -/
  d : Int
  /-- Argument methodPtr. -/
  methodPtr : Nat
  /-- Argument n. -/
  n : Int
  /-- Reading of millis() inside the call. -/
  millis : Nat

/-- Successive calls of setTimer; returns the final state and the values
returned by the calls, in order. -/
def registerAll : List Registration → SimpleTimer → SimpleTimer × List Int
  | [], s => (s, [])
  | r :: rs, s =>
    ((registerAll rs (s.setTimer r.d r.methodPtr r.n r.millis).1).1,
      (s.setTimer r.d r.methodPtr r.n r.millis).2 ::
        (registerAll rs (s.setTimer r.d r.methodPtr r.n r.millis).1).2)

/-- Object storage filled with zeros. -/
def zeroMem : SimpleTimer :=
  { prev_millis := fun _ => 0, callbacks := fun _ => 0, delays := fun _ => 0,
    maxNumRuns := fun _ => 0, numRuns := fun _ => 0, enabled := fun _ => false,
    toBeCalled := fun _ => 0, numTimers := 0 }

/-- Ten registrations of forever timers with method pointers 1 to 10. -/
def tenRegs : List Registration :=
  (List.range 10).map (fun i => { d := 1000, methodPtr := i + 1, n := 0, millis := 0 })

/-- The invocation run makes for slot j at clock reading t when no callback
changes the object. -/
def firing (w t : Nat) (s : SimpleTimer) (j : Nat) : Option Invocation :=
  if markAfter w t s j = DEFCALL_RUNONLY ∨ markAfter w t s j = DEFCALL_RUNANDDEL then
    some (j, s.callbacks j)
  else none

/-- Number of slots that the first loop of run marks for deletion. -/
def expiring (w t : Nat) (s : SimpleTimer) : Nat :=
  (List.range MAX_TIMERS).countP (fun j => decide (markAfter w t s j = DEFCALL_RUNANDDEL))

/-- The clock readings of the polls k+1, ..., k+m of a timer registered at
reading t0 with delay d, one poll per period, on a clock of width w. -/
def pollTimes (w t0 d k m : Nat) : List Nat :=
  (List.range m).map (fun i => (t0 + (k + i + 1) * d) % 2 ^ w)

/-- Calls after which numTimers is too low: one registration, then
deleteTimer on a slot that was never used. -/
def miscountCalls : List Call := [.setTimer 1000 7 0 0, .deleteTimer 5]

/-- The state after miscountCalls on a new object. -/
def miscountState : SimpleTimer := (execCalls miscountCalls (new zeroMem 0)).getD zeroMem

/-- Decision procedure for Call.InRange. -/
instance Call.decInRange : (c : Call) → Decidable c.InRange
  | .setTimeout _ _ _ => isTrue trivial
  | .setInterval _ _ _ => isTrue trivial
  | .setTimer _ _ _ _ => isTrue trivial
  | .deleteTimer k => inferInstanceAs (Decidable (0 ≤ k ∧ k < (MAX_TIMERS : Int)))
  | .restartTimer k _ => inferInstanceAs (Decidable (0 ≤ k ∧ k < (MAX_TIMERS : Int)))
  | .isEnabled k => inferInstanceAs (Decidable (0 ≤ k ∧ k < (MAX_TIMERS : Int)))
  | .enable k => inferInstanceAs (Decidable (0 ≤ k ∧ k < (MAX_TIMERS : Int)))
  | .disable k => inferInstanceAs (Decidable (0 ≤ k ∧ k < (MAX_TIMERS : Int)))
  | .toggle k => inferInstanceAs (Decidable (0 ≤ k ∧ k < (MAX_TIMERS : Int)))

/-- Decision procedure for Call.NonNull. -/
instance Call.decNonNull : (c : Call) → Decidable c.NonNull
  | .setTimeout _ m _ => inferInstanceAs (Decidable (m ≠ 0))
  | .setInterval _ m _ => inferInstanceAs (Decidable (m ≠ 0))
  | .setTimer _ m _ _ => inferInstanceAs (Decidable (m ≠ 0))
  | .deleteTimer _ => isTrue trivial
  | .restartTimer _ _ => isTrue trivial
  | .isEnabled _ => isTrue trivial
  | .enable _ => isTrue trivial
  | .disable _ => isTrue trivial
  | .toggle _ => isTrue trivial

/-- Two registrations, then deleteTimer(0): slot 0 is free, slot 1 is not. -/
def refillCalls : List Call :=
  [.setTimeout 1000 7 0, .setInterval 250 8 0, .deleteTimer 0]

/-- The state after refillCalls on a new object. -/
def refillState : SimpleTimer := (execCalls refillCalls (new zeroMem 0)).getD zeroMem

/-- The state after one setTimeout and one run that does not yet fire. -/
def oneTimerState : SimpleTimer :=
  ((run 32 quiet 10 ((new zeroMem 0).setTimeout 1000 7 0).1).map (fun r => r.1)).getD zeroMem

/-- A one-shot registration followed by deleteTimer on a slot that was never
used. -/
def zombieCalls : List Call := [.setTimeout 100 7 0, .deleteTimer 5]

/-- The state after zombieCalls on a new object and one poll at reading 100. -/
def zombieState : SimpleTimer :=
  (((execCalls zombieCalls (new zeroMem 0)).bind (run 32 quiet 100)).map (fun r => r.1)).getD
    zeroMem

/-- Callbacks in which method 7 cancels the timer in slot 0 and the other
methods make no call. -/
def selfCancel : Callbacks := fun _ m => if m = 7 then [Call.deleteTimer 0] else []

/-- The clock readings ts are successive period boundaries of a timer with
period p (as an unsigned value) whose baseline is prev: each reading is at
least p after the one before. -/
def atBoundaries (w p : Nat) : Nat → List Nat → Prop
  | _, [] => True
  | prev, t :: ts => p ≤ usub w t prev ∧ atBoundaries w p t ts

/-- Ten period boundaries of a timer with period 100 registered at reading 0. -/
def tenBoundaries : List Nat := (List.range 10).map (fun k => (k + 1) * 100)

/-- Decision procedure for atBoundaries. -/
instance decAtBoundaries (w p : Nat) :
    (prev : Nat) → (ts : List Nat) → Decidable (atBoundaries w p prev ts)
  | _, [] => isTrue trivial
  | _, t :: ts =>
    @instDecidableAnd _ _ (Nat.decLe _ _) (decAtBoundaries w p t ts)

/-- Calls after which deleteTimer on a free slot is not a no-op: one
registration, then enable(5) on the free slot 5. -/
def freeSlotCalls : List Call := [.setInterval 1000 7 0, .enable 5]

/-- Two forever timers with period 100 in slots 0 and 1, with methods 7 and 8,
registered at reading 0. -/
def twoTimers : SimpleTimer :=
  (execCalls [.setInterval 100 7 0, .setInterval 100 8 0] (new zeroMem 0)).getD zeroMem

/-- Callbacks in which method 7 cancels the timer in slot 1 and registers a
forever timer with method 9 and period 5000 (the clock reads 100); the other
methods make no call. -/
def cancelAndRegister : Callbacks :=
  fun _ m => if m = 7 then [Call.deleteTimer 1, Call.setTimer 5000 9 0 100] else []

/-- A forever timer in slot 0 (method 7), a one-shot timer in slot 1 (method 8)
and a forever timer in slot 2 (method 9), all with period 100, registered at
reading 0. -/
def threeTimers : SimpleTimer :=
  (execCalls [.setInterval 100 7 0, .setTimeout 100 8 0, .setInterval 100 9 0]
    (new zeroMem 0)).getD zeroMem

/-- Callbacks in which method 7 cancels the timer in slot 1; the other methods
make no call. -/
def cancelNext : Callbacks := fun _ m => if m = 7 then [Call.deleteTimer 1] else []

/-- Slot i holds the callback cb with run limit n and has not run yet. -/
def Unrun (i cb : Nat) (n : Int) (s : SimpleTimer) : Prop :=
  s.callbacks i = cb ∧ s.maxNumRuns i = n ∧ s.numRuns i = 0

/-- Slot i cannot be marked by the first loop of run: it is free, or disabled,
or has a run limit other than RUN_FOREVER that its run count has reached. -/
def Stuck (i : Nat) (s : SimpleTimer) : Prop :=
  s.callbacks i = 0 ∨ s.enabled i = false ∨
    (s.maxNumRuns i ≠ RUN_FOREVER ∧ ¬ s.numRuns i < s.maxNumRuns i)

/-- The clock reading of the first of the polls at the readings us, with logs
ls, that makes an invocation for slot i. -/
def firstFiring (i : Nat) : List Nat → List (List Invocation) → Option Nat
  | u :: us, l :: ls => if l.any (fun e => e.1 == i) then some u else firstFiring i us ls
  | _, _ => none

/-- The call c is not deleteTimer, disable or toggle on slot i. -/
def Call.Spares (i : Nat) (c : Call) : Prop :=
  c ≠ Call.deleteTimer (i : Int) ∧ c ≠ Call.disable (i : Int) ∧ c ≠ Call.toggle (i : Int)

/-- No call made by the callbacks is deleteTimer, disable or toggle on slot i. -/
def SparesSlot (i : Nat) (cbs : Callbacks) : Prop :=
  ∀ j m c, c ∈ cbs j m → Call.Spares i c

/-- Slot i holds an enabled forever timer with callback cb, delay d and run
count r. -/
def Forever (i cb : Nat) (d r : Int) (s : SimpleTimer) : Prop :=
  s.callbacks i = cb ∧ s.delays i = d ∧ s.maxNumRuns i = RUN_FOREVER ∧ s.enabled i = true ∧
    s.numRuns i = r

/-- Successive calls of run, each with its own clock reading and its own
behaviour of the callbacks; returns the final state and, for each call, its
invocations. -/
def polls (w : Nat) :
    List (Nat × Callbacks) → SimpleTimer → Option (SimpleTimer × List (List Invocation))
  | [], s => some (s, [])
  | p :: ps, s =>
    (run w p.2 p.1 s).bind (fun r => (polls w ps r.1).map (fun q => (q.1, r.2 :: q.2)))

/-- Every one of the successive polls ps, started in s, finds slot i at a
period boundary: the elapsed time since prev_millis[i], as it is when the poll
starts, is at least the delay of the slot. -/
def dueAtEach (w i : Nat) : List (Nat × Callbacks) → SimpleTimer → Prop
  | [], _ => True
  | p :: ps, s =>
    toULong w (s.delays i) ≤ usub w p.1 (s.prev_millis i) ∧
      ∀ s' log, run w p.2 p.1 s = some (s', log) → dueAtEach w i ps s'

/-- Every call made by the callbacks has its index in range and none of them is
deleteTimer. -/
def NoCancel (cbs : Callbacks) : Prop :=
  ∀ j m c, c ∈ cbs j m → Call.InRange c ∧ ∀ k, c ≠ Call.deleteTimer k

/-- Callbacks in which method 7 registers a one-shot timer with method 9 and
period 50, enables slot 0 and restarts slot 0, the clock reading now; the other
methods make no call. -/
def busyAt (now : Nat) : Callbacks :=
  fun _ m =>
    if m = 7 then [Call.setTimeout 50 9 now, Call.enable 0, Call.restartTimer 0 now] else []

instance decDueAtEach (w i : Nat) :
    (ps : List (Nat × Callbacks)) → (s : SimpleTimer) → Decidable (dueAtEach w i ps s)
  | [], _ => isTrue trivial
  | p :: ps, s =>
    match h : run w p.2 p.1 s with
    | none =>
      decidable_of_iff (toULong w (s.delays i) ≤ usub w p.1 (s.prev_millis i))
        ⟨fun a => ⟨a, fun s' log h' => by rw [h] at h'; cases h'⟩, fun x => x.1⟩
    | some r =>
      have := decDueAtEach w i ps r.1
      decidable_of_iff
        (toULong w (s.delays i) ≤ usub w p.1 (s.prev_millis i) ∧ dueAtEach w i ps r.1)
        ⟨fun a => ⟨a.1, fun s' log h' => by
            rw [h] at h'
            cases h'
            exact a.2⟩,
          fun x => ⟨x.1, x.2 r.1 r.2 h⟩⟩

/-- Callbacks in which method 7 restarts the timer in slot 2, the clock reading
105; the other methods make no call. -/
def restartLast : Callbacks := fun _ m => if m = 7 then [Call.restartTimer 2 105] else []

/-- Callbacks in which method 7 restarts the timer in slot 1, the clock reading
103; the other methods make no call. -/
def restartNext : Callbacks := fun _ m => if m = 7 then [Call.restartTimer 1 103] else []

/-- Callbacks in which method 7 cancels the timer in slot 1 and registers a
timer with method 11, period 5000 and run limit -1 (the clock reads 100); the
other methods make no call. -/
def cancelAndRegisterNegative : Callbacks :=
  fun _ m => if m = 7 then [Call.deleteTimer 1, Call.setTimer 5000 11 (-1) 100] else []

/-- A one-shot timer with period 1000 registered at reading 0 on a new object. -/
def timeoutTimer : SimpleTimer := ((new zeroMem 0).setTimeout 1000 7 0).1

/-- The call c registers a timer with delay d at clock reading t. -/
def Call.Registers (c : Call) (d : Int) (t : Nat) : Prop :=
  ∃ (m : Nat) (n : Int),
    c = Call.setTimer d m n t ∨ c = Call.setTimeout d m t ∨ c = Call.setInterval d m t

/-! ## Lemmas -/

theorem foldl_preserves {α β : Type} (P : α → Prop) (f : α → β → α)
    (h : ∀ a b, P a → P (f a b)) : ∀ (l : List β) (a : α), P a → P (l.foldl f a) := by
  intro l
  induction l with
  | nil => intro a ha; simpa using ha
  | cons b l ih => intro a ha; simpa using ih (f a b) (h a b ha)

theorem foldlM_preserves {α β : Type} (P : α → Prop) (f : α → β → Option α) (l : List β)
    (h : ∀ a b a', b ∈ l → P a → f a b = some a' → P a') :
    ∀ (a a' : α), P a → l.foldlM f a = some a' → P a' := by
  induction l with
  | nil => intro a a' ha hf; simp at hf; subst hf; exact ha
  | cons b l ih =>
    intro a a' ha hf
    simp only [List.foldlM_cons] at hf
    cases hb : f a b with
    | none => simp [hb] at hf
    | some a1 =>
      simp [hb] at hf
      exact ih (fun a b a' hm => h a b a' (List.mem_cons_of_mem _ hm)) a1 a'
        (h a b a1 (List.mem_cons_self _ _) ha hb) hf

theorem foldl_preserves_mem {α β : Type} (P : α → Prop) (f : α → β → α) (l : List β)
    (h : ∀ a b, b ∈ l → P a → P (f a b)) : ∀ (a : α), P a → P (l.foldl f a) := by
  induction l with
  | nil => intro a ha; simpa using ha
  | cons b l ih =>
    intro a ha
    simp only [List.foldl_cons]
    exact ih (fun a b hm => h a b (List.mem_cons_of_mem _ hm)) (f a b)
      (h a b (List.mem_cons_self _ _) ha)

theorem execCalls_preserves (P : SimpleTimer → Prop) (ok : Call → Prop)
    (hcall : ∀ c s s', ok c → P s → Call.exec c s = some s' → P s')
    (cs : List Call) (hok : ∀ c ∈ cs, ok c) (s s' : SimpleTimer)
    (hs : P s) (h : execCalls cs s = some s') : P s' := by
  unfold execCalls at h
  exact foldlM_preserves P (fun st c => c.exec st) cs
    (fun a c a' hm ha he => hcall c a a' (hok c hm) ha he) s s' hs h

theorem invoke_preserves (P : SimpleTimer → Prop) (ok : Call → Prop)
    (hcall : ∀ c s s', ok c → P s → Call.exec c s = some s' → P s')
    (cbs : Callbacks) (hok : AllCalls ok cbs) (i : Nat)
    (st st' : SimpleTimer × List Invocation)
    (hs : P st.1) (h : invoke cbs i st = some st') : P st'.1 := by
  unfold invoke at h
  split at h
  · simp at h
  · cases he : execCalls (cbs i (st.1.callbacks i)) st.1 with
    | none => simp [he] at h
    | some s1 =>
      simp [he] at h
      subst h
      exact execCalls_preserves P ok hcall _ (hok i _) st.1 s1 hs he

theorem dispatchSlot_preserves (P : SimpleTimer → Prop) (ok : Call → Prop)
    (hcall : ∀ c s s', ok c → P s → Call.exec c s = some s' → P s')
    (hdel : ∀ s s' (i : Nat), i < MAX_TIMERS → P s → s.deleteTimer (i : Int) = some s' → P s')
    (cbs : Callbacks) (hok : AllCalls ok cbs) (i : Nat) (hi : i < MAX_TIMERS)
    (st st' : SimpleTimer × List Invocation)
    (hs : P st.1) (h : dispatchSlot cbs st i = some st') : P st'.1 := by
  unfold dispatchSlot at h
  split at h
  · simp at h; subst h; exact hs
  · split at h
    · exact invoke_preserves P ok hcall cbs hok i st st' hs h
    · split at h
      · cases hv : invoke cbs i st with
        | none => simp [hv] at h
        | some st1 =>
          have h1 := invoke_preserves P ok hcall cbs hok i st st1 hs hv
          cases hd : st1.1.deleteTimer (i : Int) with
          | none => simp [hv, hd] at h
          | some s2 =>
            simp [hv, hd] at h
            subst h
            exact hdel st1.1 s2 i hi h1 hd
      · simp at h; subst h; exact hs

theorem run_preserves (w : Nat) (P : SimpleTimer → Prop) (ok : Call → Prop)
    (hcall : ∀ c s s', ok c → P s → Call.exec c s = some s' → P s')
    (heval : ∀ t s i, i < MAX_TIMERS → P s → P (evalSlot w t s i))
    (hdel : ∀ s s' (i : Nat), i < MAX_TIMERS → P s → s.deleteTimer (i : Int) = some s' → P s')
    (cbs : Callbacks) (hok : AllCalls ok cbs) (t : Nat) (s s' : SimpleTimer)
    (log : List Invocation) (hs : P s) (h : run w cbs t s = some (s', log)) : P s' := by
  unfold run dispatchPass at h
  have h1 : P (evalPass w t s) := by
    unfold evalPass
    apply foldl_preserves_mem P (evalSlot w t) (List.range MAX_TIMERS) _ s hs
    intro a b hm ha
    exact heval t a b (List.mem_range.mp hm) ha
  have key := @foldlM_preserves (SimpleTimer × List Invocation) Nat (fun st => P st.1)
    (dispatchSlot cbs) (List.range MAX_TIMERS)
  generalize evalPass w t s = e at h h1
  refine key ?_ (e, []) (s', log) h1 h
  intro a b a' hm ha hf
  exact dispatchSlot_preserves P ok hcall hdel cbs hok b (List.mem_range.mp hm) a a' ha hf

theorem Reachable.invariant {w : Nat} {ok : Call → Prop} (P : SimpleTimer → Prop)
    (hinit : ∀ mem t, P (new mem t))
    (hcall : ∀ c s s', ok c → P s → Call.exec c s = some s' → P s')
    (heval : ∀ t s i, i < MAX_TIMERS → P s → P (evalSlot w t s i))
    (hdel : ∀ s s' (i : Nat), i < MAX_TIMERS → P s → s.deleteTimer (i : Int) = some s' → P s')
    (s : SimpleTimer) (h : Reachable w ok s) : P s := by
  induction h with
  | init mem t => exact hinit mem t
  | call c _ hc he ih => exact hcall c _ _ hc ih he
  | run cbs t _ hok hr ih => exact run_preserves w P ok hcall heval hdel cbs hok t _ _ _ ih hr

/-! ## Registration: the slot chosen -/

theorem findFirstFreeSlot_full (s : SimpleTimer) (h : (MAX_TIMERS : Int) ≤ s.numTimers) :
    s.findFirstFreeSlot = -1 := by
  unfold findFirstFreeSlot
  rw [if_pos h]

theorem findFirstFreeSlot_none (s : SimpleTimer) (h : ∀ i, i < MAX_TIMERS → s.callbacks i ≠ 0) :
    s.findFirstFreeSlot = -1 := by
  unfold findFirstFreeSlot
  split
  · rfl
  · have hn : (List.range MAX_TIMERS).find? (fun i => s.callbacks i == 0) = none := by
      rw [List.find?_range_eq_none]
      intro i hi
      simpa using h i hi
    rw [hn]

theorem findFirstFreeSlot_some (s : SimpleTimer) (i : Nat) (hn : s.numTimers < (MAX_TIMERS : Int))
    (hi : i < MAX_TIMERS) (hfree : s.callbacks i = 0) (hlow : ∀ j, j < i → s.callbacks j ≠ 0) :
    s.findFirstFreeSlot = (i : Int) := by
  unfold findFirstFreeSlot
  rw [if_neg (not_le.mpr hn)]
  have hf : (List.range MAX_TIMERS).find? (fun i => s.callbacks i == 0) = some i := by
    rw [List.find?_range_eq_some]
    refine ⟨by simpa using hfree, List.mem_range.mpr hi, ?_⟩
    intro j hj
    simpa using hlow j hj
  rw [hf]

/-- The three outcomes of `findFirstFreeSlot`. -/
theorem findFirstFreeSlot_spec (s : SimpleTimer) :
    (s.findFirstFreeSlot = -1 ∧
        ((MAX_TIMERS : Int) ≤ s.numTimers ∨ ∀ i, i < MAX_TIMERS → s.callbacks i ≠ 0)) ∨
    (∃ i : Nat, s.findFirstFreeSlot = (i : Int) ∧ i < MAX_TIMERS ∧
        s.numTimers < (MAX_TIMERS : Int) ∧ s.callbacks i = 0 ∧
        ∀ j, j < i → s.callbacks j ≠ 0) := by
  by_cases hn : (MAX_TIMERS : Int) ≤ s.numTimers
  · exact Or.inl ⟨findFirstFreeSlot_full s hn, Or.inl hn⟩
  · by_cases hall : ∀ i, i < MAX_TIMERS → s.callbacks i ≠ 0
    · exact Or.inl ⟨findFirstFreeSlot_none s hall, Or.inr hall⟩
    · right
      have hex : ∃ i, i < MAX_TIMERS ∧ s.callbacks i = 0 := by
        by_contra hcon
        apply hall
        intro i hi h0
        exact hcon ⟨i, hi, h0⟩
      classical
      let i := Nat.find hex
      have hi : i < MAX_TIMERS ∧ s.callbacks i = 0 := Nat.find_spec hex
      have hlow : ∀ j, j < i → s.callbacks j ≠ 0 := by
        intro j hj h0
        exact Nat.find_min hex hj ⟨lt_trans hj hi.1, h0⟩
      exact ⟨i, findFirstFreeSlot_some s i (not_le.mp hn) hi.1 hi.2 hlow, hi.1,
        not_le.mp hn, hi.2, hlow⟩

theorem setTimer_fail (s : SimpleTimer) (d : Int) (m : Nat) (n : Int) (t : Nat)
    (h : s.findFirstFreeSlot = -1) : s.setTimer d m n t = (s, -1) := by
  unfold setTimer
  simp [h]

theorem setTimer_ok (s : SimpleTimer) (d : Int) (m : Nat) (n : Int) (t : Nat) (i : Nat)
    (h : s.findFirstFreeSlot = (i : Int)) :
    s.setTimer d m n t =
      ({ s with
          delays := Function.update s.delays i d
          callbacks := Function.update s.callbacks i m
          maxNumRuns := Function.update s.maxNumRuns i n
          enabled := Function.update s.enabled i true
          prev_millis := Function.update s.prev_millis i t
          numTimers := s.numTimers + 1 }, (i : Int)) := by
  unfold setTimer
  simp [h]

theorem deleteTimer_ok (s : SimpleTimer) (k : Nat) (hk : k < MAX_TIMERS) (hn : s.numTimers ≠ 0) :
    s.deleteTimer (k : Int) =
      some { s with
        callbacks := Function.update s.callbacks k 0
        enabled := Function.update s.enabled k false
        delays := Function.update s.delays k 0
        numRuns := Function.update s.numRuns k 0
        numTimers := s.numTimers - 1 } := by
  unfold deleteTimer
  have h1 : ¬ ((k : Int) ≥ (MAX_TIMERS : Int)) := by
    simp only [ge_iff_le, Nat.cast_le, not_le]; exact hk
  have h2 : ¬ ((k : Int) < 0) := by omega
  simp [h1, hn, h2]

theorem deleteTimer_empty (s : SimpleTimer) (k : Int) (hn : s.numTimers = 0) :
    s.deleteTimer k = some s := by
  unfold deleteTimer
  split
  · rfl
  · simp [hn]

theorem evalSlot_eq (w t : Nat) (s : SimpleTimer) (i : Nat) :
    evalSlot w t s i =
      { s with
        prev_millis := Function.update s.prev_millis i (prevAfter w t s i)
        numRuns := Function.update s.numRuns i (runsAfter w t s i)
        toBeCalled := Function.update s.toBeCalled i (markAfter w t s i) } := by
  by_cases h1 : s.callbacks i = 0
  · simp [evalSlot, isDue, prevAfter, runsAfter, markAfter, h1]
  · by_cases h2 : toULong w (s.delays i) ≤ usub w t (s.prev_millis i)
    · by_cases h3 : s.enabled i = true
      · by_cases h4 : s.maxNumRuns i = RUN_FOREVER
        · simp [evalSlot, isDue, prevAfter, runsAfter, markAfter, h1, h2, h3, h4]
        · by_cases h5 : s.numRuns i < s.maxNumRuns i
          · by_cases h6 : s.numRuns i + 1 ≥ s.maxNumRuns i
            · simp [evalSlot, isDue, prevAfter, runsAfter, markAfter, h1, h2, h3, h4, h5, h6]
            · simp [evalSlot, isDue, prevAfter, runsAfter, markAfter, h1, h2, h3, h4, h5, h6]
          · simp [evalSlot, isDue, prevAfter, runsAfter, markAfter, h1, h2, h3, h4, h5]
      · simp [evalSlot, isDue, prevAfter, runsAfter, markAfter, h1, h2, h3]
    · simp [evalSlot, isDue, prevAfter, runsAfter, markAfter, h1, h2]

theorem after_congr (w t : Nat) (s s1 : SimpleTimer) (j : Nat)
    (hc : s1.callbacks j = s.callbacks j) (hd : s1.delays j = s.delays j)
    (hp : s1.prev_millis j = s.prev_millis j) (he : s1.enabled j = s.enabled j)
    (hm : s1.maxNumRuns j = s.maxNumRuns j) (hn : s1.numRuns j = s.numRuns j) :
    isDue w t s1 j = isDue w t s j ∧ prevAfter w t s1 j = prevAfter w t s j ∧
      runsAfter w t s1 j = runsAfter w t s j ∧ markAfter w t s1 j = markAfter w t s j := by
  simp only [isDue, prevAfter, runsAfter, markAfter, hc, hd, hp, he, hm, hn, and_self]

theorem evalFold_spec (w t : Nat) (l : List Nat) (hl : l.Nodup) : ∀ s : SimpleTimer,
    (l.foldl (evalSlot w t) s).callbacks = s.callbacks ∧
    (l.foldl (evalSlot w t) s).delays = s.delays ∧
    (l.foldl (evalSlot w t) s).maxNumRuns = s.maxNumRuns ∧
    (l.foldl (evalSlot w t) s).enabled = s.enabled ∧
    (l.foldl (evalSlot w t) s).numTimers = s.numTimers ∧
    (∀ j, (l.foldl (evalSlot w t) s).prev_millis j =
      if j ∈ l then prevAfter w t s j else s.prev_millis j) ∧
    (∀ j, (l.foldl (evalSlot w t) s).numRuns j =
      if j ∈ l then runsAfter w t s j else s.numRuns j) ∧
    (∀ j, (l.foldl (evalSlot w t) s).toBeCalled j =
      if j ∈ l then markAfter w t s j else s.toBeCalled j) := by
  induction l with
  | nil => intro s; simp
  | cons a l ih =>
    intro s
    have hnd := List.nodup_cons.mp hl
    obtain ⟨h1, h2, h3, h4, h5, h6, h7, h8⟩ := ih hnd.2 (evalSlot w t s a)
    simp only [List.foldl_cons]
    generalize List.foldl (evalSlot w t) (evalSlot w t s a) l = r at h1 h2 h3 h4 h5 h6 h7 h8
    rw [evalSlot_eq] at h1 h2 h3 h4 h5 h6 h7 h8
    simp only at h1 h2 h3 h4 h5 h6 h7 h8
    have hcong : ∀ j, j ≠ a →
        prevAfter w t (evalSlot w t s a) j = prevAfter w t s j ∧
        runsAfter w t (evalSlot w t s a) j = runsAfter w t s j ∧
        markAfter w t (evalSlot w t s a) j = markAfter w t s j := by
      intro j hj
      have := after_congr w t s (evalSlot w t s a) j
        (by rw [evalSlot_eq]) (by rw [evalSlot_eq])
        (by rw [evalSlot_eq]; simp [Function.update_noteq hj])
        (by rw [evalSlot_eq]) (by rw [evalSlot_eq])
        (by rw [evalSlot_eq]; simp [Function.update_noteq hj])
      exact this.2
    rw [← evalSlot_eq] at h6 h7 h8
    refine ⟨h1, h2, h3, h4, h5, ?_, ?_, ?_⟩
    · intro j
      rw [h6 j]
      by_cases hj : j = a
      · subst hj
        simp [hnd.1]
      · have hm : (j ∈ a :: l) ↔ j ∈ l := by simp [hj]
        by_cases hjl : j ∈ l
        · simp [hjl, (hcong j hj).1]
        · simp [hjl, hj, Function.update_noteq hj]
    · intro j
      rw [h7 j]
      by_cases hj : j = a
      · subst hj
        simp [hnd.1]
      · by_cases hjl : j ∈ l
        · simp [hjl, (hcong j hj).2.1]
        · simp [hjl, hj, Function.update_noteq hj]
    · intro j
      rw [h8 j]
      by_cases hj : j = a
      · subst hj
        simp [hnd.1]
      · by_cases hjl : j ∈ l
        · simp [hjl, (hcong j hj).2.2]
        · simp [hjl, hj, Function.update_noteq hj]

theorem evalPass_callbacks (w t : Nat) (s : SimpleTimer) :
    (evalPass w t s).callbacks = s.callbacks := by
  unfold evalPass
  exact (evalFold_spec w t (List.range MAX_TIMERS) (List.nodup_range _) s).1

theorem evalPass_delays (w t : Nat) (s : SimpleTimer) :
    (evalPass w t s).delays = s.delays := by
  unfold evalPass
  exact (evalFold_spec w t (List.range MAX_TIMERS) (List.nodup_range _) s).2.1

theorem evalPass_maxNumRuns (w t : Nat) (s : SimpleTimer) :
    (evalPass w t s).maxNumRuns = s.maxNumRuns := by
  unfold evalPass
  exact (evalFold_spec w t (List.range MAX_TIMERS) (List.nodup_range _) s).2.2.1

theorem evalPass_enabled (w t : Nat) (s : SimpleTimer) :
    (evalPass w t s).enabled = s.enabled := by
  unfold evalPass
  exact (evalFold_spec w t (List.range MAX_TIMERS) (List.nodup_range _) s).2.2.2.1

theorem evalPass_numTimers (w t : Nat) (s : SimpleTimer) :
    (evalPass w t s).numTimers = s.numTimers := by
  unfold evalPass
  exact (evalFold_spec w t (List.range MAX_TIMERS) (List.nodup_range _) s).2.2.2.2.1

theorem evalPass_prev_millis (w t : Nat) (s : SimpleTimer) (j : Nat) (hj : j < MAX_TIMERS) :
    (evalPass w t s).prev_millis j = prevAfter w t s j := by
  have h := (evalFold_spec w t (List.range MAX_TIMERS) (List.nodup_range _) s).2.2.2.2.2.1 j
  rw [if_pos (List.mem_range.mpr hj)] at h
  unfold evalPass
  exact h

theorem evalPass_numRuns (w t : Nat) (s : SimpleTimer) (j : Nat) (hj : j < MAX_TIMERS) :
    (evalPass w t s).numRuns j = runsAfter w t s j := by
  have h := (evalFold_spec w t (List.range MAX_TIMERS) (List.nodup_range _) s).2.2.2.2.2.2.1 j
  rw [if_pos (List.mem_range.mpr hj)] at h
  unfold evalPass
  exact h

theorem evalPass_toBeCalled (w t : Nat) (s : SimpleTimer) (j : Nat) (hj : j < MAX_TIMERS) :
    (evalPass w t s).toBeCalled j = markAfter w t s j := by
  have h := (evalFold_spec w t (List.range MAX_TIMERS) (List.nodup_range _) s).2.2.2.2.2.2.2 j
  rw [if_pos (List.mem_range.mpr hj)] at h
  unfold evalPass
  exact h

theorem markAfter_cases (w t : Nat) (s : SimpleTimer) (i : Nat) :
    markAfter w t s i = DEFCALL_DONTRUN ∨
      ((markAfter w t s i = DEFCALL_RUNONLY ∨ markAfter w t s i = DEFCALL_RUNANDDEL) ∧
        s.callbacks i ≠ 0) := by
  unfold markAfter isDue
  by_cases h1 : s.callbacks i = 0
  · left; simp [h1]
  · split
    · split
      · right; exact ⟨Or.inl rfl, h1⟩
      · split
        · split
          · right; exact ⟨Or.inr rfl, h1⟩
          · right; exact ⟨Or.inl rfl, h1⟩
        · left; rfl
    · left; rfl

theorem invoke_quiet (i : Nat) (st : SimpleTimer × List Invocation) (h : st.1.callbacks i ≠ 0) :
    invoke quiet i st = some (st.1, st.2 ++ [(i, st.1.callbacks i)]) := by
  simp [invoke, quiet, execCalls, h]

theorem dispatchSlot_skip (cbs : Callbacks) (i : Nat) (st : SimpleTimer × List Invocation)
    (h1 : st.1.toBeCalled i ≠ DEFCALL_RUNONLY) (h2 : st.1.toBeCalled i ≠ DEFCALL_RUNANDDEL) :
    dispatchSlot cbs st i = some st := by
  unfold dispatchSlot
  simp [h1, h2]

theorem dispatchSlot_quiet_runonly (i : Nat) (st : SimpleTimer × List Invocation)
    (h1 : st.1.toBeCalled i = DEFCALL_RUNONLY) (h : st.1.callbacks i ≠ 0) :
    dispatchSlot quiet st i = some (st.1, st.2 ++ [(i, st.1.callbacks i)]) := by
  unfold dispatchSlot
  rw [h1, invoke_quiet i st h]
  simp [DEFCALL_RUNONLY, DEFCALL_DONTRUN]

theorem dispatchSlot_quiet_runanddel (i : Nat) (st : SimpleTimer × List Invocation)
    (h1 : st.1.toBeCalled i = DEFCALL_RUNANDDEL) (h : st.1.callbacks i ≠ 0) :
    dispatchSlot quiet st i =
      (st.1.deleteTimer (i : Int)).map (fun s' => (s', st.2 ++ [(i, st.1.callbacks i)])) := by
  unfold dispatchSlot
  rw [h1, invoke_quiet i st h]
  simp [DEFCALL_RUNONLY, DEFCALL_DONTRUN, DEFCALL_RUNANDDEL]

theorem dispatchFold_quiet (l : List Nat) (hl : l.Nodup) (hr : ∀ j, j ∈ l → j < MAX_TIMERS) :
    ∀ (s : SimpleTimer) (log : List Invocation),
      (∀ j, j ∈ l → s.toBeCalled j = DEFCALL_RUNONLY ∨ s.toBeCalled j = DEFCALL_RUNANDDEL →
        s.callbacks j ≠ 0) →
      ∃ s', l.foldlM (dispatchSlot quiet) (s, log) = some (s', log ++ l.filterMap (invAt s)) ∧
        QuietFrame l s s' := by
  induction l with
  | nil =>
    intro s log _
    refine ⟨s, by simp, rfl, rfl, rfl, fun _ _ => ⟨rfl, rfl, rfl, rfl⟩, fun _ => rfl, ?_⟩
    intro _
    simp
  | cons a l ih =>
    intro s log hcb
    have hnd := List.nodup_cons.mp hl
    have ha : a < MAX_TIMERS := hr a (List.mem_cons_self _ _)
    -- the step for index a
    have hstep : ∃ s1, dispatchSlot quiet (s, log) a = some (s1, log ++ (invAt s a).toList) ∧
        s1.prev_millis = s.prev_millis ∧ s1.maxNumRuns = s.maxNumRuns ∧
        s1.toBeCalled = s.toBeCalled ∧
        (∀ j, j ≠ a → s1.callbacks j = s.callbacks j ∧ s1.enabled j = s.enabled j ∧
          s1.delays j = s.delays j ∧ s1.numRuns j = s.numRuns j) ∧
        (s.toBeCalled a ≠ DEFCALL_RUNANDDEL → s1 = s) ∧
        (s.toBeCalled a = DEFCALL_RUNANDDEL → s.numTimers ≠ 0 →
          s1 = { s with
              callbacks := Function.update s.callbacks a 0
              enabled := Function.update s.enabled a false
              delays := Function.update s.delays a 0
              numRuns := Function.update s.numRuns a 0
              numTimers := s.numTimers - 1 }) := by
      by_cases h2 : s.toBeCalled a = DEFCALL_RUNANDDEL
      · have hc := hcb a (List.mem_cons_self _ _) (Or.inr h2)
        have hd := dispatchSlot_quiet_runanddel a (s, log) h2 hc
        have hinv : invAt s a = some (a, s.callbacks a) := by simp [invAt, h2]
        by_cases hn : s.numTimers = 0
        · rw [deleteTimer_empty s _ hn] at hd
          refine ⟨s, ?_, rfl, rfl, rfl, fun _ _ => ⟨rfl, rfl, rfl, rfl⟩, fun _ => rfl,
            fun _ hne => absurd hn hne⟩
          rw [hd, hinv]; rfl
        · rw [deleteTimer_ok s a ha hn] at hd
          refine ⟨{ s with
              callbacks := Function.update s.callbacks a 0
              enabled := Function.update s.enabled a false
              delays := Function.update s.delays a 0
              numRuns := Function.update s.numRuns a 0
              numTimers := s.numTimers - 1 }, ?_, rfl, rfl, rfl, ?_, fun hne => absurd h2 hne,
            fun _ _ => rfl⟩
          · rw [hd, hinv]; rfl
          · intro j hj
            simp [Function.update_noteq hj]
      · by_cases h1 : s.toBeCalled a = DEFCALL_RUNONLY
        · have hc := hcb a (List.mem_cons_self _ _) (Or.inl h1)
          have hd := dispatchSlot_quiet_runonly a (s, log) h1 hc
          have hinv : invAt s a = some (a, s.callbacks a) := by simp [invAt, h1]
          refine ⟨s, ?_, rfl, rfl, rfl, fun _ _ => ⟨rfl, rfl, rfl, rfl⟩, fun _ => rfl,
            fun h => absurd h h2⟩
          rw [hd, hinv]; rfl
        · have hd := dispatchSlot_skip quiet a (s, log) h1 h2
          have hinv : invAt s a = none := by simp [invAt, h1, h2]
          refine ⟨s, ?_, rfl, rfl, rfl, fun _ _ => ⟨rfl, rfl, rfl, rfl⟩, fun _ => rfl,
            fun h => absurd h h2⟩
          rw [hd, hinv]; simp
    obtain ⟨s1, hs1, hp1, hm1, ht1, hf1, he1, hdel1⟩ := hstep
    have hcb1 : ∀ j, j ∈ l →
        s1.toBeCalled j = DEFCALL_RUNONLY ∨ s1.toBeCalled j = DEFCALL_RUNANDDEL →
        s1.callbacks j ≠ 0 := by
      intro j hj hmark
      have hja : j ≠ a := fun h => hnd.1 (h ▸ hj)
      rw [ht1] at hmark
      rw [(hf1 j hja).1]
      exact hcb j (List.mem_cons_of_mem _ hj) hmark
    obtain ⟨s', hs', hp', hm', ht', hf', hn', hc'⟩ :=
      ih hnd.2 (fun j hj => hr j (List.mem_cons_of_mem _ hj)) s1 (log ++ (invAt s a).toList) hcb1
    have hfm : l.filterMap (invAt s1) = l.filterMap (invAt s) := by
      apply List.filterMap_congr
      intro j hj
      have hja : j ≠ a := fun h => hnd.1 (h ▸ hj)
      simp only [invAt, ht1, (hf1 j hja).1]
    refine ⟨s', ?_, hp'.trans hp1, hm'.trans hm1, ht'.trans ht1, ?_, ?_, ?_⟩
    · simp only [List.foldlM_cons, hs1, Option.bind_eq_bind, Option.some_bind, hs', hfm]
      cases hia : invAt s a <;> simp [List.filterMap_cons, hia]
    · intro j hj
      have hjl : ¬ (j ∈ l ∧ s1.toBeCalled j = DEFCALL_RUNANDDEL) := by
        rintro ⟨h1, h2⟩
        rw [ht1] at h2
        exact hj ⟨List.mem_cons_of_mem _ h1, h2⟩
      have h' := hf' j hjl
      by_cases hja : j = a
      · have hne : s.toBeCalled a ≠ DEFCALL_RUNANDDEL := by
          intro h2
          exact hj ⟨hja ▸ List.mem_cons_self _ _, hja ▸ h2⟩
        rw [he1 hne] at h'
        exact h'
      · have h1 := hf1 j hja
        exact ⟨h'.1.trans h1.1, h'.2.1.trans h1.2.1, h'.2.2.1.trans h1.2.2.1,
          h'.2.2.2.trans h1.2.2.2⟩
    · intro hno
      have hne : s.toBeCalled a ≠ DEFCALL_RUNANDDEL := hno a (List.mem_cons_self _ _)
      have h1 : s'.numTimers = s1.numTimers := by
        apply hn'
        intro j hj
        rw [ht1]
        exact hno j (List.mem_cons_of_mem _ hj)
      rw [h1, he1 hne]
    · intro hcnt
      rw [List.countP_cons] at hcnt ⊢
      rw [ht1] at hc'
      have hnotin : ¬ (a ∈ l ∧ s1.toBeCalled a = DEFCALL_RUNANDDEL) := fun h => hnd.1 h.1
      by_cases h2 : s.toBeCalled a = DEFCALL_RUNANDDEL
      · simp only [h2, decide_True, if_true, Nat.cast_add, Nat.cast_one] at hcnt ⊢
        have hpos : (0 : Int) ≤
            ((l.countP (fun j => decide (s.toBeCalled j = DEFCALL_RUNANDDEL)) : Nat) : Int) :=
          Int.natCast_nonneg _
        have hn0 : s.numTimers ≠ 0 := by omega
        have hs1eq := hdel1 h2 hn0
        have hn1 : s1.numTimers = s.numTimers - 1 := by rw [hs1eq]
        obtain ⟨hnum, hcl⟩ := hc' (by rw [hn1]; omega)
        refine ⟨by rw [hnum, hn1]; omega, ?_⟩
        intro j hj hj2
        rcases List.mem_cons.mp hj with rfl | hjl
        · have h' := hf' j hnotin
          rw [h'.1, h'.2.1, h'.2.2.1, h'.2.2.2, hs1eq]
          simp
        · exact hcl j hjl hj2
      · simp only [h2, decide_False, Bool.false_eq_true, if_false, Nat.add_zero] at hcnt ⊢
        have hs1eq := he1 h2
        obtain ⟨hnum, hcl⟩ := hc' (by rw [hs1eq]; exact hcnt)
        refine ⟨by rw [hnum, hs1eq], ?_⟩
        intro j hj hj2
        rcases List.mem_cons.mp hj with rfl | hjl
        · exact absurd hj2 h2
        · exact hcl j hjl hj2

theorem run_quiet (w t : Nat) (s : SimpleTimer) :
    ∃ s', run w quiet t s =
        some (s', (List.range MAX_TIMERS).filterMap (invAt (evalPass w t s))) ∧
      QuietFrame (List.range MAX_TIMERS) (evalPass w t s) s' := by
  have hpre : ∀ j, j ∈ List.range MAX_TIMERS →
      (evalPass w t s).toBeCalled j = DEFCALL_RUNONLY ∨
        (evalPass w t s).toBeCalled j = DEFCALL_RUNANDDEL →
      (evalPass w t s).callbacks j ≠ 0 := by
    intro j hj hm
    have hj' := List.mem_range.mp hj
    rw [evalPass_toBeCalled w t s j hj'] at hm
    rw [evalPass_callbacks]
    rcases markAfter_cases w t s j with h0 | ⟨_, hc⟩
    · rw [h0] at hm
      rcases hm with h | h <;> simp [DEFCALL_DONTRUN, DEFCALL_RUNONLY, DEFCALL_RUNANDDEL] at h
    · exact hc
  unfold run dispatchPass
  generalize evalPass w t s = e at hpre ⊢
  obtain ⟨s', h1, h2⟩ := dispatchFold_quiet (List.range MAX_TIMERS) (List.nodup_range _)
    (fun j hj => List.mem_range.mp hj) e [] hpre
  exact ⟨s', by simpa using h1, h2⟩

/-! ## Counting occupied slots -/

theorem countP_range_update (f : Nat → Nat) (k v : Nat) (n : Nat) :
    (List.range n).countP (fun i => Function.update f k v i != 0) +
        (if k < n ∧ f k ≠ 0 then 1 else 0) =
      (List.range n).countP (fun i => f i != 0) + (if k < n ∧ v ≠ 0 then 1 else 0) := by
  induction n with
  | zero => simp
  | succ n ih =>
    rw [List.range_succ, List.countP_append, List.countP_append, List.countP_singleton,
      List.countP_singleton]
    rcases Nat.lt_trichotomy k n with hlt | heq | hgt
    · have h1 : k < n + 1 := by omega
      have hne : n ≠ k := by omega
      simp only [hlt, h1, true_and] at ih ⊢
      rw [Function.update_noteq hne]
      omega
    · subst heq
      simp only [lt_irrefl, false_and, if_false, Nat.add_zero] at ih
      simp only [Nat.lt_succ_self, true_and, Function.update_same]
      rw [ih]
      simp only [bne_iff_ne, ne_eq]
      omega
    · have h1 : ¬ k < n + 1 := by omega
      have h2 : ¬ k < n := by omega
      have hne : n ≠ k := by omega
      simp only [h1, h2, false_and, if_false, Nat.add_zero] at ih ⊢
      rw [Function.update_noteq hne, ih]

theorem occupiedCount_le (s : SimpleTimer) : occupiedCount s ≤ MAX_TIMERS := by
  unfold occupiedCount
  have h := List.countP_le_length (fun i => s.callbacks i != 0) (l := List.range MAX_TIMERS)
  simpa using h

theorem occupiedCount_full (s : SimpleTimer) (h : MAX_TIMERS ≤ occupiedCount s) :
    ∀ i, i < MAX_TIMERS → s.callbacks i ≠ 0 := by
  have hle := occupiedCount_le s
  have heq : occupiedCount s = (List.range MAX_TIMERS).length := by
    rw [List.length_range]; omega
  unfold occupiedCount at heq
  rw [List.countP_eq_length] at heq
  intro i hi
  simpa using heq i (List.mem_range.mpr hi)

theorem occupiedCount_congr (s s' : SimpleTimer) (h : s'.callbacks = s.callbacks) :
    occupiedCount s' = occupiedCount s := by
  unfold occupiedCount
  rw [h]

theorem occupiedCount_set (s s' : SimpleTimer) (k m : Nat) (hk : k < MAX_TIMERS)
    (hfree : s.callbacks k = 0) (hm : m ≠ 0)
    (h : s'.callbacks = Function.update s.callbacks k m) :
    occupiedCount s' = occupiedCount s + 1 := by
  unfold occupiedCount
  rw [h]
  have := countP_range_update s.callbacks k m MAX_TIMERS
  simp only [hk, hfree, hm, true_and, ne_eq, not_true_eq_false, not_false_eq_true, if_true,
    if_false, Nat.add_zero] at this
  exact this

theorem occupiedCount_clear (s s' : SimpleTimer) (k : Nat)
    (h : s'.callbacks = Function.update s.callbacks k 0) :
    occupiedCount s ≤ occupiedCount s' + 1 ∧ occupiedCount s' ≤ occupiedCount s ∧
      (k < MAX_TIMERS → s.callbacks k ≠ 0 → occupiedCount s = occupiedCount s' + 1) := by
  unfold occupiedCount
  rw [h]
  have := countP_range_update s.callbacks k 0 MAX_TIMERS
  simp only [ne_eq, not_true_eq_false, and_false, if_false, Nat.add_zero] at this
  refine ⟨?_, ?_, ?_⟩
  · split at this <;> omega
  · split at this <;> omega
  · intro hk hc
    rw [if_pos ⟨hk, hc⟩] at this
    omega

/-! ## Effects of the single calls -/

theorem setTimer_cases (s : SimpleTimer) (d : Int) (m : Nat) (n : Int) (t : Nat) :
    (s.setTimer d m n t = (s, -1) ∧
        ((MAX_TIMERS : Int) ≤ s.numTimers ∨ ∀ i, i < MAX_TIMERS → s.callbacks i ≠ 0)) ∨
    (∃ i : Nat, i < MAX_TIMERS ∧ s.numTimers < (MAX_TIMERS : Int) ∧ s.callbacks i = 0 ∧
        (∀ j, j < i → s.callbacks j ≠ 0) ∧
        s.setTimer d m n t =
          ({ s with
              delays := Function.update s.delays i d
              callbacks := Function.update s.callbacks i m
              maxNumRuns := Function.update s.maxNumRuns i n
              enabled := Function.update s.enabled i true
              prev_millis := Function.update s.prev_millis i t
              numTimers := s.numTimers + 1 }, (i : Int))) := by
  rcases findFirstFreeSlot_spec s with ⟨h, hw⟩ | ⟨i, h, hi, hn, hf, hl⟩
  · exact Or.inl ⟨setTimer_fail s d m n t h, hw⟩
  · exact Or.inr ⟨i, hi, hn, hf, hl, setTimer_ok s d m n t i h⟩

theorem deleteTimer_cases (s s' : SimpleTimer) (k : Int) (h : s.deleteTimer k = some s') :
    s' = s ∨ ∃ i : Nat, k = (i : Int) ∧ i < MAX_TIMERS ∧ s.numTimers ≠ 0 ∧
      s' = { s with
        callbacks := Function.update s.callbacks i 0
        enabled := Function.update s.enabled i false
        delays := Function.update s.delays i 0
        numRuns := Function.update s.numRuns i 0
        numTimers := s.numTimers - 1 } := by
  by_cases h1 : k ≥ (MAX_TIMERS : Int)
  · left
    unfold deleteTimer at h
    rw [if_pos h1] at h
    exact (Option.some.inj h).symm
  · by_cases h2 : s.numTimers = 0
    · left
      rw [deleteTimer_empty s k h2] at h
      exact (Option.some.inj h).symm
    · by_cases h3 : k < 0
      · unfold deleteTimer at h
        rw [if_neg h1, if_neg h2, if_pos h3] at h
        exact absurd h (by simp)
      · right
        have hk : k = ((k.toNat : Nat) : Int) := by omega
        have hlt : k.toNat < MAX_TIMERS := by
          have : ((k.toNat : Nat) : Int) < (MAX_TIMERS : Int) := by omega
          exact_mod_cast this
        refine ⟨k.toNat, hk, hlt, h2, ?_⟩
        rw [hk, deleteTimer_ok s k.toNat hlt h2] at h
        exact (Option.some.inj h).symm

/-- The calls that leave callbacks, run counts and numTimers alone. -/
theorem exec_other (c : Call) (s s' : SimpleTimer) (h : c.exec s = some s')
    (h1 : ∀ d m t, c ≠ .setTimeout d m t) (h2 : ∀ d m t, c ≠ .setInterval d m t)
    (h3 : ∀ d m n t, c ≠ .setTimer d m n t) (h4 : ∀ k, c ≠ .deleteTimer k) :
    s'.callbacks = s.callbacks ∧ s'.numRuns = s.numRuns ∧ s'.numTimers = s.numTimers ∧
      s'.delays = s.delays ∧ s'.maxNumRuns = s.maxNumRuns ∧ s'.toBeCalled = s.toBeCalled := by
  cases c with
  | setTimeout d m t => exact absurd rfl (h1 d m t)
  | setInterval d m t => exact absurd rfl (h2 d m t)
  | setTimer d m n t => exact absurd rfl (h3 d m n t)
  | deleteTimer k => exact absurd rfl (h4 k)
  | restartTimer k t =>
    simp only [Call.exec, restartTimer] at h
    split at h
    · cases h; simp
    · split at h
      · cases h
      · cases h; simp
  | isEnabled k =>
    simp only [Call.exec, isEnabled] at h
    split at h
    · simp at h; subst h; simp
    · split at h
      · simp at h
      · simp at h; subst h; simp
  | enable k =>
    simp only [Call.exec, enable] at h
    split at h
    · cases h; simp
    · split at h
      · cases h
      · cases h; simp
  | disable k =>
    simp only [Call.exec, disable] at h
    split at h
    · cases h; simp
    · split at h
      · cases h
      · cases h; simp
  | toggle k =>
    simp only [Call.exec, toggle] at h
    split at h
    · cases h; simp
    · split at h
      · cases h
      · cases h; simp

/-- A generic way to show that every call preserves a property. -/
theorem exec_preserves (P : SimpleTimer → Prop) (ok : Call → Prop)
    (hset : ∀ s d m n t, (ok (.setTimer d m n t) ∨ (n = RUN_ONCE ∧ ok (.setTimeout d m t)) ∨
      (n = RUN_FOREVER ∧ ok (.setInterval d m t))) → P s → P (s.setTimer d m n t).1)
    (hdel : ∀ s s' k, P s → s.deleteTimer k = some s' → P s')
    (hoth : ∀ s s', P s → s'.callbacks = s.callbacks → s'.numRuns = s.numRuns →
      s'.numTimers = s.numTimers → s'.delays = s.delays → s'.maxNumRuns = s.maxNumRuns →
      s'.toBeCalled = s.toBeCalled → P s')
    (c : Call) (s s' : SimpleTimer) (hok : ok c) (hs : P s) (h : c.exec s = some s') : P s' := by
  by_cases h1 : ∃ d m t, c = .setTimeout d m t
  · obtain ⟨d, m, t, rfl⟩ := h1
    simp only [Call.exec, setTimeout, Option.some.injEq] at h
    subst h
    exact hset s d m RUN_ONCE t (Or.inr (Or.inl ⟨rfl, hok⟩)) hs
  by_cases h2 : ∃ d m t, c = .setInterval d m t
  · obtain ⟨d, m, t, rfl⟩ := h2
    simp only [Call.exec, setInterval, Option.some.injEq] at h
    subst h
    exact hset s d m RUN_FOREVER t (Or.inr (Or.inr ⟨rfl, hok⟩)) hs
  by_cases h3 : ∃ d m n t, c = .setTimer d m n t
  · obtain ⟨d, m, n, t, rfl⟩ := h3
    simp only [Call.exec, Option.some.injEq] at h
    subst h
    exact hset s d m n t (Or.inl hok) hs
  by_cases h4 : ∃ k, c = .deleteTimer k
  · obtain ⟨k, rfl⟩ := h4
    exact hdel s s' k hs h
  have := exec_other c s s' h (fun d m t hc => h1 ⟨d, m, t, hc⟩)
    (fun d m t hc => h2 ⟨d, m, t, hc⟩) (fun d m n t hc => h3 ⟨d, m, n, t, hc⟩)
    (fun k hc => h4 ⟨k, hc⟩)
  exact hoth s s' hs this.1 this.2.1 this.2.2.1 this.2.2.2.1 this.2.2.2.2.1 this.2.2.2.2.2

/-! ## The constructor -/

theorem ctorFold_spec (t : Nat) (l : List Nat) : ∀ mem : SimpleTimer,
    (∀ j, (l.foldl (ctorStep t) mem).callbacks j = if j ∈ l then 0 else mem.callbacks j) ∧
    (∀ j, (l.foldl (ctorStep t) mem).numRuns j = if j ∈ l then 0 else mem.numRuns j) ∧
    (∀ j, (l.foldl (ctorStep t) mem).enabled j = if j ∈ l then false else mem.enabled j) ∧
    (∀ j, (l.foldl (ctorStep t) mem).prev_millis j = if j ∈ l then t else mem.prev_millis j) ∧
    (l.foldl (ctorStep t) mem).delays = mem.delays ∧
    (l.foldl (ctorStep t) mem).maxNumRuns = mem.maxNumRuns ∧
    (l.foldl (ctorStep t) mem).toBeCalled = mem.toBeCalled := by
  induction l with
  | nil => intro mem; simp
  | cons a l ih =>
    intro mem
    obtain ⟨h1, h2, h3, h4, h5, h6, h7⟩ := ih (ctorStep t mem a)
    simp only [List.foldl_cons]
    refine ⟨?_, ?_, ?_, ?_, h5, h6, h7⟩
    · intro j
      rw [h1 j]
      by_cases hjl : j ∈ l
      · simp [hjl]
      · by_cases hja : j = a
        · simp [hja, ctorStep]
        · simp [hjl, hja, ctorStep, Function.update_noteq hja]
    · intro j
      rw [h2 j]
      by_cases hjl : j ∈ l
      · simp [hjl]
      · by_cases hja : j = a
        · simp [hja, ctorStep]
        · simp [hjl, hja, ctorStep, Function.update_noteq hja]
    · intro j
      rw [h3 j]
      by_cases hjl : j ∈ l
      · simp [hjl]
      · by_cases hja : j = a
        · simp [hja, ctorStep]
        · simp [hjl, hja, ctorStep, Function.update_noteq hja]
    · intro j
      rw [h4 j]
      by_cases hjl : j ∈ l
      · simp [hjl]
      · by_cases hja : j = a
        · simp [hja, ctorStep]
        · simp [hjl, hja, ctorStep, Function.update_noteq hja]

theorem new_numTimers (mem : SimpleTimer) (t : Nat) : (new mem t).numTimers = 0 := by
  unfold new
  rfl

theorem new_slot (mem : SimpleTimer) (t : Nat) (j : Nat) (hj : j < MAX_TIMERS) :
    (new mem t).callbacks j = 0 ∧ (new mem t).numRuns j = 0 ∧
      (new mem t).enabled j = false ∧ (new mem t).prev_millis j = t := by
  obtain ⟨h1, h2, h3, h4, _⟩ := ctorFold_spec t (List.range MAX_TIMERS) mem
  have hm : j ∈ List.range MAX_TIMERS := List.mem_range.mpr hj
  have e1 := h1 j
  have e2 := h2 j
  have e3 := h3 j
  have e4 := h4 j
  rw [if_pos hm] at e1 e2 e3 e4
  unfold new
  exact ⟨e1, e2, e3, e4⟩

/-! ## Invariants of the reachable states -/

theorem numOk_reachable (w : Nat) (ok : Call → Prop) (s : SimpleTimer)
    (h : Reachable w ok s) : NumOk s := by
  have hdel : ∀ (s s' : SimpleTimer) (k : Int), NumOk s → s.deleteTimer k = some s' →
      NumOk s' := by
    intro s s' k hs hd
    rcases deleteTimer_cases s s' k hd with rfl | ⟨i, _, _, hn, rfl⟩
    · exact hs
    · unfold NumOk at hs ⊢
      simp only
      omega
  refine Reachable.invariant NumOk ?_ ?_ ?_ ?_ s h
  · intro mem t
    unfold NumOk
    rw [new_numTimers]
    simp
  · intro c s s' hok hs hex
    refine exec_preserves NumOk ok ?_ hdel ?_ c s s' hok hs hex
    · intro s d m n t _ hs
      rcases setTimer_cases s d m n t with ⟨he, _⟩ | ⟨i, _, hn, _, _, he⟩
      · rw [he]; exact hs
      · rw [he]
        unfold NumOk at hs ⊢
        simp only
        omega
    · intro s s' hs _ _ hn _ _ _
      unfold NumOk at hs ⊢
      rw [hn]; exact hs
  · intro t s i _ hs
    unfold NumOk at hs ⊢
    rw [evalSlot_eq]
    exact hs
  · intro s s' i _ hs hd
    exact hdel s s' _ hs hd

theorem freeClean_reachable (w : Nat) (ok : Call → Prop) (s : SimpleTimer)
    (h : Reachable w ok s) : FreeClean s := by
  have hdel : ∀ (s s' : SimpleTimer) (k : Int), FreeClean s → s.deleteTimer k = some s' →
      FreeClean s' := by
    intro s s' k hs hd
    rcases deleteTimer_cases s s' k hd with rfl | ⟨i, _, _, hn, rfl⟩
    · exact hs
    · intro j hj hc
      simp only at hc ⊢
      by_cases hji : j = i
      · subst hji; simp
      · rw [Function.update_noteq hji] at hc ⊢
        exact hs j hj hc
  refine Reachable.invariant FreeClean ?_ ?_ ?_ ?_ s h
  · intro mem t j hj _
    exact (new_slot mem t j hj).2.1
  · intro c s s' hok hs hex
    refine exec_preserves FreeClean ok ?_ hdel ?_ c s s' hok hs hex
    · intro s d m n t _ hs
      rcases setTimer_cases s d m n t with ⟨he, _⟩ | ⟨i, hi, _, hf, _, he⟩
      · rw [he]; exact hs
      · rw [he]
        intro j hj hc
        simp only at hc ⊢
        by_cases hji : j = i
        · subst hji; exact hs j hj hf
        · rw [Function.update_noteq hji] at hc
          exact hs j hj hc
    · intro s s' hs hc hr _ _ _ _ j hj h0
      rw [hc] at h0
      rw [hr]
      exact hs j hj h0
  · intro t s i _ hs j hj hc
    rw [evalSlot_eq] at hc ⊢
    simp only at hc ⊢
    by_cases hji : j = i
    · subst hji
      simp only [Function.update_same]
      simp [runsAfter, isDue, hc, hs j hj hc]
    · rw [Function.update_noteq hji]
      exact hs j hj hc
  · intro s s' i _ hs hd
    exact hdel s s' _ hs hd

theorem countOk_reachable (w : Nat) (s : SimpleTimer)
    (h : Reachable w (fun c => c.InRange ∧ c.NonNull) s) : CountOk s := by
  have hdel : ∀ (s s' : SimpleTimer) (k : Int), CountOk s → s.deleteTimer k = some s' →
      CountOk s' := by
    intro s s' k hs hd
    rcases deleteTimer_cases s s' k hd with rfl | ⟨i, _, _, hn, rfl⟩
    · exact hs
    · unfold CountOk at hs ⊢
      have := (occupiedCount_clear s
        { s with
          callbacks := Function.update s.callbacks i 0
          enabled := Function.update s.enabled i false
          delays := Function.update s.delays i 0
          numRuns := Function.update s.numRuns i 0
          numTimers := s.numTimers - 1 } i rfl).1
      simp only at this ⊢
      omega
  refine Reachable.invariant CountOk ?_ ?_ ?_ ?_ s h
  · intro mem t
    unfold CountOk
    rw [new_numTimers]
    exact Int.natCast_nonneg _
  · intro c s s' hok hs hex
    refine exec_preserves CountOk (fun c => c.InRange ∧ c.NonNull) ?_ hdel ?_ c s s' hok hs hex
    · intro s d m n t hm hs
      have hm0 : m ≠ 0 := by
        rcases hm with h | ⟨_, h⟩ | ⟨_, h⟩
        · exact h.2
        · exact h.2
        · exact h.2
      rcases setTimer_cases s d m n t with ⟨he, _⟩ | ⟨i, hi, _, hf, _, he⟩
      · rw [he]; exact hs
      · rw [he]
        unfold CountOk at hs ⊢
        have := occupiedCount_set s
          { s with
            delays := Function.update s.delays i d
            callbacks := Function.update s.callbacks i m
            maxNumRuns := Function.update s.maxNumRuns i n
            enabled := Function.update s.enabled i true
            prev_millis := Function.update s.prev_millis i t
            numTimers := s.numTimers + 1 } i m hi hf hm0 rfl
        simp only at this ⊢
        rw [this]
        push_cast
        omega
    · intro s s' hs hc _ hn _ _ _
      unfold CountOk at hs ⊢
      rw [hn, occupiedCount_congr s s' hc]
      exact hs
  · intro t s i _ hs
    unfold CountOk at hs ⊢
    rw [occupiedCount_congr s _ (by rw [evalSlot_eq])]
    rw [evalSlot_eq]
    exact hs
  · intro s s' i _ hs hd
    exact hdel s s' _ hs hd

theorem reachable_execCalls (w : Nat) (ok : Call → Prop) (cs : List Call) :
    ∀ (s s' : SimpleTimer), Reachable w ok s → (∀ c, c ∈ cs → ok c) →
      execCalls cs s = some s' → Reachable w ok s' := by
  intro s s' hs hok he
  exact execCalls_preserves (Reachable w ok) ok
    (fun c a a' hc ha hex => Reachable.call c ha hc hex) cs hok s s' hs he

theorem registerAll_reachable (w : Nat) (ok : Call → Prop) (regs : List Registration) :
    ∀ s : SimpleTimer, Reachable w ok s →
      (∀ r, r ∈ regs → ok (.setTimer r.d r.methodPtr r.n r.millis)) →
      Reachable w ok (registerAll regs s).1 := by
  induction regs with
  | nil => intro s hs _; exact hs
  | cons r rs ih =>
    intro s hs hok
    simp only [registerAll]
    apply ih
    · exact Reachable.call (.setTimer r.d r.methodPtr r.n r.millis) hs
        (hok r (List.mem_cons_self _ _)) rfl
    · intro r' hr'
      exact hok r' (List.mem_cons_of_mem _ hr')

theorem occupiedCount_all (s : SimpleTimer) (h : ∀ i, i < MAX_TIMERS → s.callbacks i ≠ 0) :
    occupiedCount s = MAX_TIMERS := by
  unfold occupiedCount
  have : (List.range MAX_TIMERS).countP (fun i => s.callbacks i != 0) =
      (List.range MAX_TIMERS).length := by
    rw [List.countP_eq_length]
    intro i hi
    simpa using h i (List.mem_range.mp hi)
  rw [this, List.length_range]

theorem occupiedCount_update_le (s s' : SimpleTimer) (k m : Nat)
    (h : s'.callbacks = Function.update s.callbacks k m) :
    occupiedCount s' ≤ occupiedCount s + 1 := by
  unfold occupiedCount
  rw [h]
  have := countP_range_update s.callbacks k m MAX_TIMERS
  split at this <;> split at this <;> omega

/-- Registrations into a table with enough room all succeed. -/
theorem registerAll_room (regs : List Registration) : ∀ s : SimpleTimer,
    (occupiedCount s : Int) ≤ s.numTimers →
    s.numTimers + (regs.length : Int) ≤ (MAX_TIMERS : Int) →
    (registerAll regs s).1.numTimers = s.numTimers + (regs.length : Int) ∧
      (∀ x, x ∈ (registerAll regs s).2 → x ≠ -1) := by
  induction regs with
  | nil => intro s _ _; simp [registerAll]
  | cons r rs ih =>
    intro s hc hn
    simp only [List.length_cons, Nat.cast_add, Nat.cast_one] at hn
    have hnn : (0 : Int) ≤ (rs.length : Int) := Int.natCast_nonneg _
    rcases setTimer_cases s r.d r.methodPtr r.n r.millis with
      ⟨_, hfull | hall⟩ | ⟨i, hi, hlt, hf, hl, he⟩
    · omega
    · have := occupiedCount_all s hall
      rw [this] at hc
      omega
    · simp only [registerAll]
      rw [he]
      simp only
      have hcnt := occupiedCount_update_le s
        { s with
          delays := Function.update s.delays i r.d
          callbacks := Function.update s.callbacks i r.methodPtr
          maxNumRuns := Function.update s.maxNumRuns i r.n
          enabled := Function.update s.enabled i true
          prev_millis := Function.update s.prev_millis i r.millis
          numTimers := s.numTimers + 1 } i r.methodPtr rfl
      obtain ⟨h1, h2⟩ := ih
        { s with
          delays := Function.update s.delays i r.d
          callbacks := Function.update s.callbacks i r.methodPtr
          maxNumRuns := Function.update s.maxNumRuns i r.n
          enabled := Function.update s.enabled i true
          prev_millis := Function.update s.prev_millis i r.millis
          numTimers := s.numTimers + 1 } (by simp only; omega) (by simp only; omega)
      refine ⟨?_, ?_⟩
      · rw [h1]
        simp only [List.length_cons, Nat.cast_add, Nat.cast_one]
        omega
      · intro x hx
        rcases List.mem_cons.mp hx with rfl | hx
        · omega
        · exact h2 x hx

theorem new_occupiedCount (mem : SimpleTimer) (t : Nat) : occupiedCount (new mem t) = 0 := by
  unfold occupiedCount
  rw [List.countP_eq_zero]
  intro i hi
  simp [(new_slot mem t i (List.mem_range.mp hi)).1]

/-! ## Clock arithmetic -/

theorem usub_add (w b e : Nat) (he : e < 2 ^ w) : usub w ((b + e) % 2 ^ w) b = e := by
  unfold usub
  have hM : 0 < 2 ^ w := Nat.pow_pos (by decide)
  generalize 2 ^ w = M at he hM ⊢
  have h1 : (b + e) % M = (b % M + e) % M := by
    rw [Nat.add_mod, Nat.mod_eq_of_lt he]
  have hr : b % M < M := Nat.mod_lt _ hM
  generalize b % M = r at h1 hr ⊢
  by_cases h : r + e < M
  · rw [h1, Nat.mod_eq_of_lt h]
    have : r + e + (M - r) = e + M := by omega
    rw [this, Nat.add_mod_right, Nat.mod_eq_of_lt he]
  · have h2 : (r + e) % M = r + e - M := by
      rw [Nat.mod_eq_sub_mod (by omega), Nat.mod_eq_of_lt (by omega)]
    rw [h1, h2]
    have : r + e - M + (M - r) = e := by omega
    rw [this, Nat.mod_eq_of_lt he]

theorem usub_congr (w x b b' : Nat) (h : b % 2 ^ w = b' % 2 ^ w) : usub w x b = usub w x b' := by
  unfold usub
  rw [h]

theorem toULong_of_nonneg (w : Nat) (d : Int) (h0 : 0 ≤ d) (h1 : d < (2 : Int) ^ w) :
    toULong w d = d.toNat := by
  unfold toULong
  rw [Int.emod_eq_of_lt h0 h1]

/-! ## Lists over the slot indices -/

theorem filterMap_range_single {α : Type} (f : Nat → Option α) (x : α) (n : Nat)
    (h0 : f 0 = some x) (h : ∀ j, 0 < j → j < n + 1 → f j = none) :
    (List.range (n + 1)).filterMap f = [x] := by
  have hrest : List.filterMap f (List.map Nat.succ (List.range n)) = [] := by
    rw [List.filterMap_eq_nil_iff]
    intro j hj
    obtain ⟨i, hi, rfl⟩ := List.mem_map.mp hj
    exact h (i + 1) (Nat.succ_pos i) (by have := List.mem_range.mp hi; omega)
  rw [List.range_succ_eq_map, List.filterMap_cons, h0]
  simp only [hrest]

theorem filterMap_range_none {α : Type} (f : Nat → Option α) (n : Nat)
    (h : ∀ j, j < n → f j = none) : (List.range n).filterMap f = [] := by
  rw [List.filterMap_eq_nil_iff]
  intro j hj
  exact h j (List.mem_range.mp hj)

theorem countP_range_single (p : Nat → Bool) (n : Nat)
    (h0 : p 0 = true) (h : ∀ j, 0 < j → j < n + 1 → p j = false) :
    (List.range (n + 1)).countP p = 1 := by
  rw [List.range_succ_eq_map, List.countP_cons, h0]
  have : List.countP p (List.map Nat.succ (List.range n)) = 0 := by
    rw [List.countP_eq_zero]
    intro j hj
    obtain ⟨i, hi, rfl⟩ := List.mem_map.mp hj
    have := h (i + 1) (Nat.succ_pos i) (by have := List.mem_range.mp hi; omega)
    simp [this]
  rw [this]
  rfl

theorem evalPass_outside (w t : Nat) (s : SimpleTimer) (j : Nat) (hj : MAX_TIMERS ≤ j) :
    (evalPass w t s).prev_millis j = s.prev_millis j ∧
      (evalPass w t s).numRuns j = s.numRuns j ∧
      (evalPass w t s).toBeCalled j = s.toBeCalled j := by
  have h := evalFold_spec w t (List.range MAX_TIMERS) (List.nodup_range _) s
  have hm : j ∉ List.range MAX_TIMERS := by
    rw [List.mem_range]; omega
  have h1 := h.2.2.2.2.2.1 j
  have h2 := h.2.2.2.2.2.2.1 j
  have h3 := h.2.2.2.2.2.2.2 j
  rw [if_neg hm] at h1 h2 h3
  unfold evalPass
  exact ⟨h1, h2, h3⟩

/-- The run method with callbacks that make no call on the object: it returns,
and its result is described slot by slot. -/
theorem run_quiet_spec (w t : Nat) (s : SimpleTimer) :
    ∃ s', run w quiet t s = some (s', (List.range MAX_TIMERS).filterMap (firing w t s)) ∧
      s'.maxNumRuns = s.maxNumRuns ∧
      (∀ j, j < MAX_TIMERS →
        s'.prev_millis j = prevAfter w t s j ∧ s'.toBeCalled j = markAfter w t s j) ∧
      (∀ j, j < MAX_TIMERS → markAfter w t s j ≠ DEFCALL_RUNANDDEL →
        s'.callbacks j = s.callbacks j ∧ s'.enabled j = s.enabled j ∧
        s'.delays j = s.delays j ∧ s'.numRuns j = runsAfter w t s j) ∧
      (∀ j, MAX_TIMERS ≤ j →
        s'.prev_millis j = s.prev_millis j ∧ s'.toBeCalled j = s.toBeCalled j ∧
        s'.callbacks j = s.callbacks j ∧ s'.enabled j = s.enabled j ∧
        s'.delays j = s.delays j ∧ s'.numRuns j = s.numRuns j) ∧
      ((∀ j, j < MAX_TIMERS → markAfter w t s j ≠ DEFCALL_RUNANDDEL) →
        s'.numTimers = s.numTimers) ∧
      (((expiring w t s : Nat) : Int) ≤ s.numTimers →
        s'.numTimers = s.numTimers - ((expiring w t s : Nat) : Int) ∧
        ∀ j, j < MAX_TIMERS → markAfter w t s j = DEFCALL_RUNANDDEL →
          s'.callbacks j = 0 ∧ s'.enabled j = false ∧ s'.delays j = 0 ∧ s'.numRuns j = 0) := by
  obtain ⟨s', hrun, hp, hm, htb, hframe, hsame, hdel⟩ := run_quiet w t s
  have e1 := evalPass_callbacks w t s
  have e2 := evalPass_delays w t s
  have e3 := evalPass_maxNumRuns w t s
  have e4 := evalPass_enabled w t s
  have e5 := evalPass_numTimers w t s
  have e6 := evalPass_prev_millis w t s
  have e7 := evalPass_numRuns w t s
  have e8 := evalPass_toBeCalled w t s
  have e9 := evalPass_outside w t s
  have hlog : (List.range MAX_TIMERS).filterMap (invAt (evalPass w t s)) =
      (List.range MAX_TIMERS).filterMap (firing w t s) := by
    apply List.filterMap_congr
    intro j hj
    simp only [invAt, firing, e8 j (List.mem_range.mp hj), e1]
  have hcnt : (List.range MAX_TIMERS).countP
        (fun j => decide ((evalPass w t s).toBeCalled j = DEFCALL_RUNANDDEL)) =
      expiring w t s := by
    unfold expiring
    apply List.countP_congr
    intro j hj
    simp only [e8 j (List.mem_range.mp hj)]
  rw [hlog] at hrun
  rw [hcnt] at hdel
  generalize evalPass w t s = e at hrun hp hm htb hframe hsame hdel e1 e2 e3 e4 e5 e6 e7 e8 e9
  refine ⟨s', hrun, hm.trans e3, ?_, ?_, ?_, ?_, ?_⟩
  · intro j hj
    rw [hp, htb]
    exact ⟨e6 j hj, e8 j hj⟩
  · intro j hj hne
    have h := hframe j (by
      rintro ⟨_, h2⟩
      rw [e8 j hj] at h2
      exact hne h2)
    rw [e1, e2, e4, e7 j hj] at h
    exact h
  · intro j hj
    have h := hframe j (by
      rintro ⟨hmem, _⟩
      have := List.mem_range.mp hmem
      omega)
    rw [e1, e2, e4, (e9 j hj).2.1] at h
    rw [hp, htb]
    exact ⟨(e9 j hj).1, (e9 j hj).2.2, h⟩
  · intro hno
    rw [← e5]
    apply hsame
    intro j hj
    rw [e8 j (List.mem_range.mp hj)]
    exact hno j (List.mem_range.mp hj)
  · intro hle
    rw [e5] at hdel
    obtain ⟨h1, h2⟩ := hdel hle
    refine ⟨h1, ?_⟩
    intro j hj hmark
    exact h2 j (List.mem_range.mpr hj) (by rw [e8 j hj]; exact hmark)

theorem markAfter_free (w t : Nat) (s : SimpleTimer) (j : Nat) (h : s.callbacks j = 0) :
    markAfter w t s j = DEFCALL_DONTRUN ∧ runsAfter w t s j = s.numRuns j ∧
      prevAfter w t s j = s.prev_millis j := by
  simp [markAfter, runsAfter, prevAfter, isDue, h]

/-- A poll of a table in which every slot is free invokes nothing and leaves
every slot free. -/
theorem empty_poll (w t : Nat) (s : SimpleTimer)
    (hfree : ∀ j, j < MAX_TIMERS → s.callbacks j = 0) :
    ∃ s', run w quiet t s = some (s', []) ∧ (∀ j, j < MAX_TIMERS → s'.callbacks j = 0) ∧
      s'.numTimers = s.numTimers := by
  obtain ⟨s', hrun, _, _, hkeep, _, hsame, _⟩ := run_quiet_spec w t s
  have hmark : ∀ j, j < MAX_TIMERS → markAfter w t s j ≠ DEFCALL_RUNANDDEL := by
    intro j hj
    rw [(markAfter_free w t s j (hfree j hj)).1]
    decide
  have hlog : (List.range MAX_TIMERS).filterMap (firing w t s) = [] := by
    apply filterMap_range_none
    intro j hj
    simp [firing, (markAfter_free w t s j (hfree j hj)).1, DEFCALL_DONTRUN, DEFCALL_RUNONLY,
      DEFCALL_RUNANDDEL]
  rw [hlog] at hrun
  refine ⟨s', hrun, ?_, hsame hmark⟩
  intro j hj
  rw [(hkeep j hj (hmark j hj)).1]
  exact hfree j hj

theorem empty_polls (w : Nat) (ts : List Nat) : ∀ s : SimpleTimer,
    (∀ j, j < MAX_TIMERS → s.callbacks j = 0) →
    ∃ s', runs w quiet ts s = some (s', List.replicate ts.length []) ∧
      (∀ j, j < MAX_TIMERS → s'.callbacks j = 0) ∧ s'.numTimers = s.numTimers := by
  induction ts with
  | nil => intro s hfree; exact ⟨s, rfl, hfree, rfl⟩
  | cons t ts ih =>
    intro s hfree
    obtain ⟨s1, h1, hf1, hn1⟩ := empty_poll w t s hfree
    obtain ⟨s2, h2, hf2, hn2⟩ := ih s1 hf1
    refine ⟨s2, ?_, hf2, hn2.trans hn1⟩
    simp [runs, h1, h2, List.replicate_succ]

/-- One poll of a table whose only timer sits in slot 0, is enabled, has run
k of its N runs and is due. -/
theorem solo_poll (w : Nat) (s : SimpleTimer) (cb : Nat) (D : Int) (N k t : Nat)
    (hcb : cb ≠ 0) (hD0 : 0 ≤ D) (hD : D < (2 : Int) ^ w) (hk : k < N)
    (h0 : s.callbacks 0 = cb) (hfree : ∀ j, 0 < j → j < MAX_TIMERS → s.callbacks j = 0)
    (hd : s.delays 0 = D) (hen : s.enabled 0 = true) (hmax : s.maxNumRuns 0 = (N : Int))
    (hruns : s.numRuns 0 = (k : Int)) (hnum : s.numTimers = 1)
    (ht : usub w t (s.prev_millis 0) = D.toNat) :
    ∃ s', run w quiet t s = some (s', [(0, cb)]) ∧
      (∀ j, 0 < j → j < MAX_TIMERS → s'.callbacks j = 0) ∧
      (k + 1 < N → s'.callbacks 0 = cb ∧ s'.delays 0 = D ∧ s'.enabled 0 = true ∧
        s'.maxNumRuns 0 = (N : Int) ∧ s'.numRuns 0 = ((k + 1 : Nat) : Int) ∧
        s'.numTimers = 1 ∧ s'.prev_millis 0 = t) ∧
      (k + 1 = N → s'.callbacks 0 = 0 ∧ s'.numTimers = 0) := by
  obtain ⟨s', hrun, hmx, hpt, hkeep, _, hsame, hdel⟩ := run_quiet_spec w t s
  have hpos : 0 < MAX_TIMERS := by decide
  have hdue : isDue w t s 0 = true := by
    simp [isDue, h0, hcb, hd, toULong_of_nonneg w D hD0 hD, ht]
  have hNne : ¬ ((N : Int) = RUN_FOREVER) := by
    unfold RUN_FOREVER; omega
  have hlt : (k : Int) < (N : Int) := by exact_mod_cast hk
  have hmark0 : markAfter w t s 0 =
      if k + 1 = N then DEFCALL_RUNANDDEL else DEFCALL_RUNONLY := by
    simp only [markAfter, hdue, hen, Bool.and_self, if_true, hmax, hNne, if_false, hruns, hlt]
    by_cases hkN : k + 1 = N
    · rw [if_pos hkN, if_pos (by omega)]
    · rw [if_neg hkN, if_neg (by omega)]
  have hruns0 : runsAfter w t s 0 = ((k + 1 : Nat) : Int) := by
    simp [runsAfter, hdue, hen, hmax, hNne, hruns, hlt]
  have hprev0 : prevAfter w t s 0 = t := by
    simp [prevAfter, hdue]
  have hmarkj : ∀ j, 0 < j → j < MAX_TIMERS → markAfter w t s j = DEFCALL_DONTRUN :=
    fun j h1 h2 => (markAfter_free w t s j (hfree j h1 h2)).1
  have hlog : (List.range MAX_TIMERS).filterMap (firing w t s) = [(0, cb)] := by
    apply filterMap_range_single (firing w t s) (0, cb) 9
    · unfold firing
      rw [hmark0, h0]
      by_cases hkN : k + 1 = N <;> simp [hkN]
    · intro j h1 h2
      simp [firing, hmarkj j h1 h2, DEFCALL_DONTRUN, DEFCALL_RUNONLY, DEFCALL_RUNANDDEL]
  rw [hlog] at hrun
  have hrest : ∀ j, 0 < j → j < MAX_TIMERS → s'.callbacks j = 0 := by
    intro j h1 h2
    rw [(hkeep j h2 (by rw [hmarkj j h1 h2]; decide)).1]
    exact hfree j h1 h2
  refine ⟨s', hrun, hrest, ?_, ?_⟩
  · intro hkN
    have hm1 : markAfter w t s 0 = DEFCALL_RUNONLY := by
      rw [hmark0, if_neg (by omega)]
    have hne : markAfter w t s 0 ≠ DEFCALL_RUNANDDEL := by
      rw [hm1]; decide
    have hk0 := hkeep 0 hpos hne
    have hall : ∀ j, j < MAX_TIMERS → markAfter w t s j ≠ DEFCALL_RUNANDDEL := by
      intro j hj
      rcases Nat.eq_zero_or_pos j with rfl | hj0
      · exact hne
      · rw [hmarkj j hj0 hj]; decide
    refine ⟨hk0.1.trans h0, hk0.2.2.1.trans hd, hk0.2.1.trans hen, ?_, hk0.2.2.2.trans hruns0,
      (hsame hall).trans hnum, (hpt 0 hpos).1.trans hprev0⟩
    rw [hmx]; exact hmax
  · intro hkN
    have hm2 : markAfter w t s 0 = DEFCALL_RUNANDDEL := by
      rw [hmark0, if_pos hkN]
    have hexp : expiring w t s = 1 := by
      unfold expiring
      apply countP_range_single _ 9
      · simp [hm2]
      · intro j h1 h2
        simp [hmarkj j h1 h2, DEFCALL_DONTRUN, DEFCALL_RUNANDDEL]
    rw [hexp, hnum] at hdel
    obtain ⟨hn', hcl⟩ := hdel (by simp)
    exact ⟨(hcl 0 hpos hm2).1, by rw [hn']; simp⟩

theorem pollTimes_succ (w t0 d k m : Nat) :
    pollTimes w t0 d k (m + 1) = (t0 + (k + 1) * d) % 2 ^ w :: pollTimes w t0 d (k + 1) m := by
  unfold pollTimes
  rw [List.range_succ_eq_map, List.map_cons, List.map_map]
  congr 1
  apply List.map_congr_left
  intro i _
  simp only [Function.comp, Nat.succ_eq_add_one]
  congr 3
  omega

theorem toNat_lt_pow (w : Nat) (D : Int) (hD0 : 0 ≤ D) (hD : D < (2 : Int) ^ w) :
    D.toNat < 2 ^ w := by
  have h1 : ((D.toNat : Nat) : Int) = D := Int.toNat_of_nonneg hD0
  have h2 : ((D.toNat : Nat) : Int) < ((2 ^ w : Nat) : Int) := by
    rw [h1]; push_cast; exact hD
  exact_mod_cast h2

/-- The remaining m+1 polls of a counted timer that sits alone in slot 0 and
has run k of its k+m+1 runs: each poll invokes the callback once, and the last
one frees the slot. -/
theorem solo_runs (w : Nat) (cb : Nat) (D : Int) (N t0 : Nat)
    (hcb : cb ≠ 0) (hD0 : 0 ≤ D) (hD : D < (2 : Int) ^ w) :
    ∀ (m k : Nat) (s : SimpleTimer), k + (m + 1) = N →
      s.callbacks 0 = cb → (∀ j, 0 < j → j < MAX_TIMERS → s.callbacks j = 0) →
      s.delays 0 = D → s.enabled 0 = true → s.maxNumRuns 0 = (N : Int) →
      s.numRuns 0 = (k : Int) → s.numTimers = 1 →
      s.prev_millis 0 % 2 ^ w = (t0 + k * D.toNat) % 2 ^ w →
      ∃ s', runs w quiet (pollTimes w t0 D.toNat k (m + 1)) s =
          some (s', List.replicate (m + 1) [(0, cb)]) ∧
        (∀ j, j < MAX_TIMERS → s'.callbacks j = 0) ∧ s'.numTimers = 0 := by
  have hD' := toNat_lt_pow w D hD0 hD
  have htime : ∀ (k : Nat) (s : SimpleTimer),
      s.prev_millis 0 % 2 ^ w = (t0 + k * D.toNat) % 2 ^ w →
      usub w ((t0 + (k + 1) * D.toNat) % 2 ^ w) (s.prev_millis 0) = D.toNat := by
    intro k s hp
    rw [usub_congr w _ _ (t0 + k * D.toNat) hp]
    have : t0 + (k + 1) * D.toNat = (t0 + k * D.toNat) + D.toNat := by
      rw [Nat.add_mul]; omega
    rw [this]
    exact usub_add w _ _ hD'
  intro m
  induction m with
  | zero =>
    intro k s hk h0 hfree hd hen hmax hruns hnum hprev
    obtain ⟨s', hrun, hrest, _, hlast⟩ := solo_poll w s cb D N k
      ((t0 + (k + 1) * D.toNat) % 2 ^ w) hcb hD0 hD (by omega) h0 hfree hd hen hmax hruns hnum
      (htime k s hprev)
    have hfin := hlast (by omega)
    refine ⟨s', ?_, ?_, hfin.2⟩
    · rw [pollTimes_succ]
      simp [runs, hrun, pollTimes]
    · intro j hj
      rcases Nat.eq_zero_or_pos j with rfl | hj0
      · exact hfin.1
      · exact hrest j hj0 hj
  | succ m ih =>
    intro k s hk h0 hfree hd hen hmax hruns hnum hprev
    obtain ⟨s1, hrun, hrest, hnext, _⟩ := solo_poll w s cb D N k
      ((t0 + (k + 1) * D.toNat) % 2 ^ w) hcb hD0 hD (by omega) h0 hfree hd hen hmax hruns hnum
      (htime k s hprev)
    obtain ⟨g0, gd, gen, gmax, gruns, gnum, gprev⟩ := hnext (by omega)
    obtain ⟨s', hruns', hfree', hnum'⟩ := ih (k + 1) s1 (by omega) g0 hrest gd gen gmax gruns gnum
      (by rw [gprev, Nat.mod_mod])
    refine ⟨s', ?_, hfree', hnum'⟩
    rw [pollTimes_succ]
    simp only [runs, hrun, Option.some_bind, hruns', Option.map_some']
    rfl

/-- The state right after the first registration on a new object. -/
theorem first_registration (mem : SimpleTimer) (c0 : Nat) (D : Int) (cb : Nat) (n : Int)
    (t0 : Nat) :
    ((new mem c0).setTimer D cb n t0).2 = 0 ∧
    ((new mem c0).setTimer D cb n t0).1.callbacks 0 = cb ∧
    (∀ j, 0 < j → j < MAX_TIMERS → ((new mem c0).setTimer D cb n t0).1.callbacks j = 0) ∧
    ((new mem c0).setTimer D cb n t0).1.delays 0 = D ∧
    ((new mem c0).setTimer D cb n t0).1.enabled 0 = true ∧
    ((new mem c0).setTimer D cb n t0).1.maxNumRuns 0 = n ∧
    ((new mem c0).setTimer D cb n t0).1.numRuns 0 = 0 ∧
    ((new mem c0).setTimer D cb n t0).1.numTimers = 1 ∧
    ((new mem c0).setTimer D cb n t0).1.prev_millis 0 = t0 := by
  have hpos : 0 < MAX_TIMERS := by decide
  have hslot := new_slot mem c0
  have hfind : (new mem c0).findFirstFreeSlot = ((0 : Nat) : Int) :=
    findFirstFreeSlot_some _ 0 (by rw [new_numTimers]; decide) hpos (hslot 0 hpos).1
      (fun j hj => absurd hj (Nat.not_lt_zero j))
  have hn := new_numTimers mem c0
  rw [setTimer_ok _ D cb n t0 0 hfind]
  generalize new mem c0 = s at hslot hn
  refine ⟨rfl, by simp, ?_, by simp, by simp, by simp, (hslot 0 hpos).2.1, by simp [hn],
    by simp⟩
  intro j hj0 hj
  have hne : j ≠ 0 := by omega
  simp only
  rw [Function.update_noteq hne]
  exact (hslot j hj).1

/-! ## The invocation log -/

theorem filterMap_range_slot (f : Nat → Option Invocation) (i : Nat)
    (hf : ∀ j x, f j = some x → x.1 = j) (n : Nat) :
    ((List.range n).filterMap f).filter (fun e => decide (e.1 = i)) =
      if i < n then (f i).toList else [] := by
  induction n with
  | zero => simp
  | succ n ih =>
    rw [List.range_succ, List.filterMap_append, List.filter_append, ih]
    rcases Nat.lt_trichotomy i n with hlt | heq | hgt
    · have h1 : i < n + 1 := by omega
      rw [if_pos hlt, if_pos h1]
      cases hfn : f n with
      | none => simp [hfn]
      | some x =>
        have hx := hf n x hfn
        have : ¬ x.1 = i := by omega
        simp [hfn, this]
    · subst heq
      rw [if_neg (lt_irrefl _), if_pos (Nat.lt_succ_self _)]
      cases hfn : f i with
      | none => simp [hfn]
      | some x =>
        have hx := hf i x hfn
        simp [hfn, hx]
    · have h1 : ¬ i < n + 1 := by omega
      have h2 : ¬ i < n := by omega
      rw [if_neg h1, if_neg h2]
      cases hfn : f n with
      | none => simp [hfn]
      | some x =>
        have hx := hf n x hfn
        have : ¬ x.1 = i := by omega
        simp [hfn, this]

theorem firing_fst (w t : Nat) (s : SimpleTimer) (j : Nat) (x : Invocation)
    (h : firing w t s j = some x) : x.1 = j := by
  unfold firing at h
  split at h
  · cases h; rfl
  · cases h

/-- The part of the log of a quiet poll that concerns slot i. -/
theorem firing_log_slot (w t : Nat) (s : SimpleTimer) (i : Nat) (hi : i < MAX_TIMERS) :
    ((List.range MAX_TIMERS).filterMap (firing w t s)).filter (fun e => decide (e.1 = i)) =
      (firing w t s i).toList := by
  rw [filterMap_range_slot (firing w t s) i (firing_fst w t s) MAX_TIMERS, if_pos hi]

theorem exec_toBeCalled (c : Call) (s s' : SimpleTimer) (h : c.exec s = some s') :
    s'.toBeCalled = s.toBeCalled := by
  refine exec_preserves (fun x => x.toBeCalled = s.toBeCalled) (fun _ => True) ?_ ?_ ?_
    c s s' trivial rfl h
  · intro a d m n t _ ha
    rcases setTimer_cases a d m n t with ⟨he, _⟩ | ⟨i, _, _, _, _, he⟩
    · rw [he]; exact ha
    · rw [he]; exact ha
  · intro a a' k ha hd
    rcases deleteTimer_cases a a' k hd with rfl | ⟨i, _, _, _, rfl⟩
    · exact ha
    · exact ha
  · intro a a' ha _ _ _ _ _ ht
    exact ht.trans ha

/-- Every invocation that run makes, whatever the callbacks do, is for a slot
that the first loop marked. -/
theorem run_log_marked (w : Nat) (cbs : Callbacks) (t : Nat) (s s' : SimpleTimer)
    (log : List Invocation) (h : run w cbs t s = some (s', log)) :
    ∀ j m, (j, m) ∈ log → (evalPass w t s).toBeCalled j ≠ DEFCALL_DONTRUN := by
  unfold run dispatchPass at h
  generalize evalPass w t s = e0 at h ⊢
  intro j m hmem
  have key := @foldlM_preserves (SimpleTimer × List Invocation) Nat
    (fun st => st.1.toBeCalled = e0.toBeCalled ∧
      ∀ e, e ∈ st.2 → e0.toBeCalled e.1 ≠ DEFCALL_DONTRUN)
    (dispatchSlot cbs) (List.range MAX_TIMERS)
  refine (key ?_ (e0, []) (s', log) ⟨rfl, fun e he => absurd he (List.not_mem_nil e)⟩ h).2
    (j, m) hmem
  clear hmem j m
  intro st j st' _ hst hd
  obtain ⟨htb, hlog⟩ := hst
  have hinv : ∀ st1, invoke cbs j st = some st1 →
      st1.1.toBeCalled = st.1.toBeCalled ∧ st1.2 = st.2 ++ [(j, st.1.callbacks j)] := by
    intro st1 hv
    unfold invoke at hv
    split at hv
    · cases hv
    · cases hex : execCalls (cbs j (st.1.callbacks j)) st.1 with
      | none => simp [hex] at hv
      | some s1 =>
        simp [hex] at hv
        subst hv
        refine ⟨?_, rfl⟩
        exact execCalls_preserves (fun x => x.toBeCalled = st.1.toBeCalled) (fun _ => True)
          (fun c a a' _ ha he => (exec_toBeCalled c a a' he).trans ha) _ (fun _ _ => trivial)
          st.1 s1 rfl hex
  unfold dispatchSlot at hd
  split at hd
  · cases hd; exact ⟨htb, hlog⟩
  · rename_i hne
    have hmark : e0.toBeCalled j ≠ DEFCALL_DONTRUN := by rw [← htb]; exact hne
    split at hd
    · obtain ⟨h1, h2⟩ := hinv st' hd
      refine ⟨h1.trans htb, ?_⟩
      intro e he
      rw [h2] at he
      rcases List.mem_append.mp he with he | he
      · exact hlog e he
      · rw [List.mem_singleton.mp he]; exact hmark
    · split at hd
      · cases hv : invoke cbs j st with
        | none => simp [hv] at hd
        | some st1 =>
          obtain ⟨h1, h2⟩ := hinv st1 hv
          cases hdel : st1.1.deleteTimer (j : Int) with
          | none => simp [hv, hdel] at hd
          | some s2 =>
            simp [hv, hdel] at hd
            subst hd
            have h3 : s2.toBeCalled = st1.1.toBeCalled :=
              exec_toBeCalled (.deleteTimer (j : Int)) st1.1 s2 hdel
            refine ⟨h3.trans (h1.trans htb), ?_⟩
            intro e he
            simp only at he
            rw [h2] at he
            rcases List.mem_append.mp he with he | he
            · exact hlog e he
            · rw [List.mem_singleton.mp he]; exact hmark
      · cases hd; exact ⟨htb, hlog⟩

theorem refillState_reachable :
    Reachable 32 (fun c => c.InRange ∧ c.NonNull) refillState :=
  reachable_execCalls 32 (fun c => c.InRange ∧ c.NonNull) refillCalls (new zeroMem 0) _
    (Reachable.init zeroMem 0) (by decide) rfl

/-- After the table has been filled by non-null registrations, the slot
freed by deleteTimer(k) is the one the next registration returns. -/
theorem refill_returns_freed (mem : SimpleTimer) (t0 : Nat) (regs : List Registration)
    (k : Nat) (hlen : regs.length = MAX_TIMERS) (hnn : ∀ r, r ∈ regs → r.methodPtr ≠ 0)
    (hk : k < MAX_TIMERS) :
    ∃ s1, (registerAll regs (new mem t0)).1.deleteTimer (k : Int) = some s1 ∧
      ∀ d m n t, (s1.setTimer d m n t).2 = (k : Int) := by
  have hroom := registerAll_room regs (new mem t0)
    (by rw [new_occupiedCount, new_numTimers]; simp)
    (by rw [new_numTimers, hlen]; simp)
  rw [new_numTimers, hlen] at hroom
  have hreach : Reachable 0 (fun c => c.InRange ∧ c.NonNull) (registerAll regs (new mem t0)).1 :=
    registerAll_reachable 0 _ regs _ (Reachable.init mem t0)
      (fun r hr => ⟨trivial, hnn r hr⟩)
  have hcount := countOk_reachable 0 _ hreach
  unfold CountOk at hcount
  generalize (registerAll regs (new mem t0)).1 = s at hroom hcount ⊢
  have hn : s.numTimers = (MAX_TIMERS : Int) := by simpa using hroom.1
  have hfull : ∀ i, i < MAX_TIMERS → s.callbacks i ≠ 0 := by
    apply occupiedCount_full
    rw [hn] at hcount
    exact_mod_cast hcount
  have hne : s.numTimers ≠ 0 := by
    rw [hn]; simp [MAX_TIMERS]
  refine ⟨_, deleteTimer_ok s k hk hne, ?_⟩
  intro d m n t
  rw [setTimer_ok _ d m n t k]
  apply findFirstFreeSlot_some _ k
  · simp only
    rw [hn]; omega
  · exact hk
  · simp
  · intro j hj
    have hjk : j ≠ k := by omega
    simp only
    rw [Function.update_noteq hjk]
    exact hfull j (by omega)

theorem oneTimerState_reachable : Reachable 32 Call.InRange oneTimerState :=
  Reachable.run quiet 10
    (Reachable.call (.setTimeout 1000 7 0) (Reachable.init zeroMem 0) trivial rfl)
    (fun _ _ _ hc => absurd hc (List.not_mem_nil _))
    (rfl : run 32 quiet 10 ((new zeroMem 0).setTimeout 1000 7 0).1 = some (oneTimerState, []))

theorem zombieState_reachable : Reachable 32 Call.InRange zombieState :=
  Reachable.run quiet 100
    (Reachable.call (.deleteTimer 5)
      (Reachable.call (.setTimeout 100 7 0) (Reachable.init zeroMem 0) trivial rfl)
      (by decide)
      (rfl : Call.exec (.deleteTimer 5) ((new zeroMem 0).setTimeout 100 7 0).1 =
        some ((execCalls zombieCalls (new zeroMem 0)).getD zeroMem)))
    (fun _ _ _ hc => absurd hc (List.not_mem_nil _))
    (rfl : run 32 quiet 100 ((execCalls zombieCalls (new zeroMem 0)).getD zeroMem) =
      some (zombieState, [(0, 7)]))

theorem markAfter_forever (w t : Nat) (s : SimpleTimer) (i : Nat)
    (hocc : s.callbacks i ≠ 0) (hen : s.enabled i = true)
    (hforever : s.maxNumRuns i = RUN_FOREVER)
    (hdue : toULong w (s.delays i) ≤ usub w t (s.prev_millis i)) :
    markAfter w t s i = DEFCALL_RUNONLY ∧ runsAfter w t s i = s.numRuns i ∧
      prevAfter w t s i = t := by
  simp [markAfter, runsAfter, prevAfter, isDue, hocc, hen, hforever, hdue]

/-- One quiet poll of a forever timer at a period boundary. -/
theorem forever_poll (w t : Nat) (s : SimpleTimer) (i : Nat) (hi : i < MAX_TIMERS)
    (hocc : s.callbacks i ≠ 0) (hen : s.enabled i = true)
    (hforever : s.maxNumRuns i = RUN_FOREVER)
    (hdue : toULong w (s.delays i) ≤ usub w t (s.prev_millis i)) :
    ∃ s' log, run w quiet t s = some (s', log) ∧
      log.filter (fun e => decide (e.1 = i)) = [(i, s.callbacks i)] ∧
      s'.callbacks i = s.callbacks i ∧ s'.delays i = s.delays i ∧
      s'.maxNumRuns i = s.maxNumRuns i ∧ s'.enabled i = s.enabled i ∧
      s'.numRuns i = s.numRuns i ∧ s'.prev_millis i = t := by
  obtain ⟨hm, hr, hp⟩ := markAfter_forever w t s i hocc hen hforever hdue
  obtain ⟨s', hrun, hmx, hpt, hkeep, _, _, _⟩ := run_quiet_spec w t s
  have hne : markAfter w t s i ≠ DEFCALL_RUNANDDEL := by rw [hm]; decide
  have hk := hkeep i hi hne
  refine ⟨s', _, hrun, ?_, hk.1, hk.2.2.1, by rw [hmx], hk.2.1, hk.2.2.2.trans hr,
    (hpt i hi).1.trans hp⟩
  rw [firing_log_slot w t s i hi]
  simp [firing, hm]

theorem forever_polls (w : Nat) (i : Nat) (hi : i < MAX_TIMERS) (ts : List Nat) :
    ∀ s : SimpleTimer, s.callbacks i ≠ 0 → s.enabled i = true →
      s.maxNumRuns i = RUN_FOREVER →
      atBoundaries w (toULong w (s.delays i)) (s.prev_millis i) ts →
      ∃ s' logs, runs w quiet ts s = some (s', logs) ∧ logs.length = ts.length ∧
        (∀ l, l ∈ logs → l.filter (fun e => decide (e.1 = i)) = [(i, s.callbacks i)]) ∧
        s'.callbacks i = s.callbacks i ∧ s'.delays i = s.delays i ∧
        s'.maxNumRuns i = s.maxNumRuns i ∧ s'.enabled i = s.enabled i ∧
        s'.numRuns i = s.numRuns i := by
  induction ts with
  | nil =>
    intro s _ _ _ _
    exact ⟨s, [], rfl, rfl, fun l hl => absurd hl (List.not_mem_nil l), rfl, rfl, rfl, rfl, rfl⟩
  | cons t ts ih =>
    intro s hocc hen hforever hb
    obtain ⟨hdue, hrest⟩ := hb
    obtain ⟨s1, log1, hrun, hlog, hc, hd, hm, he, hn, hp⟩ :=
      forever_poll w t s i hi hocc hen hforever hdue
    obtain ⟨s', logs, hruns, hlen, hlogs, hc', hd', hm', he', hn'⟩ :=
      ih s1 (by rw [hc]; exact hocc) (by rw [he]; exact hen) (by rw [hm]; exact hforever)
        (by rw [hd, hp]; exact hrest)
    refine ⟨s', log1 :: logs, ?_, by simp [hlen], ?_, hc'.trans hc, hd'.trans hd, hm'.trans hm,
      he'.trans he, hn'.trans hn⟩
    · simp [runs, hrun, hruns]
    · intro l hl
      rcases List.mem_cons.mp hl with rfl | hl
      · exact hlog
      · rw [hlogs l hl, hc]

theorem mem_quiet_log (w t : Nat) (s : SimpleTimer) (i m : Nat) :
    (i, m) ∈ (List.range MAX_TIMERS).filterMap (firing w t s) ↔
      i < MAX_TIMERS ∧ firing w t s i = some (i, m) := by
  rw [List.mem_filterMap]
  constructor
  · rintro ⟨j, hj, hf⟩
    have := firing_fst w t s j (i, m) hf
    simp only at this
    subst this
    exact ⟨List.mem_range.mp hj, hf⟩
  · rintro ⟨hi, hf⟩
    exact ⟨i, List.mem_range.mpr hi, hf⟩

theorem markAfter_early (w t : Nat) (s : SimpleTimer) (i : Nat)
    (hearly : usub w t (s.prev_millis i) < toULong w (s.delays i)) :
    markAfter w t s i = DEFCALL_DONTRUN ∧ runsAfter w t s i = s.numRuns i ∧
      prevAfter w t s i = s.prev_millis i := by
  have h : ¬ toULong w (s.delays i) ≤ usub w t (s.prev_millis i) := not_le.mpr hearly
  simp [markAfter, runsAfter, prevAfter, isDue, h]

/-! ## The log of a poll, whatever the callbacks do -/

theorem invoke_log (cbs : Callbacks) (j : Nat) (st st1 : SimpleTimer × List Invocation)
    (hv : invoke cbs j st = some st1) :
    st1.1.toBeCalled = st.1.toBeCalled ∧ st1.2 = st.2 ++ [(j, st.1.callbacks j)] ∧
      st.1.callbacks j ≠ 0 := by
  unfold invoke at hv
  split at hv
  · cases hv
  · rename_i hne
    cases hex : execCalls (cbs j (st.1.callbacks j)) st.1 with
    | none => simp [hex] at hv
    | some s1 =>
      simp [hex] at hv
      subst hv
      refine ⟨?_, rfl, hne⟩
      exact execCalls_preserves (fun x => x.toBeCalled = st.1.toBeCalled) (fun _ => True)
        (fun c a a' _ ha he => (exec_toBeCalled c a a' he).trans ha) _ (fun _ _ => trivial)
        st.1 s1 rfl hex

/-- The step of the second loop for index j appends at most one invocation,
and that one is for slot j. -/
theorem dispatchSlot_log (cbs : Callbacks) (j : Nat) (st st' : SimpleTimer × List Invocation)
    (hd : dispatchSlot cbs st j = some st') :
    st'.2 = st.2 ∨ ∃ m, st'.2 = st.2 ++ [(j, m)] := by
  unfold dispatchSlot at hd
  split at hd
  · cases hd; exact Or.inl rfl
  · split at hd
    · exact Or.inr ⟨_, (invoke_log cbs j st st' hd).2.1⟩
    · split at hd
      · cases hv : invoke cbs j st with
        | none => simp [hv] at hd
        | some st1 =>
          cases hdel : st1.1.deleteTimer (j : Int) with
          | none => simp [hv, hdel] at hd
          | some s2 =>
            simp [hv, hdel] at hd
            subst hd
            exact Or.inr ⟨_, (invoke_log cbs j st st1 hv).2.1⟩
      · cases hd; exact Or.inl rfl

theorem dispatchFold_log (cbs : Callbacks) (l : List Nat) :
    ∀ (st st' : SimpleTimer × List Invocation), l.foldlM (dispatchSlot cbs) st = some st' →
      ∃ ext, st'.2 = st.2 ++ ext ∧ (ext.map Prod.fst).Sublist l := by
  induction l with
  | nil =>
    intro st st' h
    simp at h
    subst h
    exact ⟨[], by simp, by simp⟩
  | cons a l ih =>
    intro st st' h
    simp only [List.foldlM_cons] at h
    cases hs : dispatchSlot cbs st a with
    | none => simp [hs] at h
    | some st1 =>
      simp [hs] at h
      obtain ⟨ext, he, hsub⟩ := ih st1 st' h
      rcases dispatchSlot_log cbs a st st1 hs with h1 | ⟨m, h1⟩
      · refine ⟨ext, by rw [he, h1], ?_⟩
        exact List.Sublist.cons a hsub
      · refine ⟨(a, m) :: ext, by rw [he, h1]; simp, ?_⟩
        simp only [List.map_cons]
        exact List.Sublist.cons₂ a hsub

/-- A poll makes at most one invocation for each slot, whatever the callbacks
do. -/
theorem run_log_once (w : Nat) (cbs : Callbacks) (t : Nat) (s s' : SimpleTimer)
    (log : List Invocation) (h : run w cbs t s = some (s', log)) (i : Nat) :
    (log.filter (fun e => decide (e.1 = i))).length ≤ 1 := by
  unfold run dispatchPass at h
  generalize evalPass w t s = e0 at h
  obtain ⟨ext, he, hsub⟩ := dispatchFold_log cbs (List.range MAX_TIMERS) (e0, []) (s', log) h
  simp only [List.nil_append] at he
  have hnd : (log.map Prod.fst).Nodup := by
    rw [he]
    exact List.Nodup.sublist hsub (List.nodup_range _)
  have hcount : (log.map Prod.fst).count i ≤ 1 := List.nodup_iff_count_le_one.mp hnd i
  have : (log.filter (fun e => decide (e.1 = i))).length = (log.map Prod.fst).count i := by
    rw [List.count_eq_countP, List.countP_map, List.countP_eq_length_filter]
    congr 2
  omega

theorem markAfter_ne_dontrun (w t : Nat) (s : SimpleTimer) (i : Nat)
    (h : markAfter w t s i ≠ DEFCALL_DONTRUN) :
    s.callbacks i ≠ 0 ∧ toULong w (s.delays i) ≤ usub w t (s.prev_millis i) ∧
      s.enabled i = true ∧ (s.maxNumRuns i = RUN_FOREVER ∨ s.numRuns i < s.maxNumRuns i) := by
  unfold markAfter at h
  split at h
  · rename_i hd
    simp only [isDue, Bool.and_eq_true, bne_iff_ne, ne_eq, decide_eq_true_eq] at hd
    refine ⟨hd.1.1, hd.1.2, hd.2, ?_⟩
    split at h
    · rename_i h0; exact Or.inl h0
    · split at h
      · rename_i hlt; exact Or.inr hlt
      · exact absurd rfl h
  · exact absurd rfl h

/-- An invocation for a slot, whatever the callbacks do, is made only when the
first loop found the slot occupied, enabled and due. -/
theorem run_log_due (w : Nat) (cbs : Callbacks) (t : Nat) (s s' : SimpleTimer)
    (log : List Invocation) (h : run w cbs t s = some (s', log)) (i m : Nat)
    (hi : i < MAX_TIMERS) (hmem : (i, m) ∈ log) :
    s.callbacks i ≠ 0 ∧ toULong w (s.delays i) ≤ usub w t (s.prev_millis i) ∧
      s.enabled i = true ∧ (s.maxNumRuns i = RUN_FOREVER ∨ s.numRuns i < s.maxNumRuns i) := by
  have h1 := run_log_marked w cbs t s s' log h i m hmem
  rw [evalPass_toBeCalled w t s i hi] at h1
  exact markAfter_ne_dontrun w t s i h1

theorem usub_self (w t : Nat) : usub w t t = 0 := by
  unfold usub
  have hM : 0 < 2 ^ w := Nat.pow_pos (by decide)
  generalize 2 ^ w = M at hM ⊢
  have h1 := Nat.mod_add_div t M
  have h2 : t % M < M := Nat.mod_lt _ hM
  have h3 : t + (M - t % M) = M * (t / M + 1) := by
    rw [Nat.mul_add, Nat.mul_one]
    omega
  rw [h3, Nat.mul_mod_right]

theorem markAfter_dontrun_runs (w t : Nat) (s : SimpleTimer) (i : Nat)
    (h : markAfter w t s i = DEFCALL_DONTRUN) : runsAfter w t s i = s.numRuns i := by
  unfold runsAfter
  split
  · rename_i hc
    simp only [Bool.and_eq_true, decide_eq_true_eq] at hc
    exfalso
    unfold markAfter at h
    rw [if_pos (by simp [hc.1.1.1, hc.1.1.2]), if_neg hc.1.2, if_pos hc.2] at h
    split at h <;> simp [DEFCALL_RUNANDDEL, DEFCALL_RUNONLY, DEFCALL_DONTRUN] at h
  · rfl

theorem not_due_after (w t : Nat) (s : SimpleTimer) (i : Nat) (h : isDue w t s i = false) :
    markAfter w t s i = DEFCALL_DONTRUN ∧ runsAfter w t s i = s.numRuns i ∧
      prevAfter w t s i = s.prev_millis i := by
  simp [markAfter, runsAfter, prevAfter, h]

/-- After a poll with callbacks that make no call on the object, every slot
either keeps its callback, delay and enabled flag or has no callback. -/
theorem run_quiet_same_or_cleared (w t : Nat) (s s' : SimpleTimer) (log : List Invocation)
    (h : run w quiet t s = some (s', log)) (j : Nat) :
    (s'.callbacks j = s.callbacks j ∧ s'.delays j = s.delays j ∧
      s'.enabled j = s.enabled j) ∨ s'.callbacks j = 0 := by
  have e1 := evalPass_callbacks w t s
  have e2 := evalPass_delays w t s
  have e4 := evalPass_enabled w t s
  unfold run dispatchPass at h
  generalize evalPass w t s = e0 at h e1 e2 e4
  rw [← e1, ← e2, ← e4]
  have key := @foldlM_preserves (SimpleTimer × List Invocation) Nat
    (fun st => (st.1.callbacks j = e0.callbacks j ∧ st.1.delays j = e0.delays j ∧
      st.1.enabled j = e0.enabled j) ∨ st.1.callbacks j = 0)
    (dispatchSlot quiet) (List.range MAX_TIMERS)
  refine key ?_ (e0, []) (s', log) (Or.inl ⟨rfl, rfl, rfl⟩) h
  intro st a st' ha hst hd
  have hdel : ∀ x x' : SimpleTimer, x.deleteTimer (a : Int) = some x' →
      ((x.callbacks j = e0.callbacks j ∧ x.delays j = e0.delays j ∧
        x.enabled j = e0.enabled j) ∨ x.callbacks j = 0) →
      ((x'.callbacks j = e0.callbacks j ∧ x'.delays j = e0.delays j ∧
        x'.enabled j = e0.enabled j) ∨ x'.callbacks j = 0) := by
    intro x x' hx hp
    rcases deleteTimer_cases x x' _ hx with rfl | ⟨i, _, _, _, rfl⟩
    · exact hp
    · by_cases hji : j = i
      · right; subst hji; simp
      · simpa [Function.update_noteq hji] using hp
  unfold dispatchSlot at hd
  split at hd
  · cases hd; exact hst
  · split at hd
    · unfold invoke at hd
      split at hd
      · cases hd
      · simp [quiet, execCalls] at hd
        subst hd
        exact hst
    · split at hd
      · unfold invoke at hd
        split at hd
        · simp at hd
        · simp only [quiet, execCalls, List.foldlM_nil, Option.pure_def, Option.map_some',
            Option.some_bind] at hd
          cases hx : st.1.deleteTimer (a : Int) with
          | none => simp [hx] at hd
          | some x' =>
            simp [hx] at hd
            subst hd
            exact hdel st.1 x' hx hst
      · cases hd; exact hst

/-- In the state left by a quiet poll at reading t, a slot that was free or
has a positive period is not due at the same reading. -/
theorem not_due_again (w t : Nat) (s s1 : SimpleTimer) (log : List Invocation)
    (h : run w quiet t s = some (s1, log)) (i : Nat) (hi : i < MAX_TIMERS)
    (hpos : 0 < toULong w (s.delays i) ∨ s.callbacks i = 0) :
    isDue w t s1 i = false := by
  obtain ⟨s1', hrun, _, hpt, hkeep, _, _, _⟩ := run_quiet_spec w t s
  have hsc := run_quiet_same_or_cleared w t s s1 log h i
  rw [h] at hrun
  have heq : s1' = s1 := by
    have := Option.some.inj hrun
    exact (congrArg Prod.fst this).symm
  subst heq
  rcases hsc with ⟨hc, hd, _⟩ | hfree
  · by_cases hc0 : s.callbacks i = 0
    · simp [isDue, hc, hc0]
    · have hP : 0 < toULong w (s.delays i) := by
        rcases hpos with h1 | h1
        · exact h1
        · exact absurd h1 hc0
      by_cases hdue : isDue w t s i = true
      · have hprev : s1'.prev_millis i = t := by
          rw [(hpt i hi).1]
          simp [prevAfter, hdue]
        simp only [isDue, hd, hprev, usub_self, Bool.and_eq_false_imp, decide_eq_false_iff_not]
        intro _
        omega
      · have hnd : isDue w t s i = false := by simpa using hdue
        have hprev : s1'.prev_millis i = s.prev_millis i := by
          rw [(hpt i hi).1]
          simp [prevAfter, hnd]
        have := hnd
        simp only [isDue, Bool.and_eq_false_imp, decide_eq_false_iff_not] at this ⊢
        intro hne
        rw [hd, hprev]
        apply this
        rw [← hc]; exact hne
  · simp [isDue, hfree]

theorem unrun_after (w t : Nat) (s : SimpleTimer) (i cb : Nat) (n : Int) (hn : n < 0)
    (h : Unrun i cb n s) :
    markAfter w t s i = DEFCALL_DONTRUN ∧ runsAfter w t s i = 0 := by
  obtain ⟨_, hm, hr⟩ := h
  have h0 : ¬ (n = RUN_FOREVER) := by unfold RUN_FOREVER; omega
  have h1 : ¬ ((0 : Int) < n) := by omega
  have hmark : markAfter w t s i = DEFCALL_DONTRUN := by
    unfold markAfter
    rw [hm, hr, if_neg h0, if_neg h1]
    split <;> rfl
  exact ⟨hmark, by rw [markAfter_dontrun_runs w t s i hmark, hr]⟩

/-- Every call other than deleteTimer(i) leaves an occupied slot i with its
callback, run limit and run count. -/
theorem unrun_exec (i cb : Nat) (n : Int) (hcb : cb ≠ 0) (c : Call) (s s' : SimpleTimer)
    (hc : c ≠ Call.deleteTimer (i : Int)) (h : Unrun i cb n s) (he : c.exec s = some s') :
    Unrun i cb n s' := by
  obtain ⟨h1, h2, h3⟩ := h
  have hset : ∀ d m k t, Unrun i cb n (s.setTimer d m k t).1 := by
    intro d m k t
    rcases setTimer_cases s d m k t with ⟨e, _⟩ | ⟨j, _, _, hf, _, e⟩
    · rw [e]; exact ⟨h1, h2, h3⟩
    · rw [e]
      have hji : i ≠ j := by
        intro hij
        rw [← hij, h1] at hf
        exact hcb hf
      exact ⟨by simp [Function.update_noteq hji, h1], by simp [Function.update_noteq hji, h2],
        h3⟩
  cases c with
  | setTimeout d m t =>
    simp only [Call.exec, setTimeout, Option.some.injEq] at he
    subst he; exact hset d m RUN_ONCE t
  | setInterval d m t =>
    simp only [Call.exec, setInterval, Option.some.injEq] at he
    subst he; exact hset d m RUN_FOREVER t
  | setTimer d m k t =>
    simp only [Call.exec, Option.some.injEq] at he
    subst he; exact hset d m k t
  | deleteTimer k =>
    rcases deleteTimer_cases s s' k he with rfl | ⟨j, hk, _, _, rfl⟩
    · exact ⟨h1, h2, h3⟩
    · have hji : i ≠ j := by
        intro hij
        apply hc
        rw [hk, hij]
      exact ⟨by simp [Function.update_noteq hji, h1], h2,
        by simp [Function.update_noteq hji, h3]⟩
  | restartTimer k t =>
    have := exec_other _ s s' he (by simp) (by simp) (by simp) (by simp)
    exact ⟨by rw [this.1]; exact h1, by rw [this.2.2.2.2.1]; exact h2, by rw [this.2.1]; exact h3⟩
  | isEnabled k =>
    have := exec_other _ s s' he (by simp) (by simp) (by simp) (by simp)
    exact ⟨by rw [this.1]; exact h1, by rw [this.2.2.2.2.1]; exact h2, by rw [this.2.1]; exact h3⟩
  | enable k =>
    have := exec_other _ s s' he (by simp) (by simp) (by simp) (by simp)
    exact ⟨by rw [this.1]; exact h1, by rw [this.2.2.2.2.1]; exact h2, by rw [this.2.1]; exact h3⟩
  | disable k =>
    have := exec_other _ s s' he (by simp) (by simp) (by simp) (by simp)
    exact ⟨by rw [this.1]; exact h1, by rw [this.2.2.2.2.1]; exact h2, by rw [this.2.1]; exact h3⟩
  | toggle k =>
    have := exec_other _ s s' he (by simp) (by simp) (by simp) (by simp)
    exact ⟨by rw [this.1]; exact h1, by rw [this.2.2.2.2.1]; exact h2, by rw [this.2.1]; exact h3⟩

/-- A poll, whatever the callbacks do short of deleteTimer(i), makes no
invocation for a slot i with a negative run limit and leaves it as it is. -/
theorem unrun_run (w : Nat) (i cb : Nat) (n : Int) (hi : i < MAX_TIMERS) (hcb : cb ≠ 0)
    (hn : n < 0) (cbs : Callbacks)
    (hcbs : ∀ j m c, c ∈ cbs j m → c ≠ Call.deleteTimer (i : Int))
    (t : Nat) (s s' : SimpleTimer) (log : List Invocation) (h : Unrun i cb n s)
    (hrun : run w cbs t s = some (s', log)) :
    Unrun i cb n s' ∧ ∀ m, (i, m) ∉ log := by
  obtain ⟨hmark, hruns⟩ := unrun_after w t s i cb n hn h
  have hnolog : ∀ m, (i, m) ∉ log := by
    intro m hmem
    have := run_log_marked w cbs t s s' log hrun i m hmem
    rw [evalPass_toBeCalled w t s i hi] at this
    exact this hmark
  refine ⟨?_, hnolog⟩
  have e1 := evalPass_callbacks w t s
  have e3 := evalPass_maxNumRuns w t s
  have e7 := evalPass_numRuns w t s i hi
  have e8 := evalPass_toBeCalled w t s i hi
  unfold run dispatchPass at hrun
  generalize evalPass w t s = e0 at hrun e1 e3 e7 e8
  have h0 : Unrun i cb n e0 ∧ e0.toBeCalled i = DEFCALL_DONTRUN :=
    ⟨⟨by rw [e1]; exact h.1, by rw [e3]; exact h.2.1, by rw [e7]; exact hruns⟩,
      by rw [e8]; exact hmark⟩
  have key := @foldlM_preserves (SimpleTimer × List Invocation) Nat
    (fun st => Unrun i cb n st.1 ∧ st.1.toBeCalled i = DEFCALL_DONTRUN)
    (dispatchSlot cbs) (List.range MAX_TIMERS)
  refine (key ?_ (e0, []) (s', log) h0 hrun).1
  intro st j st' _ hst hd
  obtain ⟨hu, htb⟩ := hst
  have hinv : ∀ st1, invoke cbs j st = some st1 →
      Unrun i cb n st1.1 ∧ st1.1.toBeCalled i = DEFCALL_DONTRUN := by
    intro st1 hv
    have htb1 := (invoke_log cbs j st st1 hv).1
    refine ⟨?_, by rw [htb1]; exact htb⟩
    unfold invoke at hv
    split at hv
    · cases hv
    · cases hex : execCalls (cbs j (st.1.callbacks j)) st.1 with
      | none => simp [hex] at hv
      | some s1 =>
        simp [hex] at hv
        subst hv
        exact execCalls_preserves (Unrun i cb n) (fun c => c ≠ Call.deleteTimer (i : Int))
          (fun c a a' hc ha he => unrun_exec i cb n hcb c a a' hc ha he) _
          (fun c hc => hcbs j _ c hc) st.1 s1 hu hex
  by_cases hji : j = i
  · subst hji
    have : dispatchSlot cbs st j = some st := by
      unfold dispatchSlot
      rw [if_pos htb]
    rw [this] at hd
    cases hd
    exact ⟨hu, htb⟩
  · unfold dispatchSlot at hd
    split at hd
    · cases hd; exact ⟨hu, htb⟩
    · split at hd
      · exact hinv st' hd
      · split at hd
        · cases hv : invoke cbs j st with
          | none => simp [hv] at hd
          | some st1 =>
            obtain ⟨hu1, htb1⟩ := hinv st1 hv
            cases hdel : st1.1.deleteTimer (j : Int) with
            | none => simp [hv, hdel] at hd
            | some s2 =>
              simp [hv, hdel] at hd
              subst hd
              have hne : Call.deleteTimer (j : Int) ≠ Call.deleteTimer (i : Int) := by
                intro hc
                injection hc with hc
                exact hji (by exact_mod_cast hc)
              refine ⟨unrun_exec i cb n hcb (.deleteTimer (j : Int)) st1.1 s2 hne hu1 hdel, ?_⟩
              rw [exec_toBeCalled (.deleteTimer (j : Int)) st1.1 s2 hdel]
              exact htb1
        · cases hd; exact ⟨hu, htb⟩

theorem unrun_runs (w : Nat) (i cb : Nat) (n : Int) (hi : i < MAX_TIMERS) (hcb : cb ≠ 0)
    (hn : n < 0) (ts : List Nat) : ∀ s : SimpleTimer, Unrun i cb n s →
    ∃ s' logs, runs w quiet ts s = some (s', logs) ∧ Unrun i cb n s' ∧
      ∀ l, l ∈ logs → ∀ m, (i, m) ∉ l := by
  induction ts with
  | nil =>
    intro s h
    exact ⟨s, [], rfl, h, fun l hl => absurd hl (List.not_mem_nil l)⟩
  | cons t ts ih =>
    intro s h
    obtain ⟨s1, hrun, _⟩ := run_quiet_spec w t s
    generalize (List.range MAX_TIMERS).filterMap (firing w t s) = log1 at hrun
    obtain ⟨hu1, hlog1⟩ := unrun_run w i cb n hi hcb hn quiet
      (fun _ _ c hc => absurd hc (List.not_mem_nil c)) t s s1 log1 h hrun
    obtain ⟨s', logs, hruns, hu', hlogs⟩ := ih s1 hu1
    refine ⟨s', log1 :: logs, by simp [runs, hrun, hruns], hu', ?_⟩
    intro l hl
    rcases List.mem_cons.mp hl with rfl | hl
    · exact hlog1
    · exact hlogs l hl

/-- A setTimer with a non-null callback and a negative run limit n that
succeeds in a state reached between polls leaves its slot i occupied with run
limit n and run count 0; from any state in which slot i is so, every call other
than deleteTimer(i) and every poll, whatever the callbacks do short of
deleteTimer(i), leaves it so, and no poll makes an invocation for slot i; a
poll at a period boundary still sets prev_millis[i] to the clock reading. -/
theorem negative_limit_never_runs (w : Nat) (s : SimpleTimer)
    (hreach : Reachable w Call.InRange s) (d : Int) (cb : Nat) (n : Int) (t0 : Nat)
    (hcb : cb ≠ 0) (hn : n < 0) (hs : (s.setTimer d cb n t0).2 ≠ -1) :
    ∃ i : Nat, i < MAX_TIMERS ∧ (s.setTimer d cb n t0).2 = (i : Int) ∧
      Unrun i cb n (s.setTimer d cb n t0).1 ∧
      ∀ s1 : SimpleTimer, Unrun i cb n s1 →
        (∀ (c : Call) (s2 : SimpleTimer), c ≠ Call.deleteTimer (i : Int) →
          c.exec s1 = some s2 → Unrun i cb n s2) ∧
        (∀ (cbs : Callbacks) (t : Nat) (s2 : SimpleTimer) (log : List Invocation),
          (∀ j m c, c ∈ cbs j m → c ≠ Call.deleteTimer (i : Int)) →
          run w cbs t s1 = some (s2, log) → Unrun i cb n s2 ∧ ∀ m, (i, m) ∉ log) ∧
        (∀ t : Nat, toULong w (s1.delays i) ≤ usub w t (s1.prev_millis i) →
          (evalPass w t s1).prev_millis i = t ∧
          ∃ s2 log, run w quiet t s1 = some (s2, log) ∧ s2.prev_millis i = t) ∧
        (∀ ts : List Nat, ∃ s2 logs, runs w quiet ts s1 = some (s2, logs) ∧
          Unrun i cb n s2 ∧ ∀ l, l ∈ logs → ∀ m, (i, m) ∉ l) := by
  have hclean := freeClean_reachable w Call.InRange s hreach
  rcases setTimer_cases s d cb n t0 with ⟨he, _⟩ | ⟨i, hi, _, hf, _, he⟩
  · rw [he] at hs
    exact absurd rfl hs
  · rw [he]
    refine ⟨i, hi, rfl, ⟨by simp, by simp, hclean i hi hf⟩, ?_⟩
    intro s1 hu
    refine ⟨?_, ?_, ?_, ?_⟩
    · intro c s2 hc hex
      exact unrun_exec i cb n hcb c s1 s2 hc hu hex
    · intro cbs t s2 log hcbs hrun
      exact unrun_run w i cb n hi hcb hn cbs hcbs t s1 s2 log hu hrun
    · intro t hdue
      have hocc : s1.callbacks i ≠ 0 := by rw [hu.1]; exact hcb
      have hp : prevAfter w t s1 i = t := by
        simp [prevAfter, isDue, hocc, hdue]
      refine ⟨by rw [evalPass_prev_millis w t s1 i hi]; exact hp, ?_⟩
      obtain ⟨s2, hrun, _, hpt, _⟩ := run_quiet_spec w t s1
      exact ⟨s2, _, hrun, (hpt i hi).1.trans hp⟩
    · intro ts
      exact unrun_runs w i cb n hi hcb hn ts s1 hu

theorem due_not_stuck (w t : Nat) (s : SimpleTimer) (i : Nat) (hns : ¬ Stuck i s)
    (hdue : isDue w t s i = true) : markAfter w t s i ≠ DEFCALL_DONTRUN := by
  unfold Stuck at hns
  simp only [not_or, not_and, not_not, Bool.not_eq_false] at hns
  obtain ⟨_, hen, hlive⟩ := hns
  unfold markAfter
  rw [hdue, hen]
  simp only [Bool.and_self, if_true]
  by_cases h0 : s.maxNumRuns i = RUN_FOREVER
  · rw [if_pos h0]; decide
  · rw [if_neg h0, if_pos (hlive h0)]
    split <;> decide

/-- Among quiet polls of a slot whose baseline is P and whose delay is d, the
first one that makes an invocation for the slot comes no earlier than the
period after P. -/
theorem first_firing_after_baseline (w : Nat) (i : Nat) (hi : i < MAX_TIMERS) (P : Nat)
    (d : Int) (us : List Nat) :
    ∀ (s s' : SimpleTimer) (logs : List (List Invocation)),
      (Stuck i s ∨ (s.prev_millis i = P ∧ s.delays i = d)) →
      runs w quiet us s = some (s', logs) →
      ∀ u, firstFiring i us logs = some u → toULong w d ≤ usub w u P := by
  induction us with
  | nil =>
    intro s s' logs _ hruns u hf
    simp [firstFiring] at hf
  | cons a us ih =>
    intro s s' logs hJ hruns u hf
    obtain ⟨s1, hrun, hmx, hpt, hkeep, _⟩ := run_quiet_spec w a s
    generalize hlog : (List.range MAX_TIMERS).filterMap (firing w a s) = log1 at hrun
    simp only [runs, hrun, Option.some_bind] at hruns
    cases hr : runs w quiet us s1 with
    | none => simp [hr] at hruns
    | some q =>
      simp only [hr, Option.map_some', Option.some.injEq] at hruns
      have hlogs : logs = log1 :: q.2 := (congrArg Prod.snd hruns).symm
      subst hlogs
      simp only [firstFiring] at hf
      by_cases hany : log1.any (fun e => e.1 == i) = true
      · rw [if_pos hany] at hf
        have hu : a = u := Option.some.inj hf
        subst hu
        obtain ⟨e, he, hei⟩ := List.any_eq_true.mp hany
        have hei' : e.1 = i := by simpa using hei
        have hmem : (i, e.2) ∈ log1 := by
          rw [← hei']; exact he
        obtain ⟨hocc, hdue, hen, hlive⟩ := run_log_due w quiet a s s1 log1 hrun i e.2 hi hmem
        have hns : ¬ Stuck i s := by
          unfold Stuck
          simp only [not_or, not_and, not_not]
          refine ⟨hocc, by simp [hen], ?_⟩
          intro h0
          rcases hlive with h | h
          · exact absurd h h0
          · exact h
        rcases hJ with hst | ⟨hp, hd⟩
        · exact absurd hst hns
        · rw [hp, hd] at hdue
          exact hdue
      · rw [if_neg hany] at hf
        have hmark : markAfter w a s i = DEFCALL_DONTRUN := by
          rcases markAfter_cases w a s i with h0 | ⟨h12, _⟩
          · exact h0
          · exfalso
            apply hany
            rw [List.any_eq_true]
            refine ⟨(i, s.callbacks i), ?_, by simp⟩
            rw [← hlog, mem_quiet_log]
            exact ⟨hi, by simp [firing, h12]⟩
        have hk := hkeep i hi (by rw [hmark]; decide)
        have hruns1 := markAfter_dontrun_runs w a s i hmark
        have hJ1 : Stuck i s1 ∨ (s1.prev_millis i = P ∧ s1.delays i = d) := by
          by_cases hst : Stuck i s
          · left
            unfold Stuck at hst ⊢
            rw [hk.1, hk.2.1, hmx, hk.2.2.2, hruns1]
            exact hst
          · rcases hJ with h | ⟨hp, hd⟩
            · exact absurd h hst
            · right
              have hnd : isDue w a s i = false := by
                by_contra hcon
                have : isDue w a s i = true := by simpa using hcon
                exact due_not_stuck w a s i hst this hmark
              refine ⟨?_, hk.2.2.1.trans hd⟩
              rw [(hpt i hi).1, (not_due_after w a s i hnd).2.2]
              exact hp
        have hq : runs w quiet us s1 = some (q.1, q.2) := by rw [hr]
        exact ih s1 q.1 q.2 hJ1 hq u hf

/-- Every call other than deleteTimer(i), disable(i) and toggle(i) leaves an
enabled forever timer in slot i as it is. -/
theorem forever_exec (i cb : Nat) (d r : Int) (hcb : cb ≠ 0) (c : Call) (s s' : SimpleTimer)
    (hc : Call.Spares i c) (h : Forever i cb d r s) (he : c.exec s = some s') :
    Forever i cb d r s' := by
  obtain ⟨h1, h2, h3, h4, h5⟩ := h
  obtain ⟨hc1, hc2, hc3⟩ := hc
  have hset : ∀ d' m k t, Forever i cb d r (s.setTimer d' m k t).1 := by
    intro d' m k t
    rcases setTimer_cases s d' m k t with ⟨e, _⟩ | ⟨j, _, _, hf, _, e⟩
    · rw [e]; exact ⟨h1, h2, h3, h4, h5⟩
    · rw [e]
      have hji : i ≠ j := by
        intro hij
        rw [← hij, h1] at hf
        exact hcb hf
      exact ⟨by simp [Function.update_noteq hji, h1], by simp [Function.update_noteq hji, h2],
        by simp [Function.update_noteq hji, h3], by simp [Function.update_noteq hji, h4], h5⟩
  cases c with
  | setTimeout d' m t =>
    simp only [Call.exec, setTimeout, Option.some.injEq] at he
    subst he; exact hset d' m RUN_ONCE t
  | setInterval d' m t =>
    simp only [Call.exec, setInterval, Option.some.injEq] at he
    subst he; exact hset d' m RUN_FOREVER t
  | setTimer d' m k t =>
    simp only [Call.exec, Option.some.injEq] at he
    subst he; exact hset d' m k t
  | deleteTimer k =>
    rcases deleteTimer_cases s s' k he with rfl | ⟨j, hk, _, _, rfl⟩
    · exact ⟨h1, h2, h3, h4, h5⟩
    · have hji : i ≠ j := by
        intro hij
        apply hc1
        rw [hk, hij]
      exact ⟨by simp [Function.update_noteq hji, h1], by simp [Function.update_noteq hji, h2],
        h3, by simp [Function.update_noteq hji, h4], by simp [Function.update_noteq hji, h5]⟩
  | restartTimer k t =>
    simp only [Call.exec, restartTimer] at he
    split_ifs at he <;> cases he <;> exact ⟨h1, h2, h3, h4, h5⟩
  | isEnabled k =>
    simp only [Call.exec, isEnabled] at he
    split_ifs at he <;> simp at he <;> subst he <;> exact ⟨h1, h2, h3, h4, h5⟩
  | enable k =>
    simp only [Call.exec, enable] at he
    split_ifs at he <;> cases he
    · exact ⟨h1, h2, h3, h4, h5⟩
    · refine ⟨h1, h2, h3, ?_, h5⟩
      by_cases hki : k.toNat = i
      · rw [hki]; simp
      · simp [Function.update_noteq (Ne.symm hki), h4]
  | disable k =>
    simp only [Call.exec, disable] at he
    split_ifs at he with g1 g2 <;> cases he
    · exact ⟨h1, h2, h3, h4, h5⟩
    · refine ⟨h1, h2, h3, ?_, h5⟩
      have hki : i ≠ k.toNat := by
        intro hik
        apply hc2
        rw [hik, Int.toNat_of_nonneg (by omega)]
      simp [Function.update_noteq hki, h4]
  | toggle k =>
    simp only [Call.exec, toggle] at he
    split_ifs at he with g1 g2 <;> cases he
    · exact ⟨h1, h2, h3, h4, h5⟩
    · refine ⟨h1, h2, h3, ?_, h5⟩
      have hki : i ≠ k.toNat := by
        intro hik
        apply hc3
        rw [hik, Int.toNat_of_nonneg (by omega)]
      simp [Function.update_noteq hki, h4]

/-- An invocation made with callbacks that spare slot i leaves an enabled
forever timer in slot i as it is. -/
theorem forever_invoke (i cb : Nat) (d r : Int) (hcb : cb ≠ 0) (cbs : Callbacks)
    (hcbs : SparesSlot i cbs) (j : Nat) (st st1 : SimpleTimer × List Invocation)
    (h : Forever i cb d r st.1) (hv : invoke cbs j st = some st1) :
    Forever i cb d r st1.1 := by
  unfold invoke at hv
  split at hv
  · cases hv
  · cases hex : execCalls (cbs j (st.1.callbacks j)) st.1 with
    | none => simp [hex] at hv
    | some s1 =>
      simp [hex] at hv
      subst hv
      exact execCalls_preserves (Forever i cb d r) (Call.Spares i)
        (fun c a a' hc ha he => forever_exec i cb d r hcb c a a' hc ha he) _
        (fun c hc => hcbs j _ c hc) st.1 s1 h hex

/-- One step of the second loop of run, with callbacks that spare slot i,
leaves an enabled forever timer in slot i that is marked to be run only as it
is, mark included. -/
theorem forever_dispatchSlot (i cb : Nat) (d r : Int) (hcb : cb ≠ 0) (cbs : Callbacks)
    (hcbs : SparesSlot i cbs) (j : Nat) (st st' : SimpleTimer × List Invocation)
    (h : Forever i cb d r st.1 ∧ st.1.toBeCalled i = DEFCALL_RUNONLY)
    (hd : dispatchSlot cbs st j = some st') :
    Forever i cb d r st'.1 ∧ st'.1.toBeCalled i = DEFCALL_RUNONLY := by
  obtain ⟨hu, htb⟩ := h
  have hinv : ∀ st1, invoke cbs j st = some st1 →
      Forever i cb d r st1.1 ∧ st1.1.toBeCalled i = DEFCALL_RUNONLY := by
    intro st1 hv
    have htb1 := (invoke_log cbs j st st1 hv).1
    exact ⟨forever_invoke i cb d r hcb cbs hcbs j st st1 hu hv, by rw [htb1]; exact htb⟩
  unfold dispatchSlot at hd
  split at hd
  · cases hd; exact ⟨hu, htb⟩
  · split at hd
    · exact hinv st' hd
    · split at hd
      · rename_i _ _ hdel3
        have hji : j ≠ i := by
          intro hji
          rw [hji, htb] at hdel3
          revert hdel3
          decide
        cases hv : invoke cbs j st with
        | none => simp [hv] at hd
        | some st1 =>
          obtain ⟨hu1, htb1⟩ := hinv st1 hv
          cases hdel : st1.1.deleteTimer (j : Int) with
          | none => simp [hv, hdel] at hd
          | some s2 =>
            simp [hv, hdel] at hd
            subst hd
            have hsp : Call.Spares i (Call.deleteTimer (j : Int)) := by
              refine ⟨?_, by simp, by simp⟩
              intro hc
              injection hc with hc
              exact hji (by exact_mod_cast hc)
            refine ⟨forever_exec i cb d r hcb (.deleteTimer (j : Int)) st1.1 s2 hsp hu1 hdel, ?_⟩
            rw [exec_toBeCalled (.deleteTimer (j : Int)) st1.1 s2 hdel]
            exact htb1
      · cases hd; exact ⟨hu, htb⟩

/-- The invocations recorded by the steps of the second loop are kept by the
later steps. -/
theorem dispatchFold_mem (cbs : Callbacks) (e : Invocation) :
    ∀ (l : List Nat) (st st' : SimpleTimer × List Invocation),
      l.foldlM (dispatchSlot cbs) st = some st' → e ∈ st.2 → e ∈ st'.2 := by
  intro l
  induction l with
  | nil =>
    intro st st' h he
    simp at h
    subst h
    exact he
  | cons a l ih =>
    intro st st' h he
    rw [List.foldlM_cons] at h
    cases hd : dispatchSlot cbs st a with
    | none => rw [hd] at h; cases h
    | some st1 =>
      rw [hd] at h
      refine ih st1 st' h ?_
      rcases dispatchSlot_log cbs a st st1 hd with e1 | ⟨m, e1⟩
      · rw [e1]; exact he
      · rw [e1]; exact List.mem_append_left _ he

/-- The second loop of run, with callbacks that spare slot i, invokes the
callback of an enabled forever timer in slot i that is marked to be run only. -/
theorem forever_dispatchFold (i cb : Nat) (d r : Int) (hcb : cb ≠ 0) (cbs : Callbacks)
    (hcbs : SparesSlot i cbs) :
    ∀ (l : List Nat) (st st' : SimpleTimer × List Invocation),
      Forever i cb d r st.1 ∧ st.1.toBeCalled i = DEFCALL_RUNONLY →
      l.foldlM (dispatchSlot cbs) st = some st' →
      (Forever i cb d r st'.1 ∧ st'.1.toBeCalled i = DEFCALL_RUNONLY) ∧
        (i ∈ l → (i, cb) ∈ st'.2) := by
  intro l
  induction l with
  | nil =>
    intro st st' h hf
    simp at hf
    subst hf
    exact ⟨h, fun hm => absurd hm (List.not_mem_nil i)⟩
  | cons a l ih =>
    intro st st' h hf
    rw [List.foldlM_cons] at hf
    cases hd : dispatchSlot cbs st a with
    | none => rw [hd] at hf; cases hf
    | some st1 =>
      rw [hd] at hf
      have h1 := forever_dispatchSlot i cb d r hcb cbs hcbs a st st1 h hd
      obtain ⟨h2, hmem⟩ := ih st1 st' h1 hf
      refine ⟨h2, ?_⟩
      intro hm
      rcases List.mem_cons.mp hm with rfl | hm
      · have hinv : dispatchSlot cbs st i = invoke cbs i st := by
          unfold dispatchSlot
          rw [h.2]
          simp [DEFCALL_RUNONLY, DEFCALL_DONTRUN]
        rw [hinv] at hd
        have hlog := (invoke_log cbs i st st1 hd).2.1
        refine dispatchFold_mem cbs (i, cb) l st1 st' hf ?_
        rw [hlog, h.1.1]
        simp
      · exact hmem hm

/-- A list of at most one element that has x as a member is [x]. -/
theorem eq_singleton_of_mem {α : Type} (l : List α) (x : α) (hlen : l.length ≤ 1)
    (hx : x ∈ l) : l = [x] := by
  match l, hlen, hx with
  | [y], _, hx => simpa using (List.mem_singleton.mp hx).symm
  | _ :: _ :: _, hlen, _ => simp at hlen

/-- One poll at a period boundary of an enabled forever timer in slot i, with
callbacks that spare slot i: when run returns, the callback of slot i has been
invoked exactly once and the slot is as before. -/
theorem forever_run (w : Nat) (i cb : Nat) (d r : Int) (hi : i < MAX_TIMERS) (hcb : cb ≠ 0)
    (cbs : Callbacks) (hcbs : SparesSlot i cbs) (t : Nat) (s s' : SimpleTimer)
    (log : List Invocation) (h : Forever i cb d r s)
    (hdue : toULong w (s.delays i) ≤ usub w t (s.prev_millis i))
    (hrun : run w cbs t s = some (s', log)) :
    Forever i cb d r s' ∧ log.filter (fun e => decide (e.1 = i)) = [(i, cb)] := by
  have hocc : s.callbacks i ≠ 0 := by rw [h.1]; exact hcb
  obtain ⟨hmark, hruns, _⟩ := markAfter_forever w t s i hocc h.2.2.2.1 h.2.2.1 hdue
  have honce := run_log_once w cbs t s s' log hrun i
  have e1 := evalPass_callbacks w t s
  have e2 := evalPass_delays w t s
  have e3 := evalPass_maxNumRuns w t s
  have e4 := evalPass_enabled w t s
  have e7 := evalPass_numRuns w t s i hi
  have e8 := evalPass_toBeCalled w t s i hi
  unfold run dispatchPass at hrun
  generalize evalPass w t s = e0 at hrun e1 e2 e3 e4 e7 e8
  have h0 : Forever i cb d r e0 ∧ e0.toBeCalled i = DEFCALL_RUNONLY :=
    ⟨⟨by rw [e1]; exact h.1, by rw [e2]; exact h.2.1, by rw [e3]; exact h.2.2.1,
      by rw [e4]; exact h.2.2.2.1, by rw [e7, hruns]; exact h.2.2.2.2⟩,
      by rw [e8]; exact hmark⟩
  obtain ⟨⟨hf, _⟩, hmem⟩ := forever_dispatchFold i cb d r hcb cbs hcbs (List.range MAX_TIMERS)
    (e0, []) (s', log) h0 hrun
  refine ⟨hf, eq_singleton_of_mem _ _ honce ?_⟩
  rw [List.mem_filter]
  exact ⟨hmem (List.mem_range.mpr hi), by simp⟩

theorem polls_cons (w : Nat) (p : Nat × Callbacks) (ps : List (Nat × Callbacks))
    (s : SimpleTimer) :
    polls w (p :: ps) s =
      (run w p.2 p.1 s).bind (fun r => (polls w ps r.1).map (fun q => (q.1, r.2 :: q.2))) :=
  rfl

/-- Successive polls, each at a period boundary of an enabled forever timer in
slot i and each with callbacks that spare slot i: when they return, every one
of them has invoked the callback of slot i exactly once and the slot is as
before. -/
theorem forever_polls_spared (w : Nat) (i cb : Nat) (d r : Int) (hi : i < MAX_TIMERS)
    (hcb : cb ≠ 0) (ps : List (Nat × Callbacks)) :
    ∀ (s s' : SimpleTimer) (logs : List (List Invocation)),
      Forever i cb d r s → (∀ p, p ∈ ps → SparesSlot i p.2) → dueAtEach w i ps s →
      polls w ps s = some (s', logs) →
      Forever i cb d r s' ∧ logs.length = ps.length ∧
        ∀ l, l ∈ logs → l.filter (fun e => decide (e.1 = i)) = [(i, cb)] := by
  induction ps with
  | nil =>
    intro s s' logs h _ _ hp
    simp [polls] at hp
    obtain ⟨rfl, rfl⟩ := hp
    exact ⟨h, rfl, fun l hl => absurd hl (List.not_mem_nil l)⟩
  | cons p ps ih =>
    intro s s' logs h hsp hdue hp
    rw [polls_cons] at hp
    cases hrun : run w p.2 p.1 s with
    | none => simp [hrun] at hp
    | some r1 =>
      obtain ⟨s1, log1⟩ := r1
      cases hrest : polls w ps s1 with
      | none => simp [hrun, hrest] at hp
      | some q =>
        obtain ⟨s2, logs2⟩ := q
        simp [hrun, hrest] at hp
        obtain ⟨rfl, rfl⟩ := hp
        obtain ⟨hf1, hlog1⟩ := forever_run w i cb d r hi hcb p.2
          (hsp p (List.mem_cons_self p ps)) p.1 s s1 log1 h hdue.1 hrun
        obtain ⟨hf2, hlen, hlogs⟩ := ih s1 s2 logs2 hf1
          (fun q hq => hsp q (List.mem_cons_of_mem p hq)) (hdue.2 s1 log1 hrun) hrest
        refine ⟨hf2, by simp [hlen], ?_⟩
        intro l hl
        rcases List.mem_cons.mp hl with rfl | hl
        · exact hlog1
        · exact hlogs l hl

/-- A call with its index in range that is not deleteTimer returns, and leaves
the marks and every occupied slot occupied. -/
theorem exec_noCancel (c : Call) (s : SimpleTimer) (hr : Call.InRange c)
    (hd : ∀ k, c ≠ Call.deleteTimer k) :
    ∃ s', c.exec s = some s' ∧ s'.toBeCalled = s.toBeCalled ∧
      ∀ j, s.callbacks j ≠ 0 → s'.callbacks j ≠ 0 := by
  have hset : ∀ d m n t j, s.callbacks j ≠ 0 → (s.setTimer d m n t).1.callbacks j ≠ 0 := by
    intro d m n t j hj
    rcases setTimer_cases s d m n t with ⟨e, _⟩ | ⟨i, _, _, hf, _, e⟩
    · rw [e]; exact hj
    · rw [e]
      have hji : j ≠ i := by
        intro h
        rw [h] at hj
        exact hj hf
      simpa [Function.update_noteq hji] using hj
  have hsome : ∃ s', c.exec s = some s' := by
    rw [← Option.isSome_iff_exists]
    cases c with
    | setTimeout d m t => simp [Call.exec]
    | setInterval d m t => simp [Call.exec]
    | setTimer d m n t => simp [Call.exec]
    | deleteTimer k => exact absurd rfl (hd k)
    | restartTimer k t =>
      have h1 : ¬ (k ≥ (MAX_TIMERS : Int)) := not_le.mpr hr.2
      have h2 : ¬ (k < 0) := not_lt.mpr hr.1
      simp [Call.exec, restartTimer, h1, h2]
    | isEnabled k =>
      have h1 : ¬ (k ≥ (MAX_TIMERS : Int)) := not_le.mpr hr.2
      have h2 : ¬ (k < 0) := not_lt.mpr hr.1
      simp [Call.exec, isEnabled, h1, h2]
    | enable k =>
      have h1 : ¬ (k ≥ (MAX_TIMERS : Int)) := not_le.mpr hr.2
      have h2 : ¬ (k < 0) := not_lt.mpr hr.1
      simp [Call.exec, enable, h1, h2]
    | disable k =>
      have h1 : ¬ (k ≥ (MAX_TIMERS : Int)) := not_le.mpr hr.2
      have h2 : ¬ (k < 0) := not_lt.mpr hr.1
      simp [Call.exec, disable, h1, h2]
    | toggle k =>
      have h1 : ¬ (k ≥ (MAX_TIMERS : Int)) := not_le.mpr hr.2
      have h2 : ¬ (k < 0) := not_lt.mpr hr.1
      simp [Call.exec, toggle, h1, h2]
  obtain ⟨s', hs'⟩ := hsome
  refine ⟨s', hs', exec_toBeCalled c s s' hs', ?_⟩
  intro j hj
  cases c with
  | setTimeout d m t =>
    simp only [Call.exec, setTimeout, Option.some.injEq] at hs'
    subst hs'; exact hset d m RUN_ONCE t j hj
  | setInterval d m t =>
    simp only [Call.exec, setInterval, Option.some.injEq] at hs'
    subst hs'; exact hset d m RUN_FOREVER t j hj
  | setTimer d m n t =>
    simp only [Call.exec, Option.some.injEq] at hs'
    subst hs'; exact hset d m n t j hj
  | deleteTimer k => exact absurd rfl (hd k)
  | restartTimer k t =>
    rw [(exec_other _ s s' hs' (by simp) (by simp) (by simp) (by simp)).1]; exact hj
  | isEnabled k =>
    rw [(exec_other _ s s' hs' (by simp) (by simp) (by simp) (by simp)).1]; exact hj
  | enable k =>
    rw [(exec_other _ s s' hs' (by simp) (by simp) (by simp) (by simp)).1]; exact hj
  | disable k =>
    rw [(exec_other _ s s' hs' (by simp) (by simp) (by simp) (by simp)).1]; exact hj
  | toggle k =>
    rw [(exec_other _ s s' hs' (by simp) (by simp) (by simp) (by simp)).1]; exact hj

theorem execCalls_noCancel (cs : List Call) :
    ∀ s : SimpleTimer, (∀ c, c ∈ cs → Call.InRange c ∧ ∀ k, c ≠ Call.deleteTimer k) →
      ∃ s', execCalls cs s = some s' ∧ s'.toBeCalled = s.toBeCalled ∧
        ∀ j, s.callbacks j ≠ 0 → s'.callbacks j ≠ 0 := by
  induction cs with
  | nil =>
    intro s _
    exact ⟨s, rfl, rfl, fun _ h => h⟩
  | cons c cs ih =>
    intro s h
    obtain ⟨s1, h1, t1, c1⟩ :=
      exec_noCancel c s (h c (List.mem_cons_self c cs)).1 (h c (List.mem_cons_self c cs)).2
    obtain ⟨s2, h2, t2, c2⟩ := ih s1 (fun c' hc' => h c' (List.mem_cons_of_mem c hc'))
    refine ⟨s2, ?_, t2.trans t1, fun j hj => c2 j (c1 j hj)⟩
    unfold execCalls at h2 ⊢
    rw [List.foldlM_cons, h1]
    exact h2

/-- The second loop of run for one index returns when the callbacks make no
deleteTimer call and a marked slot is occupied; the marks and the other
occupied slots stay. -/
theorem dispatchSlot_noCancel (cbs : Callbacks) (hcbs : NoCancel cbs) (a : Nat)
    (st : SimpleTimer × List Invocation)
    (hocc : st.1.toBeCalled a ≠ DEFCALL_DONTRUN → st.1.callbacks a ≠ 0) :
    ∃ st1, dispatchSlot cbs st a = some st1 ∧ st1.1.toBeCalled = st.1.toBeCalled ∧
      ∀ k, k ≠ a → st.1.callbacks k ≠ 0 → st1.1.callbacks k ≠ 0 := by
  have hinv : st.1.toBeCalled a ≠ DEFCALL_DONTRUN →
      ∃ st1, invoke cbs a st = some st1 ∧ st1.1.toBeCalled = st.1.toBeCalled ∧
        ∀ k, st.1.callbacks k ≠ 0 → st1.1.callbacks k ≠ 0 := by
    intro hm
    obtain ⟨s1, h1, t1, c1⟩ := execCalls_noCancel (cbs a (st.1.callbacks a)) st.1
      (fun c hc => hcbs a _ c hc)
    refine ⟨(s1, st.2 ++ [(a, st.1.callbacks a)]), ?_, t1, c1⟩
    unfold invoke
    rw [if_neg (hocc hm), h1]
    rfl
  unfold dispatchSlot
  by_cases h0 : st.1.toBeCalled a = DEFCALL_DONTRUN
  · rw [if_pos h0]
    exact ⟨st, rfl, rfl, fun _ _ h => h⟩
  · rw [if_neg h0]
    obtain ⟨st1, hv, t1, c1⟩ := hinv h0
    by_cases h1 : st.1.toBeCalled a = DEFCALL_RUNONLY
    · rw [if_pos h1]
      exact ⟨st1, hv, t1, fun k _ h => c1 k h⟩
    · rw [if_neg h1]
      by_cases h2 : st.1.toBeCalled a = DEFCALL_RUNANDDEL
      · rw [if_pos h2, hv]
        have hsome : ∃ s2, st1.1.deleteTimer (a : Int) = some s2 := by
          rw [← Option.isSome_iff_exists]
          unfold deleteTimer
          split_ifs with g1 g2 g3
          · rfl
          · rfl
          · omega
          · rfl
        obtain ⟨s2, hdel⟩ := hsome
        refine ⟨(s2, st1.2), by simp [hdel], ?_, ?_⟩
        · exact (exec_toBeCalled (.deleteTimer (a : Int)) st1.1 s2 hdel).trans t1
        · intro k hk hc
          have hc1 := c1 k hc
          rcases deleteTimer_cases st1.1 s2 (a : Int) hdel with rfl | ⟨j, hj, _, _, rfl⟩
          · exact hc1
          · have hja : j = a := by exact_mod_cast hj.symm
            subst hja
            simpa [Function.update_noteq hk] using hc1
      · rw [if_neg h2]
        exact ⟨st, rfl, rfl, fun _ _ h => h⟩

theorem dispatchFold_noCancel (cbs : Callbacks) (hcbs : NoCancel cbs) (l : List Nat) :
    l.Nodup → ∀ st : SimpleTimer × List Invocation,
      (∀ j, j ∈ l → st.1.toBeCalled j ≠ DEFCALL_DONTRUN → st.1.callbacks j ≠ 0) →
      ∃ st', l.foldlM (dispatchSlot cbs) st = some st' := by
  induction l with
  | nil =>
    intro _ st _
    exact ⟨st, rfl⟩
  | cons a l ih =>
    intro hnd st h
    obtain ⟨hal, hl⟩ := List.nodup_cons.mp hnd
    obtain ⟨st1, h1, t1, c1⟩ :=
      dispatchSlot_noCancel cbs hcbs a st (h a (List.mem_cons_self a l))
    obtain ⟨st', h'⟩ := ih hl st1 (by
      intro j hj hm
      have hja : j ≠ a := by
        intro e
        rw [e] at hj
        exact hal hj
      rw [t1] at hm
      exact c1 j hja (h j (List.mem_cons_of_mem a hj) hm))
    refine ⟨st', ?_⟩
    rw [List.foldlM_cons, h1]
    exact h'

/-- A poll returns when its callbacks make only calls with the index in range
and no deleteTimer call. -/
theorem run_noCancel (w : Nat) (cbs : Callbacks) (hcbs : NoCancel cbs) (t : Nat)
    (s : SimpleTimer) : ∃ s' log, run w cbs t s = some (s', log) := by
  have h0 : ∀ j, j ∈ List.range MAX_TIMERS →
      (evalPass w t s).toBeCalled j ≠ DEFCALL_DONTRUN → (evalPass w t s).callbacks j ≠ 0 := by
    intro j hj hm
    rw [evalPass_toBeCalled w t s j (List.mem_range.mp hj)] at hm
    rw [evalPass_callbacks]
    exact (markAfter_ne_dontrun w t s j hm).1
  unfold run dispatchPass
  generalize evalPass w t s = e0 at h0
  obtain ⟨st', h⟩ := dispatchFold_noCancel cbs hcbs (List.range MAX_TIMERS)
    (List.nodup_range MAX_TIMERS) (e0, []) h0
  exact ⟨st'.1, st'.2, h⟩

theorem polls_noCancel (w : Nat) (ps : List (Nat × Callbacks)) :
    (∀ p, p ∈ ps → NoCancel p.2) → ∀ s : SimpleTimer,
      ∃ s' logs, polls w ps s = some (s', logs) := by
  induction ps with
  | nil =>
    intro _ s
    exact ⟨s, [], rfl⟩
  | cons p ps ih =>
    intro h s
    obtain ⟨s1, log1, h1⟩ := run_noCancel w p.2 (h p (List.mem_cons_self p ps)) p.1 s
    obtain ⟨s2, logs2, h2⟩ := ih (fun q hq => h q (List.mem_cons_of_mem p hq)) s1
    exact ⟨s2, log1 :: logs2, by rw [polls_cons, h1]; simp [h2]⟩

theorem busyAt_spares (now : Nat) : SparesSlot 0 (busyAt now) := by
  intro j m c hc
  unfold busyAt at hc
  split_ifs at hc
  · simp only [List.mem_cons, List.mem_singleton, List.not_mem_nil, or_false] at hc
    rcases hc with rfl | rfl | rfl <;> exact ⟨by simp, by simp, by simp⟩
  · exact absurd hc (List.not_mem_nil c)

theorem busyAt_noCancel (now : Nat) : NoCancel (busyAt now) := by
  intro j m c hc
  unfold busyAt at hc
  split_ifs at hc
  · simp only [List.mem_cons, List.mem_singleton, List.not_mem_nil, or_false] at hc
    rcases hc with rfl | rfl | rfl
    · exact ⟨trivial, by simp⟩
    · exact ⟨by decide, by simp⟩
    · exact ⟨⟨le_refl 0, by decide⟩, by simp⟩
  · exact absurd hc (List.not_mem_nil c)

/-- Every call leaves prev_millis[i] as it is, unless it is restartTimer(i),
or a registration that takes the free slot i; these set it to their clock
reading. -/
theorem exec_prev_millis (i : Nat) (c : Call) (s s' : SimpleTimer)
    (he : c.exec s = some s') :
    s'.prev_millis i = s.prev_millis i ∨
    c = Call.restartTimer (i : Int) (s'.prev_millis i) ∨
    (s.callbacks i = 0 ∧ Call.Registers c (s'.delays i) (s'.prev_millis i)) := by
  have hset : ∀ d m n t,
      (s.setTimer d m n t).1.prev_millis i = s.prev_millis i ∨
      (s.callbacks i = 0 ∧ (s.setTimer d m n t).1.delays i = d ∧
        (s.setTimer d m n t).1.prev_millis i = t) := by
    intro d m n t
    rcases setTimer_cases s d m n t with ⟨e, _⟩ | ⟨j, _, _, hf, _, e⟩
    · rw [e]; exact Or.inl rfl
    · rw [e]
      by_cases hji : i = j
      · subst hji
        exact Or.inr ⟨hf, by simp, by simp⟩
      · exact Or.inl (by simp [Function.update_noteq hji])
  cases c with
  | setTimeout d m t =>
    simp only [Call.exec, setTimeout, Option.some.injEq] at he
    subst he
    rcases hset d m RUN_ONCE t with h | ⟨h1, h2, h3⟩
    · exact Or.inl h
    · exact Or.inr (Or.inr ⟨h1, m, RUN_ONCE, Or.inr (Or.inl (by rw [h2, h3]))⟩)
  | setInterval d m t =>
    simp only [Call.exec, setInterval, Option.some.injEq] at he
    subst he
    rcases hset d m RUN_FOREVER t with h | ⟨h1, h2, h3⟩
    · exact Or.inl h
    · exact Or.inr (Or.inr ⟨h1, m, RUN_FOREVER, Or.inr (Or.inr (by rw [h2, h3]))⟩)
  | setTimer d m n t =>
    simp only [Call.exec, Option.some.injEq] at he
    subst he
    rcases hset d m n t with h | ⟨h1, h2, h3⟩
    · exact Or.inl h
    · exact Or.inr (Or.inr ⟨h1, m, n, Or.inl (by rw [h2, h3])⟩)
  | deleteTimer k =>
    rcases deleteTimer_cases s s' k he with rfl | ⟨j, _, _, _, rfl⟩
    · exact Or.inl rfl
    · exact Or.inl rfl
  | restartTimer k t =>
    simp only [Call.exec, restartTimer] at he
    split_ifs at he with g1 g2 <;> cases he
    · exact Or.inl rfl
    · by_cases hki : k.toNat = i
      · right; left
        have hk : k = (i : Int) := by rw [← hki, Int.toNat_of_nonneg (by omega)]
        have hp : (Function.update s.prev_millis k.toNat t) i = t := by
          rw [hki]; exact Function.update_same i t s.prev_millis
        show Call.restartTimer k t =
          Call.restartTimer (i : Int) ((Function.update s.prev_millis k.toNat t) i)
        rw [hp, hk]
      · exact Or.inl (by simp [Function.update_noteq (Ne.symm hki)])
  | isEnabled k =>
    simp only [Call.exec, isEnabled] at he
    split_ifs at he <;> simp at he <;> subst he <;> exact Or.inl rfl
  | enable k =>
    simp only [Call.exec, enable] at he
    split_ifs at he <;> cases he <;> exact Or.inl rfl
  | disable k =>
    simp only [Call.exec, disable] at he
    split_ifs at he <;> cases he <;> exact Or.inl rfl
  | toggle k =>
    simp only [Call.exec, toggle] at he
    split_ifs at he <;> cases he <;> exact Or.inl rfl

/-- A poll at which the elapsed time of slot i is below its delay makes no
invocation for slot i, whatever the callbacks do. -/
theorem run_early_no_log (w : Nat) (i : Nat) (hi : i < MAX_TIMERS) (s0 : SimpleTimer)
    (t1 : Nat) (hearly : usub w t1 (s0.prev_millis i) < toULong w (s0.delays i))
    (cbs : Callbacks) (s' : SimpleTimer) (log : List Invocation)
    (hrun : run w cbs t1 s0 = some (s', log)) : ∀ m, (i, m) ∉ log := by
  intro m hmem
  have := (run_log_due w cbs t1 s0 s' log hrun i m hi hmem).2.1
  omega

theorem restartTimer_in_range (s : SimpleTimer) (k now : Nat) (hk : k < MAX_TIMERS) :
    s.restartTimer (k : Int) now =
      some { s with prev_millis := Function.update s.prev_millis k now } := by
  have h1 : ¬ ((k : Int) ≥ (MAX_TIMERS : Int)) := by
    simp only [ge_iff_le, Nat.cast_le, not_le]; exact hk
  have h2 : ¬ ((k : Int) < 0) := by omega
  simp [restartTimer, h1, h2]

/-! ## The properties -/

/-- C1 (refuted on the code): after one registration and a deleteTimer on the
free slot 5 (an index in range), getNumTimers returns 0 although slot 0 still
holds its callback; so numTimers is not the number of set callbacks in every
reachable state. -/
theorem C1_numTimers_miscounts :
    (execCalls miscountCalls (new zeroMem 0)).map
        (fun s => (s.getNumTimers, occupiedCount s, s.callbacks 0)) = some (0, 1, 7) ∧
      ¬ ∀ s, Reachable 32 Call.InRange s → s.getNumTimers = (occupiedCount s : Int) := by
  have hex : execCalls miscountCalls (new zeroMem 0) = some miscountState := rfl
  refine ⟨by decide, ?_⟩
  intro hall
  have hreach : Reachable 32 Call.InRange miscountState :=
    reachable_execCalls 32 Call.InRange miscountCalls (new zeroMem 0) _
      (Reachable.init zeroMem 0)
      (by
        intro c hc
        simp only [miscountCalls, List.mem_cons, List.mem_singleton, List.not_mem_nil,
          or_false] at hc
        rcases hc with rfl | rfl
        · trivial
        · exact ⟨by decide, by decide⟩)
      hex
  have := hall _ hreach
  revert this
  decide

/-- C2: in every state reachable by calls with indices in range and
non-null callbacks, setTimer returns -1 exactly when no slot is free, and
otherwise returns the lowest index whose callback is unset; and after the
table has been filled and slot k cancelled, the next registration returns k. -/
theorem C2_setTimer_lowest_free (w : Nat) (s : SimpleTimer)
    (h : Reachable w (fun c => c.InRange ∧ c.NonNull) s)
    (d : Int) (m : Nat) (n : Int) (t : Nat) :
    ((s.setTimer d m n t).2 = -1 ↔ ∀ i, i < MAX_TIMERS → s.callbacks i ≠ 0) ∧
    (∀ i : Nat, i < MAX_TIMERS → s.callbacks i = 0 → (∀ j, j < i → s.callbacks j ≠ 0) →
      (s.setTimer d m n t).2 = (i : Int)) ∧
    (∀ (mem : SimpleTimer) (t0 : Nat) (regs : List Registration) (k : Nat),
      regs.length = MAX_TIMERS → (∀ r, r ∈ regs → r.methodPtr ≠ 0) → k < MAX_TIMERS →
      ∃ s1, (registerAll regs (new mem t0)).1.deleteTimer (k : Int) = some s1 ∧
        ∀ d' m' n' t', (s1.setTimer d' m' n' t').2 = (k : Int)) := by
  have hcount := countOk_reachable w s h
  unfold CountOk at hcount
  have hfull : (MAX_TIMERS : Int) ≤ s.numTimers → ∀ i, i < MAX_TIMERS → s.callbacks i ≠ 0 := by
    intro hge
    apply occupiedCount_full
    have : (MAX_TIMERS : Int) ≤ (occupiedCount s : Int) := le_trans hge hcount
    exact_mod_cast this
  refine ⟨?_, ?_, ?_⟩
  · rcases setTimer_cases s d m n t with ⟨he, hw⟩ | ⟨i, hi, _, hf, _, he⟩
    · rw [he]
      simp only [true_iff]
      rcases hw with hge | hall
      · exact hfull hge
      · exact hall
    · rw [he]
      constructor
      · intro hneg
        simp only at hneg
        omega
      · intro hall
        exact absurd hf (hall i hi)
  · intro i hi hf hl
    rcases setTimer_cases s d m n t with ⟨_, hw⟩ | ⟨i', hi', _, hf', hl', he⟩
    · rcases hw with hge | hall
      · exact absurd hf (hfull hge i hi)
      · exact absurd hf (hall i hi)
    · rw [he]
      simp only
      have : i' = i := by
        rcases Nat.lt_trichotomy i' i with h1 | h1 | h1
        · exact absurd hf' (hl i' h1)
        · exact h1
        · exact absurd hf (hl' i h1)
      rw [this]
  · intro mem t0 regs k hlen hnn hk
    exact refill_returns_freed mem t0 regs k hlen hnn hk

/-- Witness for C2: two registrations and a deleteTimer(0) leave slot 0 as the
lowest free slot, and a filled table with slot 3 cancelled hands out 3 next. -/
theorem C2_setTimer_lowest_free_witness :
    Reachable 32 (fun c => c.InRange ∧ c.NonNull) refillState ∧
    ((refillState.setTimer 500 42 1 77).2 = -1 ↔
        ∀ i, i < MAX_TIMERS → refillState.callbacks i ≠ 0) ∧
      (refillState.setTimer 500 42 1 77).2 = ((0 : Nat) : Int) ∧
      ∃ s1, (registerAll tenRegs (new zeroMem 0)).1.deleteTimer ((3 : Nat) : Int) = some s1 ∧
        ∀ d' m' n' t', (s1.setTimer d' m' n' t').2 = ((3 : Nat) : Int) :=
  ⟨refillState_reachable,
    (C2_setTimer_lowest_free 32 refillState refillState_reachable 500 42 1 77).1,
    (C2_setTimer_lowest_free 32 refillState refillState_reachable 500 42 1 77).2.1 0
      (by decide) (by decide) (by decide),
    (C2_setTimer_lowest_free 32 refillState refillState_reachable 500 42 1 77).2.2
      zeroMem 0 tenRegs 3 (by decide) (by decide) (by decide)⟩

/-- C3: in every state reachable by calls with indices in range, a setTimer
that succeeds returns a free index i below MAX_TIMERS, leaves slot i with the
given delay, callback and run limit, enabled, with run count 0 and
prev_millis equal to the clock reading, adds one to numTimers, and changes no
field of any other slot. -/
theorem C3_setTimer_fills_slot (w : Nat) (s : SimpleTimer) (h : Reachable w Call.InRange s)
    (d : Int) (m : Nat) (n : Int) (t : Nat) (hs : (s.setTimer d m n t).2 ≠ -1) :
    ∃ i : Nat, i < MAX_TIMERS ∧ (s.setTimer d m n t).2 = (i : Int) ∧ s.callbacks i = 0 ∧
      (s.setTimer d m n t).1.delays i = d ∧
      (s.setTimer d m n t).1.callbacks i = m ∧
      (s.setTimer d m n t).1.maxNumRuns i = n ∧
      (s.setTimer d m n t).1.enabled i = true ∧
      (s.setTimer d m n t).1.numRuns i = 0 ∧
      (s.setTimer d m n t).1.prev_millis i = t ∧
      (s.setTimer d m n t).1.numTimers = s.numTimers + 1 ∧
      ∀ j, j ≠ i →
        (s.setTimer d m n t).1.delays j = s.delays j ∧
        (s.setTimer d m n t).1.callbacks j = s.callbacks j ∧
        (s.setTimer d m n t).1.maxNumRuns j = s.maxNumRuns j ∧
        (s.setTimer d m n t).1.enabled j = s.enabled j ∧
        (s.setTimer d m n t).1.numRuns j = s.numRuns j ∧
        (s.setTimer d m n t).1.prev_millis j = s.prev_millis j ∧
        (s.setTimer d m n t).1.toBeCalled j = s.toBeCalled j := by
  have hclean := freeClean_reachable w Call.InRange s h
  rcases setTimer_cases s d m n t with ⟨he, _⟩ | ⟨i, hi, _, hf, _, he⟩
  · rw [he] at hs
    exact absurd rfl hs
  · rw [he]
    refine ⟨i, hi, rfl, hf, ?_, ?_, ?_, ?_, ?_, ?_, rfl, ?_⟩
    · simp
    · simp
    · simp
    · simp
    · exact hclean i hi hf
    · simp
    · intro j hj
      simp [Function.update_noteq hj]

/-- Witness for C3: a second registration after one setTimeout and one poll. -/
theorem C3_setTimer_fills_slot_witness :
    Reachable 32 Call.InRange oneTimerState ∧
    (oneTimerState.setTimer 250 8 3 20).2 ≠ -1 ∧
    ∃ i : Nat, i < MAX_TIMERS ∧ (oneTimerState.setTimer 250 8 3 20).2 = (i : Int) ∧
      oneTimerState.callbacks i = 0 ∧
      (oneTimerState.setTimer 250 8 3 20).1.delays i = 250 ∧
      (oneTimerState.setTimer 250 8 3 20).1.callbacks i = 8 ∧
      (oneTimerState.setTimer 250 8 3 20).1.maxNumRuns i = 3 ∧
      (oneTimerState.setTimer 250 8 3 20).1.enabled i = true ∧
      (oneTimerState.setTimer 250 8 3 20).1.numRuns i = 0 ∧
      (oneTimerState.setTimer 250 8 3 20).1.prev_millis i = 20 ∧
      (oneTimerState.setTimer 250 8 3 20).1.numTimers = oneTimerState.numTimers + 1 ∧
      ∀ j, j ≠ i →
        (oneTimerState.setTimer 250 8 3 20).1.delays j = oneTimerState.delays j ∧
        (oneTimerState.setTimer 250 8 3 20).1.callbacks j = oneTimerState.callbacks j ∧
        (oneTimerState.setTimer 250 8 3 20).1.maxNumRuns j = oneTimerState.maxNumRuns j ∧
        (oneTimerState.setTimer 250 8 3 20).1.enabled j = oneTimerState.enabled j ∧
        (oneTimerState.setTimer 250 8 3 20).1.numRuns j = oneTimerState.numRuns j ∧
        (oneTimerState.setTimer 250 8 3 20).1.prev_millis j = oneTimerState.prev_millis j ∧
        (oneTimerState.setTimer 250 8 3 20).1.toBeCalled j = oneTimerState.toBeCalled j :=
  ⟨oneTimerState_reachable, by decide,
    C3_setTimer_fills_slot 32 oneTimerState oneTimerState_reachable 250 8 3 20 (by decide)⟩

/-- C4: ten registrations on a new object all succeed, and the next
registration, by setTimer, setTimeout or setInterval, returns -1 and leaves the
object as it is. -/
theorem C4_eleventh_registration_fails (mem : SimpleTimer) (t0 : Nat)
    (regs : List Registration) (hlen : regs.length = MAX_TIMERS) :
    (∀ x, x ∈ (registerAll regs (new mem t0)).2 → x ≠ -1) ∧
    ∀ (d : Int) (m : Nat) (n : Int) (t : Nat),
      (registerAll regs (new mem t0)).1.setTimer d m n t =
        ((registerAll regs (new mem t0)).1, -1) ∧
      (registerAll regs (new mem t0)).1.setTimeout d m t =
        ((registerAll regs (new mem t0)).1, -1) ∧
      (registerAll regs (new mem t0)).1.setInterval d m t =
        ((registerAll regs (new mem t0)).1, -1) := by
  have hroom := registerAll_room regs (new mem t0)
    (by rw [new_occupiedCount, new_numTimers]; simp)
    (by rw [new_numTimers, hlen]; simp)
  rw [new_numTimers, hlen] at hroom
  refine ⟨hroom.2, ?_⟩
  generalize (registerAll regs (new mem t0)).1 = s at hroom ⊢
  have hfail : s.findFirstFreeSlot = -1 :=
    findFirstFreeSlot_full s (by rw [hroom.1]; simp)
  intro d m n t
  exact ⟨setTimer_fail s d m n t hfail, setTimer_fail s d m RUN_ONCE t hfail,
    setTimer_fail s d m RUN_FOREVER t hfail⟩

/-- Witness for C4: ten registrations of forever timers on a new object. -/
theorem C4_eleventh_registration_fails_witness :
    tenRegs.length = MAX_TIMERS ∧
    (∀ x, x ∈ (registerAll tenRegs (new zeroMem 0)).2 → x ≠ -1) ∧
    ∀ (d : Int) (m : Nat) (n : Int) (t : Nat),
      (registerAll tenRegs (new zeroMem 0)).1.setTimer d m n t =
        ((registerAll tenRegs (new zeroMem 0)).1, -1) ∧
      (registerAll tenRegs (new zeroMem 0)).1.setTimeout d m t =
        ((registerAll tenRegs (new zeroMem 0)).1, -1) ∧
      (registerAll tenRegs (new zeroMem 0)).1.setInterval d m t =
        ((registerAll tenRegs (new zeroMem 0)).1, -1) :=
  ⟨by decide, C4_eleventh_registration_fails zeroMem 0 tenRegs (by decide)⟩

/-- C5: in every state reachable by calls with indices in range, getNumTimers
lies in [0, MAX_TIMERS] and getNumAvailableTimers is MAX_TIMERS minus
getNumTimers, again in [0, MAX_TIMERS]. -/
theorem C5_numTimers_bounds (w : Nat) (s : SimpleTimer) (h : Reachable w Call.InRange s) :
    0 ≤ s.getNumTimers ∧ s.getNumTimers ≤ (MAX_TIMERS : Int) ∧
      s.getNumAvailableTimers = (MAX_TIMERS : Int) - s.getNumTimers ∧
      0 ≤ s.getNumAvailableTimers ∧ s.getNumAvailableTimers ≤ (MAX_TIMERS : Int) := by
  have hn := numOk_reachable w Call.InRange s h
  unfold NumOk at hn
  unfold getNumTimers getNumAvailableTimers
  refine ⟨hn.1, hn.2, rfl, ?_, ?_⟩ <;> omega

/-- Witness for C5: the state after one setTimeout and one poll. -/
theorem C5_numTimers_bounds_witness :
    Reachable 32 Call.InRange oneTimerState ∧
    0 ≤ oneTimerState.getNumTimers ∧ oneTimerState.getNumTimers ≤ (MAX_TIMERS : Int) ∧
      oneTimerState.getNumAvailableTimers = (MAX_TIMERS : Int) - oneTimerState.getNumTimers ∧
      0 ≤ oneTimerState.getNumAvailableTimers ∧
      oneTimerState.getNumAvailableTimers ≤ (MAX_TIMERS : Int) :=
  ⟨oneTimerState_reachable, C5_numTimers_bounds 32 oneTimerState oneTimerState_reachable⟩

/-- C6: a timer registered on a new object with run limit N at least 1 and a
delay D that fits the clock, polled once per period at the clock readings
t0 + D, ..., t0 + N D (taken modulo the clock range) with callbacks that make
no call on the object: every one of the N polls invokes the callback exactly
once for slot 0 and nothing else (for N = 1 the registration is that of
setTimeout), after the N-th poll the slot is free and
getNumTimers is one less than after the registration, and no later poll
invokes anything. -/
theorem C6_counted_timer_fires_N_times (mem : SimpleTimer) (c0 w t0 : Nat) (D : Int)
    (cb N : Nat) (hcb : cb ≠ 0) (hN : 1 ≤ N) (hD0 : 0 ≤ D) (hD : D < (2 : Int) ^ w) :
    ((new mem c0).setTimer D cb (N : Int) t0).2 = 0 ∧
    (N = 1 → (new mem c0).setTimeout D cb t0 = (new mem c0).setTimer D cb (N : Int) t0) ∧
    ∃ s', runs w quiet (pollTimes w t0 D.toNat 0 N) ((new mem c0).setTimer D cb (N : Int) t0).1 =
        some (s', List.replicate N [(0, cb)]) ∧
      s'.callbacks 0 = 0 ∧
      s'.getNumTimers = ((new mem c0).setTimer D cb (N : Int) t0).1.getNumTimers - 1 ∧
      ∀ ts : List Nat, ∃ s'', runs w quiet ts s' = some (s'', List.replicate ts.length []) := by
  obtain ⟨h2, h0, hfree, hd, hen, hmax, hruns, hnum, hprev⟩ :=
    first_registration mem c0 D cb (N : Int) t0
  refine ⟨h2, ?_, ?_⟩
  · intro h1
    subst h1
    rfl
  generalize ((new mem c0).setTimer D cb (N : Int) t0).1 = s at h0 hfree hd hen hmax hruns hnum hprev
  obtain ⟨m, rfl⟩ : ∃ m, N = m + 1 := ⟨N - 1, by omega⟩
  obtain ⟨s', hr, hf', hn'⟩ := solo_runs w cb D (m + 1) t0 hcb hD0 hD m 0 s (by omega) h0 hfree
    hd hen hmax (by rw [hruns]; rfl) hnum (by rw [hprev]; simp)
  refine ⟨s', hr, hf' 0 (by decide), ?_, ?_⟩
  · unfold getNumTimers
    rw [hn', hnum]; rfl
  · intro ts
    obtain ⟨s'', h, _, _⟩ := empty_polls w ts s' hf'
    exact ⟨s'', h⟩

/-- Witness for C6: three runs with delay 10 registered at reading MAX-5 of a
32-bit clock, so that the polls fall after the wrap of the counter. -/
theorem C6_counted_timer_fires_N_times_witness :
    (7 : Nat) ≠ 0 ∧ 1 ≤ (3 : Nat) ∧ (0 : Int) ≤ 10 ∧ (10 : Int) < (2 : Int) ^ 32 ∧
    ((new zeroMem 0).setTimer 10 7 ((3 : Nat) : Int) 4294967290).2 = 0 ∧
    ((3 : Nat) = 1 → (new zeroMem 0).setTimeout 10 7 4294967290 =
      (new zeroMem 0).setTimer 10 7 ((3 : Nat) : Int) 4294967290) ∧
    ∃ s', runs 32 quiet (pollTimes 32 4294967290 (10 : Int).toNat 0 3)
        ((new zeroMem 0).setTimer 10 7 ((3 : Nat) : Int) 4294967290).1 =
        some (s', List.replicate 3 [(0, 7)]) ∧
      s'.callbacks 0 = 0 ∧
      s'.getNumTimers =
        ((new zeroMem 0).setTimer 10 7 ((3 : Nat) : Int) 4294967290).1.getNumTimers - 1 ∧
      ∀ ts : List Nat, ∃ s'', runs 32 quiet ts s' = some (s'', List.replicate ts.length []) :=
  ⟨by decide, by decide, by decide, by decide,
    C6_counted_timer_fires_N_times zeroMem 0 32 4294967290 10 7 3 (by decide) (by decide)
      (by decide) (by decide)⟩

/-- C7 (refuted on the code): after a one-shot registration and a deleteTimer
on the free slot 5, numTimers is 0; the poll at the period boundary invokes the
callback and counts the run, but its deleteTimer(0) returns at the numTimers
test, so when run returns slot 0 is still occupied with run count equal to its
(positive) run limit. -/
theorem C7_exhausted_timer_not_freed :
    ((execCalls zombieCalls (new zeroMem 0)).bind (run 32 quiet 100)).map
        (fun r => (r.2, r.1.callbacks 0, r.1.numRuns 0, r.1.maxNumRuns 0, r.1.numTimers)) =
      some ([(0, 7)], 7, 1, 1, 0) ∧
    ¬ ∀ s, Reachable 32 Call.InRange s →
        ∀ i, i < MAX_TIMERS → s.callbacks i ≠ 0 → 0 < s.maxNumRuns i →
          s.numRuns i ≠ s.maxNumRuns i := by
  refine ⟨by decide, ?_⟩
  intro hall
  exact hall zombieState zombieState_reachable 0 (by decide) (by decide) (by decide)
    (by decide)

/-- C8 as stated fails: a forever timer in slot 0 is occupied, enabled and at
its period boundary, and its callback cancels the timer (deleteTimer(0)); the
poll invokes the callback, and after the poll slot 0 is free. -/
theorem C8_forever_timer_cancelled_by_callback :
    ((new zeroMem 0).setInterval 100 7 0).1.callbacks 0 = 7 ∧
    ((new zeroMem 0).setInterval 100 7 0).1.enabled 0 = true ∧
    ((new zeroMem 0).setInterval 100 7 0).1.maxNumRuns 0 = RUN_FOREVER ∧
    toULong 32 (((new zeroMem 0).setInterval 100 7 0).1.delays 0) ≤
      usub 32 100 (((new zeroMem 0).setInterval 100 7 0).1.prev_millis 0) ∧
    (run 32 selfCancel 100 ((new zeroMem 0).setInterval 100 7 0).1).map
      (fun r => (r.2, r.1.callbacks 0)) = some ([(0, 7)], 0) := by
  decide

/-- C8 (amended): for an occupied, enabled slot i with run limit RUN_FOREVER
and a poll at which the elapsed time is at least the period, the first loop of
run marks the slot to be run only, and the second loop, for that slot, only
invokes the callback.  Whatever the callbacks do short of deleteTimer(i),
disable(i) and toggle(i), a poll that returns has invoked the callback of slot
i exactly once and leaves the slot occupied with the same callback, delay, run
limit, enabled flag and run count, and the poll does return when the callbacks
make no deleteTimer call and no call with an index out of range; so over any
number of successive polls, each at a period boundary of the slot and each with
such callbacks, every poll invokes it and the slot is never removed.  With
callbacks that make no call at all, the poll returns with prev_millis[i] at the
clock reading as well, and so do the polls at any successive period
boundaries. -/
theorem C8_forever_timer_fires_and_stays (w t : Nat) (s : SimpleTimer) (i : Nat)
    (hi : i < MAX_TIMERS) (hocc : s.callbacks i ≠ 0) (hen : s.enabled i = true)
    (hforever : s.maxNumRuns i = RUN_FOREVER)
    (hdue : toULong w (s.delays i) ≤ usub w t (s.prev_millis i)) :
    (evalPass w t s).toBeCalled i = DEFCALL_RUNONLY ∧
    (∀ (cbs : Callbacks) (st : SimpleTimer × List Invocation),
      st.1.toBeCalled i = DEFCALL_RUNONLY → dispatchSlot cbs st i = invoke cbs i st) ∧
    (∃ s' log, run w quiet t s = some (s', log) ∧
      log.filter (fun e => decide (e.1 = i)) = [(i, s.callbacks i)] ∧
      s'.callbacks i = s.callbacks i ∧ s'.delays i = s.delays i ∧
      s'.maxNumRuns i = s.maxNumRuns i ∧ s'.enabled i = s.enabled i ∧
      s'.numRuns i = s.numRuns i ∧ s'.prev_millis i = t) ∧
    (∀ ts : List Nat, atBoundaries w (toULong w (s.delays i)) (s.prev_millis i) ts →
      ∃ s' logs, runs w quiet ts s = some (s', logs) ∧ logs.length = ts.length ∧
        (∀ l, l ∈ logs → l.filter (fun e => decide (e.1 = i)) = [(i, s.callbacks i)]) ∧
        s'.callbacks i = s.callbacks i ∧ s'.delays i = s.delays i ∧
        s'.maxNumRuns i = s.maxNumRuns i ∧ s'.enabled i = s.enabled i ∧
        s'.numRuns i = s.numRuns i) ∧
    (∀ cbs : Callbacks, SparesSlot i cbs →
      (NoCancel cbs → ∃ s' log, run w cbs t s = some (s', log)) ∧
      ∀ (s' : SimpleTimer) (log : List Invocation), run w cbs t s = some (s', log) →
        log.filter (fun e => decide (e.1 = i)) = [(i, s.callbacks i)] ∧
        s'.callbacks i = s.callbacks i ∧ s'.delays i = s.delays i ∧
        s'.maxNumRuns i = s.maxNumRuns i ∧ s'.enabled i = s.enabled i ∧
        s'.numRuns i = s.numRuns i) ∧
    (∀ ps : List (Nat × Callbacks), (∀ p, p ∈ ps → SparesSlot i p.2) →
      dueAtEach w i ps s →
      ((∀ p, p ∈ ps → NoCancel p.2) → ∃ s' logs, polls w ps s = some (s', logs)) ∧
      ∀ (s' : SimpleTimer) (logs : List (List Invocation)), polls w ps s = some (s', logs) →
        logs.length = ps.length ∧
        (∀ l, l ∈ logs → l.filter (fun e => decide (e.1 = i)) = [(i, s.callbacks i)]) ∧
        s'.callbacks i = s.callbacks i ∧ s'.delays i = s.delays i ∧
        s'.maxNumRuns i = s.maxNumRuns i ∧ s'.enabled i = s.enabled i ∧
        s'.numRuns i = s.numRuns i) := by
  have hf : Forever i (s.callbacks i) (s.delays i) (s.numRuns i) s :=
    ⟨rfl, rfl, hforever, hen, rfl⟩
  refine ⟨?_, ?_, forever_poll w t s i hi hocc hen hforever hdue, ?_, ?_, ?_⟩
  · rw [evalPass_toBeCalled w t s i hi]
    exact (markAfter_forever w t s i hocc hen hforever hdue).1
  · intro cbs st hst
    unfold dispatchSlot
    rw [hst]
    simp [DEFCALL_RUNONLY, DEFCALL_DONTRUN]
  · intro ts hts
    exact forever_polls w i hi ts s hocc hen hforever hts
  · intro cbs hcbs
    refine ⟨fun hnc => run_noCancel w cbs hnc t s, ?_⟩
    intro s' log hrun
    obtain ⟨⟨h1, h2, h3, h4, h5⟩, hlog⟩ :=
      forever_run w i _ _ _ hi hocc cbs hcbs t s s' log hf hdue hrun
    exact ⟨hlog, h1, h2, h3.trans hforever.symm, h4.trans hen.symm, h5⟩
  · intro ps hps hdues
    refine ⟨fun hnc => polls_noCancel w ps hnc s, ?_⟩
    intro s' logs hp
    obtain ⟨⟨h1, h2, h3, h4, h5⟩, hlen, hlogs⟩ :=
      forever_polls_spared w i _ _ _ hi hocc ps s s' logs hf hps hdues hp
    exact ⟨hlen, hlogs, h1, h2, h3.trans hforever.symm, h4.trans hen.symm, h5⟩

/-- Witness for C8: a forever timer with period 100 in slot 0, polled at 100
with a callback that registers another timer and enables and restarts slot 0,
then again at 200, and polled at ten successive period boundaries with
callbacks that make no call. -/
theorem C8_forever_timer_fires_and_stays_witness :
    (0 < MAX_TIMERS ∧ ((new zeroMem 0).setInterval 100 7 0).1.callbacks 0 ≠ 0 ∧
      ((new zeroMem 0).setInterval 100 7 0).1.enabled 0 = true ∧
      ((new zeroMem 0).setInterval 100 7 0).1.maxNumRuns 0 = RUN_FOREVER ∧
      toULong 32 (((new zeroMem 0).setInterval 100 7 0).1.delays 0) ≤
        usub 32 100 (((new zeroMem 0).setInterval 100 7 0).1.prev_millis 0) ∧
      atBoundaries 32 (toULong 32 (((new zeroMem 0).setInterval 100 7 0).1.delays 0))
        (((new zeroMem 0).setInterval 100 7 0).1.prev_millis 0) tenBoundaries ∧
      SparesSlot 0 (busyAt 100) ∧ NoCancel (busyAt 100) ∧
      dueAtEach 32 0 [(100, busyAt 100), (200, busyAt 200)]
        ((new zeroMem 0).setInterval 100 7 0).1) ∧
    (∃ s' logs, runs 32 quiet tenBoundaries ((new zeroMem 0).setInterval 100 7 0).1 =
        some (s', logs) ∧ logs.length = tenBoundaries.length ∧
      (∀ l, l ∈ logs → l.filter (fun e => decide (e.1 = 0)) =
        [(0, ((new zeroMem 0).setInterval 100 7 0).1.callbacks 0)]) ∧
      s'.callbacks 0 = ((new zeroMem 0).setInterval 100 7 0).1.callbacks 0 ∧
      s'.delays 0 = ((new zeroMem 0).setInterval 100 7 0).1.delays 0 ∧
      s'.maxNumRuns 0 = ((new zeroMem 0).setInterval 100 7 0).1.maxNumRuns 0 ∧
      s'.enabled 0 = ((new zeroMem 0).setInterval 100 7 0).1.enabled 0 ∧
      s'.numRuns 0 = ((new zeroMem 0).setInterval 100 7 0).1.numRuns 0) ∧
    (∃ s' log, run 32 (busyAt 100) 100 ((new zeroMem 0).setInterval 100 7 0).1 =
        some (s', log) ∧
      log.filter (fun e => decide (e.1 = 0)) =
        [(0, ((new zeroMem 0).setInterval 100 7 0).1.callbacks 0)] ∧
      s'.callbacks 0 = ((new zeroMem 0).setInterval 100 7 0).1.callbacks 0 ∧
      s'.delays 0 = ((new zeroMem 0).setInterval 100 7 0).1.delays 0 ∧
      s'.maxNumRuns 0 = ((new zeroMem 0).setInterval 100 7 0).1.maxNumRuns 0 ∧
      s'.enabled 0 = ((new zeroMem 0).setInterval 100 7 0).1.enabled 0 ∧
      s'.numRuns 0 = ((new zeroMem 0).setInterval 100 7 0).1.numRuns 0) ∧
    (∃ s' logs, polls 32 [(100, busyAt 100), (200, busyAt 200)]
        ((new zeroMem 0).setInterval 100 7 0).1 = some (s', logs) ∧
      logs.length = 2 ∧
      (∀ l, l ∈ logs → l.filter (fun e => decide (e.1 = 0)) =
        [(0, ((new zeroMem 0).setInterval 100 7 0).1.callbacks 0)]) ∧
      s'.callbacks 0 = ((new zeroMem 0).setInterval 100 7 0).1.callbacks 0 ∧
      s'.delays 0 = ((new zeroMem 0).setInterval 100 7 0).1.delays 0 ∧
      s'.maxNumRuns 0 = ((new zeroMem 0).setInterval 100 7 0).1.maxNumRuns 0 ∧
      s'.enabled 0 = ((new zeroMem 0).setInterval 100 7 0).1.enabled 0 ∧
      s'.numRuns 0 = ((new zeroMem 0).setInterval 100 7 0).1.numRuns 0) := by
  have hdues : dueAtEach 32 0 [(100, busyAt 100), (200, busyAt 200)]
      ((new zeroMem 0).setInterval 100 7 0).1 := by decide
  have hsp : ∀ p, p ∈ [(100, busyAt 100), (200, busyAt 200)] → SparesSlot 0 p.2 := by
    intro p hp
    simp only [List.mem_cons, List.mem_singleton, List.not_mem_nil, or_false] at hp
    rcases hp with rfl | rfl
    · exact busyAt_spares 100
    · exact busyAt_spares 200
  have hnc : ∀ p, p ∈ [(100, busyAt 100), (200, busyAt 200)] → NoCancel p.2 := by
    intro p hp
    simp only [List.mem_cons, List.mem_singleton, List.not_mem_nil, or_false] at hp
    rcases hp with rfl | rfl
    · exact busyAt_noCancel 100
    · exact busyAt_noCancel 200
  have h := C8_forever_timer_fires_and_stays 32 100 ((new zeroMem 0).setInterval 100 7 0).1 0
    (by decide) (by decide) (by decide) (by decide) (by decide)
  obtain ⟨_, _, _, hquiet, hone, hmany⟩ := h
  refine ⟨⟨by decide, by decide, by decide, by decide, by decide, by decide,
    busyAt_spares 100, busyAt_noCancel 100, hdues⟩, hquiet tenBoundaries (by decide), ?_, ?_⟩
  · obtain ⟨s', log, hrun⟩ := (hone (busyAt 100) (busyAt_spares 100)).1 (busyAt_noCancel 100)
    exact ⟨s', log, hrun, (hone (busyAt 100) (busyAt_spares 100)).2 s' log hrun⟩
  · obtain ⟨s', logs, hp⟩ := (hmany _ hsp hdues).1 hnc
    exact ⟨s', logs, hp, (hmany _ hsp hdues).2 s' logs hp⟩

/-- C9 as stated fails: an enabled timer with period 10 and run limit -1,
baseline MAX-5, clock reading 4: the elapsed time is 10, which is not below
the period, and yet the timer is not marked and does not fire. -/
theorem C9_negative_limit_not_marked :
    ((new zeroMem 0).setTimer 10 7 (-1) 4294967290).1.callbacks 0 = 7 ∧
    ((new zeroMem 0).setTimer 10 7 (-1) 4294967290).1.enabled 0 = true ∧
    ((new zeroMem 0).setTimer 10 7 (-1) 4294967290).1.delays 0 = 10 ∧
    ((new zeroMem 0).setTimer 10 7 (-1) 4294967290).1.prev_millis 0 = 4294967290 ∧
    (4294967290 + 10) % 2 ^ 32 = 4 ∧
    usub 32 4 (((new zeroMem 0).setTimer 10 7 (-1) 4294967290).1.prev_millis 0) = 10 ∧
    (evalPass 32 4 ((new zeroMem 0).setTimer 10 7 (-1) 4294967290).1).toBeCalled 0 =
      DEFCALL_DONTRUN ∧
    (run 32 quiet 4 ((new zeroMem 0).setTimer 10 7 (-1) 4294967290).1).map (fun r => r.2) =
      some [] := by
  decide

/-- C9 (amended): on a clock of width w, the subtraction that run performs
gives the true elapsed time e (below 2^w) also across the wrap of the counter;
and an enabled timer with period p (as unsigned value below 2^w) whose run
limit is RUN_FOREVER or whose run count is below its run limit is marked by
that poll, and invoked when the callbacks make no call on the object, exactly
when e is at least p. -/
theorem C9_elapsed_across_wraparound (w b e : Nat) (he : e < 2 ^ w) :
    usub w ((b + e) % 2 ^ w) b = e ∧
    ∀ (s : SimpleTimer) (i : Nat) (p : Int), i < MAX_TIMERS → s.callbacks i ≠ 0 →
      s.enabled i = true → s.prev_millis i = b → s.delays i = p → 0 ≤ p → p < (2 : Int) ^ w →
      (s.maxNumRuns i = RUN_FOREVER ∨ s.numRuns i < s.maxNumRuns i) →
      ((evalPass w ((b + e) % 2 ^ w) s).toBeCalled i ≠ DEFCALL_DONTRUN ↔ p ≤ (e : Int)) ∧
      ∃ s' log, run w quiet ((b + e) % 2 ^ w) s = some (s', log) ∧
        ((i, s.callbacks i) ∈ log ↔ p ≤ (e : Int)) := by
  have hsub := usub_add w b e he
  refine ⟨hsub, ?_⟩
  intro s i p hi hocc hen hprev hdel hp0 hp hlive
  have hpe : p.toNat ≤ e ↔ p ≤ (e : Int) := by omega
  have hdue : isDue w ((b + e) % 2 ^ w) s i = decide (p ≤ (e : Int)) := by
    simp only [isDue, hdel, hprev, hsub, toULong_of_nonneg w p hp0 hp, hpe]
    simp [hocc]
  have hmark : markAfter w ((b + e) % 2 ^ w) s i ≠ DEFCALL_DONTRUN ↔ p ≤ (e : Int) := by
    unfold markAfter
    rw [hdue, hen]
    by_cases h : p ≤ (e : Int)
    · simp only [h, decide_True, Bool.and_self, if_true, iff_true]
      rcases hlive with h0 | hlt
      · rw [if_pos h0]; decide
      · by_cases h0 : s.maxNumRuns i = RUN_FOREVER
        · rw [if_pos h0]; decide
        · rw [if_neg h0, if_pos hlt]
          split <;> decide
    · simp [h]
  have hfire : firing w ((b + e) % 2 ^ w) s i = some (i, s.callbacks i) ↔ p ≤ (e : Int) := by
    rw [← hmark]
    unfold firing
    rcases markAfter_cases w ((b + e) % 2 ^ w) s i with h0 | ⟨h12, _⟩
    · rw [h0]
      simp [DEFCALL_DONTRUN, DEFCALL_RUNONLY, DEFCALL_RUNANDDEL]
    · rw [if_pos h12]
      simp only [true_iff]
      rcases h12 with h | h <;> rw [h] <;> decide
  refine ⟨?_, ?_⟩
  · rw [evalPass_toBeCalled w _ s i hi]
    exact hmark
  · obtain ⟨s', hrun, _⟩ := run_quiet_spec w ((b + e) % 2 ^ w) s
    refine ⟨s', _, hrun, ?_⟩
    rw [mem_quiet_log, ← hfire]
    simp [hi]

/-- Witness for C9: baseline MAX-5 on a 32-bit clock, period 10, clock reading 4:
the elapsed time is 10 and the one-shot timer is marked and fires. -/
theorem C9_elapsed_across_wraparound_witness :
    ((10 : Nat) < 2 ^ 32 ∧ 0 < MAX_TIMERS ∧
      ((new zeroMem 0).setTimer 10 7 1 4294967290).1.callbacks 0 ≠ 0 ∧
      ((new zeroMem 0).setTimer 10 7 1 4294967290).1.enabled 0 = true ∧
      ((new zeroMem 0).setTimer 10 7 1 4294967290).1.prev_millis 0 = 4294967290 ∧
      ((new zeroMem 0).setTimer 10 7 1 4294967290).1.delays 0 = 10 ∧
      (0 : Int) ≤ 10 ∧ (10 : Int) < (2 : Int) ^ 32 ∧
      (((new zeroMem 0).setTimer 10 7 1 4294967290).1.maxNumRuns 0 = RUN_FOREVER ∨
        ((new zeroMem 0).setTimer 10 7 1 4294967290).1.numRuns 0 <
          ((new zeroMem 0).setTimer 10 7 1 4294967290).1.maxNumRuns 0)) ∧
    usub 32 ((4294967290 + 10) % 2 ^ 32) 4294967290 = 10 ∧
    ((evalPass 32 ((4294967290 + 10) % 2 ^ 32)
        ((new zeroMem 0).setTimer 10 7 1 4294967290).1).toBeCalled 0 ≠ DEFCALL_DONTRUN ↔
      (10 : Int) ≤ ((10 : Nat) : Int)) ∧
    ∃ s' log, run 32 quiet ((4294967290 + 10) % 2 ^ 32)
        ((new zeroMem 0).setTimer 10 7 1 4294967290).1 = some (s', log) ∧
      ((0, ((new zeroMem 0).setTimer 10 7 1 4294967290).1.callbacks 0) ∈ log ↔
        (10 : Int) ≤ ((10 : Nat) : Int)) :=
  ⟨by decide,
    (C9_elapsed_across_wraparound 32 4294967290 10 (by decide)).1,
    (C9_elapsed_across_wraparound 32 4294967290 10 (by decide)).2
      ((new zeroMem 0).setTimer 10 7 1 4294967290).1 0 10
      (by decide) (by decide) (by decide) (by decide) (by decide) (by decide) (by decide)
      (by decide)⟩

/-- C10 as stated fails in its last clause: slots 0, 1 and 2 hold timers with
period 100 that are all due at the poll at reading 100; the callback of slot 0
restarts the timer of slot 2, the clock reading 105, which sets prev_millis[2]
to 105 and leaves the mark toBeCalled[2] made by the first loop; the same poll
then invokes the callback of slot 2, although not one millisecond of its period
has passed since the restart. -/
theorem C10_restarted_timer_fires_in_same_poll :
    (threeTimers.callbacks 2, threeTimers.delays 2, threeTimers.enabled 2) = (9, 100, true) ∧
    (evalPass 32 100 threeTimers).toBeCalled 2 = DEFCALL_RUNONLY ∧
    (dispatchSlot restartLast (evalPass 32 100 threeTimers, []) 0).map
        (fun st => (st.2, st.1.prev_millis 2, st.1.toBeCalled 2)) =
      some ([(0, 7)], 105, DEFCALL_RUNONLY) ∧
    (run 32 restartLast 100 threeTimers).map
        (fun r => (r.2, r.1.prev_millis 2, r.1.delays 2)) =
      some ([(0, 7), (1, 8), (2, 9)], 105, 100) := by
  decide

/-- C10 (amended): for an occupied slot i whose elapsed time at the poll is
below its period, the first loop of run marks the slot DEFCALL_DONTRUN and
leaves its prev_millis, run count and enabled flag as they are; whatever the
callbacks do, the poll makes no invocation for slot i; and when the callbacks
make no call on the object, run returns with prev_millis, run count and enabled
flag of slot i unchanged and the slot still occupied.  Hence a poll that begins
less than the period after the registration of the timer in slot i, after a
restartTimer(i), or after a poll at which the period of slot i had elapsed
makes no invocation for slot i, whatever the callbacks do (restartTimer itself
leaves the marks of a poll in progress as they are); prev_millis[i] is written
by no call other than restartTimer(i) and a registration that takes the free
slot i; and over successive polls with callbacks that make no call, the first
poll that invokes slot i comes no earlier than the period after
prev_millis[i]. -/
theorem C10_not_due_not_fired (w t : Nat) (s : SimpleTimer) (i : Nat) (hi : i < MAX_TIMERS)
    (hocc : s.callbacks i ≠ 0)
    (hearly : usub w t (s.prev_millis i) < toULong w (s.delays i)) :
    ((evalPass w t s).toBeCalled i = DEFCALL_DONTRUN ∧
      (evalPass w t s).prev_millis i = s.prev_millis i ∧
      (evalPass w t s).numRuns i = s.numRuns i ∧
      (evalPass w t s).enabled i = s.enabled i) ∧
    (∀ (cbs : Callbacks) (s' : SimpleTimer) (log : List Invocation),
      run w cbs t s = some (s', log) → ∀ m, (i, m) ∉ log) ∧
    (∃ s' log, run w quiet t s = some (s', log) ∧ (∀ m, (i, m) ∉ log) ∧
      s'.toBeCalled i = DEFCALL_DONTRUN ∧ s'.prev_millis i = s.prev_millis i ∧
      s'.numRuns i = s.numRuns i ∧ s'.enabled i = s.enabled i ∧
      s'.callbacks i = s.callbacks i ∧ s'.callbacks i ≠ 0) ∧
    (∀ (s0 : SimpleTimer) (d : Int) (cb : Nat) (n : Int) (t0 : Nat),
      (s0.setTimer d cb n t0).2 = (i : Int) →
      ∀ (t1 : Nat) (cbs : Callbacks) (s' : SimpleTimer) (log : List Invocation),
        usub w t1 t0 < toULong w d →
        run w cbs t1 (s0.setTimer d cb n t0).1 = some (s', log) → ∀ m, (i, m) ∉ log) ∧
    (∀ (s0 sr : SimpleTimer) (t0 : Nat), s0.restartTimer (i : Int) t0 = some sr →
      sr.toBeCalled = s0.toBeCalled ∧
      ∀ (t1 : Nat) (cbs : Callbacks) (s' : SimpleTimer) (log : List Invocation),
        usub w t1 t0 < toULong w (s0.delays i) →
        run w cbs t1 sr = some (s', log) → ∀ m, (i, m) ∉ log) ∧
    (∀ (s0 : SimpleTimer) (t0 : Nat), s0.callbacks i ≠ 0 →
      toULong w (s0.delays i) ≤ usub w t0 (s0.prev_millis i) →
      (evalPass w t0 s0).prev_millis i = t0 ∧
      ∀ (sb : SimpleTimer) (logb : List Invocation), run w quiet t0 s0 = some (sb, logb) →
        ∀ (t1 : Nat) (cbs : Callbacks) (s' : SimpleTimer) (log : List Invocation),
          usub w t1 t0 < toULong w (s0.delays i) →
          run w cbs t1 sb = some (s', log) → ∀ m, (i, m) ∉ log) ∧
    (∀ (c : Call) (s1 s2 : SimpleTimer), c.exec s1 = some s2 →
      s2.prev_millis i = s1.prev_millis i ∨
      c = Call.restartTimer (i : Int) (s2.prev_millis i) ∨
      (s1.callbacks i = 0 ∧ Call.Registers c (s2.delays i) (s2.prev_millis i))) ∧
    (∀ (us : List Nat) (s' : SimpleTimer) (logs : List (List Invocation)),
      runs w quiet us s = some (s', logs) →
      ∀ u, firstFiring i us logs = some u →
        toULong w (s.delays i) ≤ usub w u (s.prev_millis i)) := by
  obtain ⟨hm, hr, hp⟩ := markAfter_early w t s i hearly
  have heval : (evalPass w t s).toBeCalled i = DEFCALL_DONTRUN := by
    rw [evalPass_toBeCalled w t s i hi]; exact hm
  have hnolog : ∀ (cbs : Callbacks) (s' : SimpleTimer) (log : List Invocation),
      run w cbs t s = some (s', log) → ∀ m, (i, m) ∉ log := by
    intro cbs s' log hrun m hmem
    exact run_log_marked w cbs t s s' log hrun i m hmem heval
  refine ⟨⟨heval, ?_, ?_, ?_⟩, hnolog, ?_, ?_, ?_, ?_, ?_, ?_⟩
  · rw [evalPass_prev_millis w t s i hi]; exact hp
  · rw [evalPass_numRuns w t s i hi]; exact hr
  · rw [evalPass_enabled]
  · obtain ⟨s', hrun, _, hpt, hkeep, _, _, _⟩ := run_quiet_spec w t s
    have hne : markAfter w t s i ≠ DEFCALL_RUNANDDEL := by rw [hm]; decide
    have hk := hkeep i hi hne
    exact ⟨s', _, hrun, hnolog quiet s' _ hrun, (hpt i hi).2.trans hm, (hpt i hi).1.trans hp,
      hk.2.2.2.trans hr, hk.2.1, hk.1, by rw [hk.1]; exact hocc⟩
  · intro s0 d cb n t0 hidx t1 cbs s' log hlt hrun
    rcases setTimer_cases s0 d cb n t0 with ⟨e, _⟩ | ⟨j, _, _, _, _, e⟩
    · rw [e] at hidx
      simp only at hidx
      omega
    · rw [e] at hidx hrun
      simp only at hidx
      have hji : j = i := by exact_mod_cast hidx
      subst hji
      exact run_early_no_log w j hi _ t1 (by simpa using hlt) cbs s' log hrun
  · intro s0 sr t0 hres
    rw [restartTimer_in_range s0 i t0 hi] at hres
    cases hres
    refine ⟨rfl, ?_⟩
    intro t1 cbs s' log hlt hrun
    exact run_early_no_log w i hi _ t1 (by simpa using hlt) cbs s' log hrun
  · intro s0 t0 hocc0 hdue0
    have hp0 : prevAfter w t0 s0 i = t0 := by simp [prevAfter, isDue, hocc0, hdue0]
    refine ⟨by rw [evalPass_prev_millis w t0 s0 i hi]; exact hp0, ?_⟩
    intro sb logb hrunb t1 cbs s' log hlt hrun m hmem
    obtain ⟨s1, hq, _, hpt, _⟩ := run_quiet_spec w t0 s0
    generalize (List.range MAX_TIMERS).filterMap (firing w t0 s0) = lq at hq
    have hsb : s1 = sb := by
      generalize run w quiet t0 s0 = r at hq hrunb
      rw [hq] at hrunb
      simp only [Option.some.injEq, Prod.mk.injEq] at hrunb
      exact hrunb.1
    subst hsb
    have hdue1 := run_log_due w cbs t1 s1 s' log hrun i m hi hmem
    rcases run_quiet_same_or_cleared w t0 s0 s1 logb hrunb i with ⟨_, hd, _⟩ | hc
    · have h2 := hdue1.2.1
      rw [(hpt i hi).1, hp0, hd] at h2
      omega
    · exact hdue1.1 hc
  · intro c s1 s2 he
    exact exec_prev_millis i c s1 s2 he
  · intro us s' logs hruns u hu
    exact first_firing_after_baseline w i hi (s.prev_millis i) (s.delays i) us s s' logs
      (Or.inr ⟨rfl, rfl⟩) hruns u hu

/-- Witness for C10: a timer with period 1000 polled 999 after its
registration. -/
theorem C10_not_due_not_fired_witness :
    (0 < MAX_TIMERS ∧ timeoutTimer.callbacks 0 ≠ 0 ∧
      usub 32 999 (timeoutTimer.prev_millis 0) <
        toULong 32 (timeoutTimer.delays 0)) ∧
    ((evalPass 32 999 timeoutTimer).toBeCalled 0 = DEFCALL_DONTRUN ∧
      (evalPass 32 999 timeoutTimer).prev_millis 0 = timeoutTimer.prev_millis 0 ∧
      (evalPass 32 999 timeoutTimer).numRuns 0 = timeoutTimer.numRuns 0 ∧
      (evalPass 32 999 timeoutTimer).enabled 0 = timeoutTimer.enabled 0) ∧
    (∀ (cbs : Callbacks) (s' : SimpleTimer) (log : List Invocation),
      run 32 cbs 999 timeoutTimer = some (s', log) → ∀ m, (0, m) ∉ log) ∧
    (∃ s' log, run 32 quiet 999 timeoutTimer = some (s', log) ∧ (∀ m, (0, m) ∉ log) ∧
      s'.toBeCalled 0 = DEFCALL_DONTRUN ∧ s'.prev_millis 0 = timeoutTimer.prev_millis 0 ∧
      s'.numRuns 0 = timeoutTimer.numRuns 0 ∧ s'.enabled 0 = timeoutTimer.enabled 0 ∧
      s'.callbacks 0 = timeoutTimer.callbacks 0 ∧ s'.callbacks 0 ≠ 0) ∧
    (∀ (s0 : SimpleTimer) (d : Int) (cb : Nat) (n : Int) (t0 : Nat),
      (s0.setTimer d cb n t0).2 = ((0 : Nat) : Int) →
      ∀ (t1 : Nat) (cbs : Callbacks) (s' : SimpleTimer) (log : List Invocation),
        usub 32 t1 t0 < toULong 32 d →
        run 32 cbs t1 (s0.setTimer d cb n t0).1 = some (s', log) → ∀ m, (0, m) ∉ log) ∧
    (∀ (s0 sr : SimpleTimer) (t0 : Nat), s0.restartTimer ((0 : Nat) : Int) t0 = some sr →
      sr.toBeCalled = s0.toBeCalled ∧
      ∀ (t1 : Nat) (cbs : Callbacks) (s' : SimpleTimer) (log : List Invocation),
        usub 32 t1 t0 < toULong 32 (s0.delays 0) →
        run 32 cbs t1 sr = some (s', log) → ∀ m, (0, m) ∉ log) ∧
    (∀ (s0 : SimpleTimer) (t0 : Nat), s0.callbacks 0 ≠ 0 →
      toULong 32 (s0.delays 0) ≤ usub 32 t0 (s0.prev_millis 0) →
      (evalPass 32 t0 s0).prev_millis 0 = t0 ∧
      ∀ (sb : SimpleTimer) (logb : List Invocation), run 32 quiet t0 s0 = some (sb, logb) →
        ∀ (t1 : Nat) (cbs : Callbacks) (s' : SimpleTimer) (log : List Invocation),
          usub 32 t1 t0 < toULong 32 (s0.delays 0) →
          run 32 cbs t1 sb = some (s', log) → ∀ m, (0, m) ∉ log) ∧
    (∀ (c : Call) (s1 s2 : SimpleTimer), c.exec s1 = some s2 →
      s2.prev_millis 0 = s1.prev_millis 0 ∨
      c = Call.restartTimer ((0 : Nat) : Int) (s2.prev_millis 0) ∨
      (s1.callbacks 0 = 0 ∧ Call.Registers c (s2.delays 0) (s2.prev_millis 0))) ∧
    (∀ (us : List Nat) (s' : SimpleTimer) (logs : List (List Invocation)),
      runs 32 quiet us timeoutTimer = some (s', logs) →
      ∀ u, firstFiring 0 us logs = some u →
        toULong 32 (timeoutTimer.delays 0) ≤ usub 32 u (timeoutTimer.prev_millis 0)) :=
  ⟨by decide,
    C10_not_due_not_fired 32 999 timeoutTimer 0 (by decide)
      (by decide) (by decide)⟩

/-- C12: in a state with numTimers above 0, deleteTimer(k) on an occupied slot
k in range unsets the callback of slot k, sets its enabled flag to false, its
delay to 0 and its run count to 0, takes one off numTimers and off the number
of occupied slots and changes no field of any other slot; slot k is then free, so the next registration succeeds as
soon as numTimers is below MAX_TIMERS, with an index not above k, and with k
itself when every lower slot is occupied. -/
theorem C12_deleteTimer_frees_slot (s : SimpleTimer) (k : Nat) (hk : k < MAX_TIMERS)
    (hn : 0 < s.numTimers) (hocc : s.callbacks k ≠ 0) :
    ∃ s', s.deleteTimer (k : Int) = some s' ∧
      s'.callbacks k = 0 ∧ s'.enabled k = false ∧ s'.delays k = 0 ∧ s'.numRuns k = 0 ∧
      s'.numTimers = s.numTimers - 1 ∧ occupiedCount s' + 1 = occupiedCount s ∧
      (∀ j, j ≠ k →
        s'.callbacks j = s.callbacks j ∧ s'.enabled j = s.enabled j ∧
        s'.delays j = s.delays j ∧ s'.numRuns j = s.numRuns j ∧
        s'.maxNumRuns j = s.maxNumRuns j ∧ s'.prev_millis j = s.prev_millis j ∧
        s'.toBeCalled j = s.toBeCalled j) ∧
      (s'.numTimers < (MAX_TIMERS : Int) → ∀ (d : Int) (m : Nat) (n : Int) (t : Nat),
        ∃ i : Nat, (s'.setTimer d m n t).2 = (i : Int) ∧ i ≤ k ∧
          ((∀ j, j < k → s.callbacks j ≠ 0) → i = k)) := by
  have hne : s.numTimers ≠ 0 := by omega
  refine ⟨_, deleteTimer_ok s k hk hne, by simp, by simp, by simp, by simp, rfl, ?_, ?_, ?_⟩
  · exact ((occupiedCount_clear s
      { s with
        callbacks := Function.update s.callbacks k 0
        enabled := Function.update s.enabled k false
        delays := Function.update s.delays k 0
        numRuns := Function.update s.numRuns k 0
        numTimers := s.numTimers - 1 } k rfl).2.2 hk hocc).symm
  · intro j hj
    simp [Function.update_noteq hj]
  · intro hlt d m n t
    rcases setTimer_cases
      { s with
        callbacks := Function.update s.callbacks k 0
        enabled := Function.update s.enabled k false
        delays := Function.update s.delays k 0
        numRuns := Function.update s.numRuns k 0
        numTimers := s.numTimers - 1 } d m n t with ⟨_, hfull | hall⟩ | ⟨i, hi, _, hf, hl, he⟩
    · exact absurd hfull (not_le.mpr hlt)
    · have := hall k hk
      simp at this
    · refine ⟨i, by rw [he], ?_, ?_⟩
      · by_contra hgt
        have := hl k (by omega)
        simp at this
      · intro hlow
        by_contra hik
        have hlt' : i < k := by
          rcases Nat.lt_trichotomy i k with h1 | h1 | h1
          · exact h1
          · exact absurd h1 hik
          · have := hl k h1
            simp at this
        have hne' : i ≠ k := by omega
        simp only [Function.update_noteq hne'] at hf
        exact hlow i hlt' hf

/-- Witness for C12: the only timer of a table is deleted. -/
theorem C12_deleteTimer_frees_slot_witness :
    (0 < MAX_TIMERS ∧ 0 < ((new zeroMem 0).setTimeout 1000 7 0).1.numTimers ∧
      ((new zeroMem 0).setTimeout 1000 7 0).1.callbacks 0 ≠ 0) ∧
    ∃ s', ((new zeroMem 0).setTimeout 1000 7 0).1.deleteTimer ((0 : Nat) : Int) = some s' ∧
      s'.callbacks 0 = 0 ∧ s'.enabled 0 = false ∧ s'.delays 0 = 0 ∧ s'.numRuns 0 = 0 ∧
      s'.numTimers = ((new zeroMem 0).setTimeout 1000 7 0).1.numTimers - 1 ∧
      occupiedCount s' + 1 = occupiedCount ((new zeroMem 0).setTimeout 1000 7 0).1 ∧
      (∀ j, j ≠ 0 →
        s'.callbacks j = ((new zeroMem 0).setTimeout 1000 7 0).1.callbacks j ∧
        s'.enabled j = ((new zeroMem 0).setTimeout 1000 7 0).1.enabled j ∧
        s'.delays j = ((new zeroMem 0).setTimeout 1000 7 0).1.delays j ∧
        s'.numRuns j = ((new zeroMem 0).setTimeout 1000 7 0).1.numRuns j ∧
        s'.maxNumRuns j = ((new zeroMem 0).setTimeout 1000 7 0).1.maxNumRuns j ∧
        s'.prev_millis j = ((new zeroMem 0).setTimeout 1000 7 0).1.prev_millis j ∧
        s'.toBeCalled j = ((new zeroMem 0).setTimeout 1000 7 0).1.toBeCalled j) ∧
      (s'.numTimers < (MAX_TIMERS : Int) → ∀ (d : Int) (m : Nat) (n : Int) (t : Nat),
        ∃ i : Nat, (s'.setTimer d m n t).2 = (i : Int) ∧ i ≤ 0 ∧
          ((∀ j, j < 0 → ((new zeroMem 0).setTimeout 1000 7 0).1.callbacks j ≠ 0) → i = 0)) :=
  ⟨by decide,
    C12_deleteTimer_frees_slot ((new zeroMem 0).setTimeout 1000 7 0).1 0 (by decide)
      (by decide) (by decide)⟩

/-- C13 (refuted on the code): with one timer registered (and slot 5 free but
enabled through enable(5)), deleteTimer(5) on the free slot takes numTimers from
1 to 0 and clears the enabled flag of slot 5, and deleteTimer(-1) indexes the
arrays at -1, which has no defined result; only an index at or above
MAX_TIMERS, or an empty table, makes deleteTimer a no-op. -/
theorem C13_deleteTimer_free_slot_not_noop :
    (execCalls freeSlotCalls (new zeroMem 0)).map
        (fun s => (s.callbacks 5, s.enabled 5, s.numTimers)) = some (0, true, 1) ∧
    ((execCalls freeSlotCalls (new zeroMem 0)).bind (fun s => s.deleteTimer 5)).map
        (fun s => (s.callbacks 5, s.enabled 5, s.numTimers, s.callbacks 0)) =
      some (0, false, 0, 7) ∧
    (execCalls freeSlotCalls (new zeroMem 0)).bind (fun s => s.deleteTimer (-1)) = none ∧
    (∀ (s : SimpleTimer) (k : Int), (MAX_TIMERS : Int) ≤ k → s.deleteTimer k = some s) ∧
    (∀ (s : SimpleTimer) (k : Int), s.numTimers = 0 → s.deleteTimer k = some s) := by
  refine ⟨by decide, by decide, rfl, ?_, ?_⟩
  · intro s k hk
    unfold deleteTimer
    rw [if_pos hk]
  · intro s k hn
    exact deleteTimer_empty s k hn

/-- C14 (refuted on the code): with the index -1, isEnabled, enable, disable,
toggle and restartTimer pass the only range test (numTimer >= MAX_TIMERS) and
index the arrays at -1, which has no defined result; with an index at or above
MAX_TIMERS, isEnabled returns false and the others leave the object as it
is. -/
theorem C14_negative_index_reaches_arrays :
    ((new zeroMem 0).isEnabled (-1) = none ∧ (new zeroMem 0).enable (-1) = none ∧
      (new zeroMem 0).disable (-1) = none ∧ (new zeroMem 0).toggle (-1) = none ∧
      (new zeroMem 0).restartTimer (-1) 5 = none) ∧
    ∀ (s : SimpleTimer) (k : Int) (t : Nat), (MAX_TIMERS : Int) ≤ k →
      s.isEnabled k = some false ∧ s.enable k = some s ∧ s.disable k = some s ∧
        s.toggle k = some s ∧ s.restartTimer k t = some s := by
  refine ⟨⟨rfl, rfl, rfl, rfl, rfl⟩, ?_⟩
  intro s k t hk
  simp [isEnabled, enable, disable, toggle, restartTimer, hk]

/-- C15 as stated fails in its last clause: slots 0 and 1 hold forever timers
with period 100 that are both due at the poll at reading 100; the callback of
slot 0 calls restartTimer(1), the clock reading 103, which sets prev_millis[1]
to 103 and leaves the mark toBeCalled[1] made by the first loop; the same poll
then invokes the callback of slot 1, right after the restart and not a period
after it. -/
theorem C15_restart_in_callback_fires_at_once :
    (twoTimers.callbacks 1, twoTimers.delays 1, twoTimers.enabled 1) = (8, 100, true) ∧
    (evalPass 32 100 twoTimers).toBeCalled 1 = DEFCALL_RUNONLY ∧
    ((evalPass 32 100 twoTimers).restartTimer 1 103).map
        (fun s => (s.prev_millis 1, s.toBeCalled 1)) = some (103, DEFCALL_RUNONLY) ∧
    (run 32 restartNext 100 twoTimers).map (fun r => (r.2, r.1.prev_millis 1, r.1.delays 1)) =
      some ([(0, 7), (1, 8)], 103, 100) := by
  decide

/-- C15 (amended): restartTimer(k) with k in range sets prev_millis[k] to the
clock reading and changes nothing else, the marks toBeCalled included; a poll
begun in the state it returns, and any poll begun while prev_millis[k] is
still that reading, makes an invocation for slot k, whatever the callbacks do,
only if the elapsed time since the restart is at least the delay of the slot;
prev_millis[k] is written by no call other than restartTimer(k) and a
registration that takes the free slot k; and over successive polls with
callbacks that make no call, the first poll that invokes slot k comes no earlier
than the delay after the restart. -/
theorem C15_restartTimer_resets_baseline (s : SimpleTimer) (k now : Nat)
    (hk : k < MAX_TIMERS) :
    s.restartTimer (k : Int) now =
      some { s with prev_millis := Function.update s.prev_millis k now } ∧
    ∃ s', s.restartTimer (k : Int) now = some s' ∧
      s'.prev_millis k = now ∧ s'.numRuns = s.numRuns ∧ s'.enabled = s.enabled ∧
      s'.delays = s.delays ∧ s'.maxNumRuns = s.maxNumRuns ∧ s'.callbacks = s.callbacks ∧
      s'.toBeCalled = s.toBeCalled ∧ s'.numTimers = s.numTimers ∧
      (∀ j, j ≠ k → s'.prev_millis j = s.prev_millis j) ∧
      (∀ (w t : Nat) (cbs : Callbacks) (s'' : SimpleTimer) (log : List Invocation) (m : Nat),
        run w cbs t s' = some (s'', log) → (k, m) ∈ log →
          toULong w (s.delays k) ≤ usub w t now) ∧
      (∀ (s0 : SimpleTimer), s0.prev_millis k = now →
        ∀ (w t : Nat) (cbs : Callbacks) (s'' : SimpleTimer) (log : List Invocation) (m : Nat),
          run w cbs t s0 = some (s'', log) → (k, m) ∈ log →
            toULong w (s0.delays k) ≤ usub w t now) ∧
      (∀ (c : Call) (s1 s2 : SimpleTimer), c.exec s1 = some s2 →
        s2.prev_millis k = s1.prev_millis k ∨
        c = Call.restartTimer (k : Int) (s2.prev_millis k) ∨
        (s1.callbacks k = 0 ∧ Call.Registers c (s2.delays k) (s2.prev_millis k))) ∧
      (∀ (w : Nat) (us : List Nat) (s'' : SimpleTimer) (logs : List (List Invocation)),
        runs w quiet us s' = some (s'', logs) →
        ∀ u, firstFiring k us logs = some u → toULong w (s.delays k) ≤ usub w u now) := by
  have hr := restartTimer_in_range s k now hk
  refine ⟨hr, _, hr, by simp, rfl, rfl, rfl, rfl, rfl, rfl, rfl, ?_, ?_, ?_, ?_, ?_⟩
  · intro j hj
    simp [Function.update_noteq hj]
  · intro w t cbs s'' log m hrun hmem
    have := (run_log_due w cbs t _ s'' log hrun k m hk hmem).2.1
    simpa using this
  · intro s0 hs0 w t cbs s'' log m hrun hmem
    have := (run_log_due w cbs t s0 s'' log hrun k m hk hmem).2.1
    rw [hs0] at this
    exact this
  · intro c s1 s2 he
    exact exec_prev_millis k c s1 s2 he
  · intro w us s'' logs hruns u hu
    exact first_firing_after_baseline w k hk now (s.delays k) us
      { s with prev_millis := Function.update s.prev_millis k now } s'' logs
      (Or.inr ⟨by simp, rfl⟩) hruns u hu

/-- Witness for C15: a one-shot timer with delay 1000, registered at reading 0
and restarted at reading 500. -/
theorem C15_restartTimer_resets_baseline_witness :
    0 < MAX_TIMERS ∧
    (timeoutTimer.restartTimer ((0 : Nat) : Int) 500 =
        some { timeoutTimer with
          prev_millis := Function.update timeoutTimer.prev_millis 0 500 } ∧
      ∃ s', timeoutTimer.restartTimer ((0 : Nat) : Int) 500 = some s' ∧
        s'.prev_millis 0 = 500 ∧ s'.numRuns = timeoutTimer.numRuns ∧
        s'.enabled = timeoutTimer.enabled ∧ s'.delays = timeoutTimer.delays ∧
        s'.maxNumRuns = timeoutTimer.maxNumRuns ∧ s'.callbacks = timeoutTimer.callbacks ∧
        s'.toBeCalled = timeoutTimer.toBeCalled ∧ s'.numTimers = timeoutTimer.numTimers ∧
        (∀ j, j ≠ 0 → s'.prev_millis j = timeoutTimer.prev_millis j) ∧
        (∀ (w t : Nat) (cbs : Callbacks) (s'' : SimpleTimer) (log : List Invocation) (m : Nat),
          run w cbs t s' = some (s'', log) → (0, m) ∈ log →
            toULong w (timeoutTimer.delays 0) ≤ usub w t 500) ∧
        (∀ (s0 : SimpleTimer), s0.prev_millis 0 = 500 →
          ∀ (w t : Nat) (cbs : Callbacks) (s'' : SimpleTimer) (log : List Invocation) (m : Nat),
            run w cbs t s0 = some (s'', log) → (0, m) ∈ log →
              toULong w (s0.delays 0) ≤ usub w t 500) ∧
        (∀ (c : Call) (s1 s2 : SimpleTimer), c.exec s1 = some s2 →
          s2.prev_millis 0 = s1.prev_millis 0 ∨
          c = Call.restartTimer ((0 : Nat) : Int) (s2.prev_millis 0) ∨
          (s1.callbacks 0 = 0 ∧ Call.Registers c (s2.delays 0) (s2.prev_millis 0))) ∧
        (∀ (w : Nat) (us : List Nat) (s'' : SimpleTimer) (logs : List (List Invocation)),
          runs w quiet us s' = some (s'', logs) →
          ∀ u, firstFiring 0 us logs = some u →
            toULong w (timeoutTimer.delays 0) ≤ usub w u 500)) :=
  ⟨by decide,
    C15_restartTimer_resets_baseline timeoutTimer 0 500
      (by decide)⟩

/-- C16 (refuted on the code): slots 0 and 1 hold forever timers that are both
due; during the dispatch pass the callback of slot 0 cancels slot 1 and
registers a new timer (method 9, period 5000), which gets the lowest free slot,
slot 1; the mark toBeCalled[1] made by the evaluation pass is still there, so
the same poll invokes method 9 for slot 1. -/
theorem C16_new_timer_fires_in_same_poll :
    (twoTimers.callbacks 0, twoTimers.callbacks 1, twoTimers.numTimers) = (7, 8, 2) ∧
    (evalPass 32 100 twoTimers).toBeCalled 1 = DEFCALL_RUNONLY ∧
    (run 32 cancelAndRegister 100 twoTimers).map
        (fun r => (r.2, r.1.callbacks 1, r.1.delays 1, r.1.prev_millis 1, r.1.numRuns 1)) =
      some ([(0, 7), (1, 9)], 9, 5000, 100, 0) := by
  decide

/-- C17 (refuted on the code): slot 0 (forever), slot 1 (one-shot) and slot 2
are due; the callback of slot 0 cancels slot 1, which unsets callbacks[1] and
takes numTimers from 3 to 2 but leaves toBeCalled[1] at DEFCALL_RUNANDDEL; the
dispatch of slot 1 then calls through the null pointer callbacks[1], which has
no defined result, so the callback that was registered in slot 1 is not
invoked; the deleteTimer(1) that follows in run would take numTimers to 1 while
two slots are occupied. -/
theorem C17_cancelled_slot_dispatched_through_null :
    (threeTimers.callbacks 1, threeTimers.numTimers, occupiedCount threeTimers) = (8, 3, 3) ∧
    (evalPass 32 100 threeTimers).toBeCalled 1 = DEFCALL_RUNANDDEL ∧
    (dispatchSlot cancelNext (evalPass 32 100 threeTimers, []) 0).map
        (fun st => (st.2, st.1.callbacks 1, st.1.toBeCalled 1, st.1.numTimers)) =
      some ([(0, 7)], 0, DEFCALL_RUNANDDEL, 2) ∧
    ((dispatchSlot cancelNext (evalPass 32 100 threeTimers, []) 0).bind
        (fun st => invoke cancelNext 1 st)).isNone = true ∧
    (run 32 cancelNext 100 threeTimers).isNone = true ∧
    ((dispatchSlot cancelNext (evalPass 32 100 threeTimers, []) 0).bind
        (fun st => st.1.deleteTimer 1)).map (fun s => (s.numTimers, occupiedCount s)) =
      some (1, 2) := by
  decide

/-- C18: for an occupied slot i whose elapsed time at the poll is at least its
period, however large, the first loop of run sets prev_millis[i] to the clock
reading itself, enabled or not; whatever the callbacks do, the poll makes at
most one invocation for slot i; and when the callbacks make no call on the
object, run returns with prev_millis[i] equal to the clock reading. -/
theorem C18_missed_periods_coalesced (w t : Nat) (s : SimpleTimer) (i : Nat)
    (hi : i < MAX_TIMERS) (hocc : s.callbacks i ≠ 0)
    (hdue : toULong w (s.delays i) ≤ usub w t (s.prev_millis i)) :
    (evalPass w t s).prev_millis i = t ∧
    (∀ (cbs : Callbacks) (s' : SimpleTimer) (log : List Invocation),
      run w cbs t s = some (s', log) →
        (log.filter (fun e => decide (e.1 = i))).length ≤ 1) ∧
    (∃ s' log, run w quiet t s = some (s', log) ∧
      (log.filter (fun e => decide (e.1 = i))).length ≤ 1 ∧ s'.prev_millis i = t) := by
  have hp : prevAfter w t s i = t := by
    simp [prevAfter, isDue, hocc, hdue]
  refine ⟨?_, ?_, ?_⟩
  · rw [evalPass_prev_millis w t s i hi]; exact hp
  · intro cbs s' log hrun
    exact run_log_once w cbs t s s' log hrun i
  · obtain ⟨s', hrun, _, hpt, _⟩ := run_quiet_spec w t s
    exact ⟨s', _, hrun, run_log_once w quiet t s s' _ hrun i, (hpt i hi).1.trans hp⟩

/-- Witness for C18: a disabled timer with period 100 polled 1050 after its
registration, more than ten periods late. -/
theorem C18_missed_periods_coalesced_witness :
    (0 < MAX_TIMERS ∧ ((new zeroMem 0).setInterval 100 7 0).1.callbacks 0 ≠ 0 ∧
      toULong 32 (((new zeroMem 0).setInterval 100 7 0).1.delays 0) ≤
        usub 32 1050 (((new zeroMem 0).setInterval 100 7 0).1.prev_millis 0)) ∧
    (evalPass 32 1050 ((new zeroMem 0).setInterval 100 7 0).1).prev_millis 0 = 1050 ∧
    (∀ (cbs : Callbacks) (s' : SimpleTimer) (log : List Invocation),
      run 32 cbs 1050 ((new zeroMem 0).setInterval 100 7 0).1 = some (s', log) →
        (log.filter (fun e => decide (e.1 = 0))).length ≤ 1) ∧
    (∃ s' log, run 32 quiet 1050 ((new zeroMem 0).setInterval 100 7 0).1 = some (s', log) ∧
      (log.filter (fun e => decide (e.1 = 0))).length ≤ 1 ∧ s'.prev_millis 0 = 1050) :=
  ⟨by decide,
    C18_missed_periods_coalesced 32 1050 ((new zeroMem 0).setInterval 100 7 0).1 0
      (by decide) (by decide) (by decide)⟩

/-- C19: with callbacks that make no call on the object, two polls in a row
at the same clock reading both return; the second invokes no callback of a
slot whose period (as an unsigned value) is above 0, leaves every such slot and
every free slot as the first poll left it, and, when every timer has a period
above 0, invokes nothing and leaves the whole object as the first poll left it
(the scratch array toBeCalled, which run rewrites before it reads it, apart). -/
theorem C19_poll_idempotent_at_fixed_time (w t : Nat) (s : SimpleTimer) :
    ∃ s1 log1 s2 log2, run w quiet t s = some (s1, log1) ∧ run w quiet t s1 = some (s2, log2) ∧
      (∀ i m, (i, m) ∈ log2 → toULong w (s.delays i) = 0 ∧ toULong w (s1.delays i) = 0) ∧
      (∀ i, i < MAX_TIMERS → (0 < toULong w (s.delays i) ∨ s.callbacks i = 0) →
        s2.callbacks i = s1.callbacks i ∧ s2.delays i = s1.delays i ∧
        s2.maxNumRuns i = s1.maxNumRuns i ∧ s2.numRuns i = s1.numRuns i ∧
        s2.enabled i = s1.enabled i ∧ s2.prev_millis i = s1.prev_millis i) ∧
      ((∀ i, i < MAX_TIMERS → s.callbacks i ≠ 0 → 0 < toULong w (s.delays i)) →
        log2 = [] ∧ s2.callbacks = s1.callbacks ∧ s2.delays = s1.delays ∧
        s2.maxNumRuns = s1.maxNumRuns ∧ s2.numRuns = s1.numRuns ∧
        s2.enabled = s1.enabled ∧ s2.prev_millis = s1.prev_millis ∧
        s2.numTimers = s1.numTimers) := by
  obtain ⟨s1, hrun1, _⟩ := run_quiet_spec w t s
  obtain ⟨s2, hrun2, hmx, hpt, hkeep, hout, hsame, _⟩ := run_quiet_spec w t s1
  have hnd : ∀ i, i < MAX_TIMERS → (0 < toULong w (s.delays i) ∨ s.callbacks i = 0) →
      isDue w t s1 i = false :=
    fun i hi hpos => not_due_again w t s s1 _ hrun1 i hi hpos
  have hslot : ∀ i, i < MAX_TIMERS → (0 < toULong w (s.delays i) ∨ s.callbacks i = 0) →
      s2.callbacks i = s1.callbacks i ∧ s2.delays i = s1.delays i ∧
      s2.maxNumRuns i = s1.maxNumRuns i ∧ s2.numRuns i = s1.numRuns i ∧
      s2.enabled i = s1.enabled i ∧ s2.prev_millis i = s1.prev_millis i := by
    intro i hi hpos
    obtain ⟨hm, hr, hp⟩ := not_due_after w t s1 i (hnd i hi hpos)
    have hk := hkeep i hi (by rw [hm]; decide)
    exact ⟨hk.1, hk.2.2.1, by rw [hmx], hk.2.2.2.trans hr, hk.2.1, (hpt i hi).1.trans hp⟩
  refine ⟨s1, _, s2, _, hrun1, hrun2, ?_, hslot, ?_⟩
  · intro i m hmem
    rw [mem_quiet_log] at hmem
    obtain ⟨hi, hf⟩ := hmem
    have hdue1 : isDue w t s1 i = true := by
      by_contra hcon
      have hfalse : isDue w t s1 i = false := by simpa using hcon
      have hm := (not_due_after w t s1 i hfalse).1
      simp [firing, hm, DEFCALL_DONTRUN, DEFCALL_RUNONLY, DEFCALL_RUNANDDEL] at hf
    have hzero : toULong w (s.delays i) = 0 := by
      by_contra hne
      have := hnd i hi (Or.inl (Nat.pos_of_ne_zero hne))
      rw [this] at hdue1
      cases hdue1
    refine ⟨hzero, ?_⟩
    rcases run_quiet_same_or_cleared w t s s1 _ hrun1 i with ⟨_, hd, _⟩ | hfree
    · rw [hd]; exact hzero
    · simp [isDue, hfree] at hdue1
  · intro hall
    have hpos : ∀ i, i < MAX_TIMERS → (0 < toULong w (s.delays i) ∨ s.callbacks i = 0) := by
      intro i hi
      by_cases hc : s.callbacks i = 0
      · exact Or.inr hc
      · exact Or.inl (hall i hi hc)
    have hmark : ∀ i, i < MAX_TIMERS → markAfter w t s1 i = DEFCALL_DONTRUN :=
      fun i hi => (not_due_after w t s1 i (hnd i hi (hpos i hi))).1
    have hfun : ∀ i, s2.callbacks i = s1.callbacks i ∧ s2.delays i = s1.delays i ∧
        s2.numRuns i = s1.numRuns i ∧ s2.enabled i = s1.enabled i ∧
        s2.prev_millis i = s1.prev_millis i := by
      intro i
      by_cases hi : i < MAX_TIMERS
      · have := hslot i hi (hpos i hi)
        exact ⟨this.1, this.2.1, this.2.2.2.1, this.2.2.2.2.1, this.2.2.2.2.2⟩
      · have := hout i (by omega)
        exact ⟨this.2.2.1, this.2.2.2.2.1, this.2.2.2.2.2, this.2.2.2.1, this.1⟩
    refine ⟨?_, funext fun i => (hfun i).1, funext fun i => (hfun i).2.1, hmx,
      funext fun i => (hfun i).2.2.1, funext fun i => (hfun i).2.2.2.1,
      funext fun i => (hfun i).2.2.2.2, ?_⟩
    · apply filterMap_range_none
      intro j hj
      simp [firing, hmark j hj, DEFCALL_DONTRUN, DEFCALL_RUNONLY, DEFCALL_RUNANDDEL]
    · apply hsame
      intro j hj
      rw [hmark j hj]
      decide

/-- C20 (refuted on the code): slot 0 (forever), slot 1 (one-shot) and slot 2
are due; during the dispatch pass the callback of slot 0 cancels slot 1 and
registers a timer with run limit -1 (method 11, period 5000), which gets the
lowest free slot, slot 1; the mark toBeCalled[1] = DEFCALL_RUNANDDEL made by
the evaluation pass for the cancelled timer is still there, so the same run
invokes method 11 and then frees slot 1.  With a forever timer in slot 1 the
mark is DEFCALL_RUNONLY and the same run invokes method 11 and leaves the
timer in its slot. -/
theorem C20_negative_limit_timer_invoked_and_freed :
    (threeTimers.callbacks 1, threeTimers.maxNumRuns 1) = (8, RUN_ONCE) ∧
    (evalPass 32 100 threeTimers).toBeCalled 1 = DEFCALL_RUNANDDEL ∧
    (dispatchSlot cancelAndRegisterNegative (evalPass 32 100 threeTimers, []) 0).map
        (fun st => (st.2, st.1.callbacks 1, st.1.maxNumRuns 1, st.1.numRuns 1,
          st.1.toBeCalled 1)) =
      some ([(0, 7)], 11, -1, 0, DEFCALL_RUNANDDEL) ∧
    (run 32 cancelAndRegisterNegative 100 threeTimers).map
        (fun r => (r.2, r.1.callbacks 1)) =
      some ([(0, 7), (1, 11), (2, 9)], 0) ∧
    (run 32 cancelAndRegisterNegative 100 twoTimers).map
        (fun r => (r.2, r.1.callbacks 1, r.1.maxNumRuns 1, r.1.numRuns 1)) =
      some ([(0, 7), (1, 11)], 11, -1, 0) := by
  decide

end SimpleTimer
